import Mathlib

/-!
Maze-chase game engine (`try/mainwindow.cpp`).

A shallow embedding of the simulation core of `MainWindow`: the wall grid built by
`initMaze`, the pellet set built by `initFood`, the enemy rosters of `initEnemies`,
the `aStarNextStep` path finder, the per-tick functions `moveEnemies`,
`checkCollisions`, `updateFrame`, the session entry points `startGame`,
`handleWin`, `handleGameOver`, and the leaderboard functions `saveScore`,
`loadLeaderboard`.

Conventions of the embedding.

* C++ `int` values are mathematical integers (`Int`).  No computation of the program
  comes near the 32-bit range for the coordinates a 25 x 25 board can produce; the range
  is visible in two places.  The `INT_MAX` sentinel of the path finder is kept literally.
  The member `score` is never reset and grows by 10 with every pellet of every session,
  so `score += 10` is the 32-bit addition: the sum is reduced modulo `2^32` into the
  range of `int` (`wrapInt`).
* The member variables of `MainWindow` that the simulation reads or writes are the
  fields of the structure `MainWindow`; widgets, audio and drawing are left out.
* An element access `maze[y][x]` outside the stored vectors has no defined result in the
  program.  The read `mazeAt` answers `none` there.  The write `setCell` is total, and
  `writeCell` is the same write with the index check made explicit; `initMazeChecked` is
  `initMaze` with every access checked, so that what the bounds guard of the wall loop
  prevents can be stated.
* `QSet<QPair<int,int>>` is a duplicate-free list (only membership, emptiness and
  size are ever observed), `QMap` is a finite partial function.
* `std::priority_queue` is modelled by its contract (`PQueue`): any implementation
  whose `top`/`pop` hands back an element that the comparator ranks first.
* `QTimer::singleShot` callbacks are recorded in the list `pending`; the text file
  `leaderboard.txt` is the string `leaderboardFile`.
* The Qt text functions that `startGame` and `loadLeaderboard` call
  (`QString::trimmed`, `QTextStream::readLine`, `QString::split`, `QString::toInt`) work
  on lists of characters, with white space as `QChar::isSpace` defines it; `std::sort` is
  modelled by its contract (`Sorter`), since it fixes no order among equal scores.
-/

namespace Pacman

/-! ## Data model (`mainwindow.h`) -/

/-- The tag `enum class EnemyType { Simple, Smart }`. -/
inductive EnemyType where
  | Simple
  | Smart
deriving DecidableEq, Repr

/-- The `Qt::GlobalColor` values used for enemies. -/
inductive Color where
  | green
  | blue
  | red
  | magenta
  | cyan
  | white
deriving DecidableEq, Repr

/-- A `QRect`, stored as Qt stores it: the inclusive corners `(x1, y1)` and `(x2, y2)`. -/
structure QRect where
  x1 : Int
  y1 : Int
  x2 : Int
  y2 : Int
deriving DecidableEq, Repr

/-- The default-constructed `QRect()`: the null rectangle `(0, 0, -1, -1)`. -/
def QRect.null : QRect := ⟨0, 0, -1, -1⟩

/-- The constructor `QRect(x, y, width, height)`. -/
def QRect.ofSize (x y width height : Int) : QRect := ⟨x, y, x + width - 1, y + height - 1⟩

/-- The test `QRect::contains(QPoint)` (edges included), as Qt computes it. -/
def QRect.contains (r : QRect) (px py : Int) : Bool :=
  let l := if r.x2 < r.x1 - 1 then r.x2 else r.x1
  let rr := if r.x2 < r.x1 - 1 then r.x1 else r.x2
  let t := if r.y2 < r.y1 - 1 then r.y2 else r.y1
  let b := if r.y2 < r.y1 - 1 then r.y1 else r.y2
  !(decide (px < l) || decide (px > rr)) && !(decide (py < t) || decide (py > b))

/-- The record `struct Enemy`. -/
structure Enemy where
  x : Int
  y : Int
  dx : Int
  dy : Int
  color : Color
  type : EnemyType
  habitat : QRect
  moveInterval : Int
  cooldown : Int
deriving DecidableEq, Repr

/-- The callbacks that the program hands to `QTimer::singleShot`. -/
inductive Callback where
  | gameOver
  | win
deriving DecidableEq, Repr

/-- The simulation state: the member variables of `MainWindow` that the game logic uses,
the two function-local statics of `startGame` (`asked`, `playerName`), whether the game
timer is running, whether the level-select overlay is shown, the scheduled single-shot
callbacks and the contents of `leaderboard.txt`. -/
structure MainWindow where
  rows : Nat
  cols : Nat
  maze : List (List Int)
  food : List (Int × Int)
  enemies : List Enemy
  playerX : Int
  playerY : Int
  playerDirX : Int
  playerDirY : Int
  mouthOpen : Bool
  levels : List (List (Int × Int))
  currentLevel : Int
  timerActive : Bool
  lives : Int
  score : Int
  currentPlayerName : String
  asked : Bool
  playerName : String
  menuVisible : Bool
  pending : List Callback
  leaderboardFile : String

/-! ## Level data (`setupLevels`) -/

/-- The first list of `setupLevels` (C++ variable `lvl4`, stored last in `levels`). -/
def lvl4 : List (Int × Int) :=
  [
    (1, 2), (2, 2), (3, 2), (3, 3), (3, 4), (2, 4), (6, 2), (6, 3), (6, 4), (7, 4), (8, 4),
    (8, 3), (10, 10), (11, 10), (12, 10), (13, 10), (15, 10), (14, 10), (15, 11), (15, 12),
    (13, 13), (14, 13), (15, 13), (10, 13), (9, 13), (8, 13), (8, 12), (8, 11), (8, 10),
    (9, 10), (10, 3), (11, 3), (11, 4), (11, 5), (11, 6), (10, 6), (9, 6), (16, 2), (15, 2),
    (15, 3), (15, 4), (15, 5), (16, 5), (17, 5), (18, 5), (18, 4), (18, 3), (19, 3), (20, 3),
    (20, 4), (13, 4), (13, 5), (13, 6), (13, 7), (14, 7), (15, 7), (16, 7), (17, 7), (18, 7),
    (20, 6), (20, 7), (22, 3), (23, 3), (22, 4), (22, 5), (1, 6), (2, 6), (3, 6), (3, 7),
    (3, 9), (3, 10), (2, 10), (1, 10), (5, 8), (5, 9), (5, 10), (5, 11), (6, 11), (6, 12),
    (6, 13), (5, 13), (4, 13), (2, 13), (3, 13), (2, 12), (7, 8), (7, 7), (7, 6), (6, 6),
    (5, 6), (17, 13), (18, 13), (19, 13), (20, 13), (20, 12), (20, 11), (23, 12), (20, 10),
    (21, 10), (22, 10), (9, 8), (10, 8), (11, 8), (1, 15), (2, 15), (3, 15), (4, 15), (4, 16),
    (4, 17), (4, 18), (5, 18), (6, 18), (2, 18), (2, 17), (2, 19), (2, 20), (3, 20), (4, 20),
    (4, 21), (7, 18), (7, 19), (6, 22), (6, 21), (7, 21), (8, 21), (9, 21), (9, 16), (9, 17),
    (9, 18), (9, 15), (7, 15), (8, 15), (4, 22), (14, 8), (11, 15), (12, 15), (13, 15),
    (14, 15), (14, 16), (14, 17), (13, 17), (12, 17), (12, 18), (12, 19), (11, 19), (17, 14),
    (17, 15), (17, 16), (17, 17), (16, 17), (16, 18), (16, 19), (15, 19), (15, 20), (17, 12),
    (17, 11), (17, 10), (15, 21), (14, 21), (13, 21), (19, 17), (19, 18), (19, 19), (18, 19),
    (19, 16), (20, 16), (21, 16), (22, 16), (22, 17), (20, 21), (21, 21), (19, 21), (21, 18),
    (22, 18), (21, 19), (21, 20), (18, 21), (18, 22), (22, 12), (22, 13), (22, 14)
  ]

/-- The second list of `setupLevels` (C++ variable `lvl2`). -/
def lvl2 : List (Int × Int) :=
  [
    (5, 2), (5, 3), (5, 4), (5, 5), (4, 5), (2, 2), (2, 3), (3, 2), (3, 3), (3, 5), (3, 6),
    (3, 7), (2, 9), (3, 9), (3, 10), (3, 11), (3, 12), (2, 12), (16, 10), (15, 9), (14, 8),
    (13, 8), (12, 9), (11, 10), (16, 14), (15, 15), (11, 14), (12, 15), (13, 16), (14, 16),
    (16, 11), (16, 13), (11, 11), (11, 13), (17, 11), (18, 11), (17, 13), (18, 13), (5, 11),
    (6, 11), (7, 11), (9, 8), (9, 9), (9, 10), (9, 11), (8, 11), (5, 9), (6, 9), (7, 9), (7, 6),
    (7, 7), (6, 7), (6, 5), (7, 5), (8, 3), (8, 2), (10, 2), (9, 2), (11, 2), (12, 2), (13, 2),
    (11, 3), (11, 4), (10, 4), (10, 5), (10, 6), (14, 5), (15, 5), (15, 4), (15, 3), (16, 3),
    (17, 3), (17, 2), (18, 2), (19, 2), (19, 3), (19, 4), (19, 5), (18, 5), (17, 5), (19, 11),
    (20, 11), (19, 13), (20, 13), (22, 2), (22, 3), (21, 3), (21, 4), (21, 5), (22, 5), (22, 6),
    (22, 7), (21, 7), (20, 7), (18, 7), (19, 7), (22, 9), (22, 10), (20, 9), (21, 9), (19, 9),
    (22, 13), (22, 14), (22, 15), (22, 16), (21, 16), (20, 16), (19, 16), (18, 16), (18, 18),
    (18, 15), (19, 15), (6, 14), (5, 15), (4, 16), (3, 17), (2, 18), (9, 14), (8, 15), (7, 16),
    (6, 17), (5, 18), (4, 19), (4, 20), (4, 21), (6, 12), (1, 18), (2, 14), (2, 13), (2, 15),
    (14, 12), (13, 12), (13, 11), (14, 11), (14, 13), (13, 13), (8, 19), (7, 19), (7, 20),
    (14, 22), (15, 22), (16, 22), (16, 20), (16, 21), (16, 19), (20, 18), (20, 19), (20, 20),
    (19, 20), (18, 20), (18, 21), (18, 22), (19, 22), (20, 22), (21, 22), (22, 22), (22, 18),
    (22, 19), (22, 20), (10, 19), (9, 19), (11, 21), (11, 19), (11, 20), (11, 18), (11, 17),
    (10, 17), (11, 22), (12, 20), (12, 19), (12, 21), (2, 21), (3, 21), (2, 22), (3, 22),
    (4, 22), (7, 21), (7, 22), (8, 22), (9, 22), (9, 21), (16, 17), (17, 17), (18, 17),
    (16, 18), (15, 19), (14, 19), (13, 5), (13, 6), (14, 6)
  ]

/-- The third list of `setupLevels` (C++ variable `lvl3`). -/
def lvl3 : List (Int × Int) :=
  [
    (5, 2), (5, 3), (5, 4), (5, 5), (5, 6), (19, 2), (19, 3), (19, 4), (19, 5), (19, 6), (7, 2),
    (8, 2), (9, 2), (10, 2), (17, 2), (16, 2), (15, 2), (14, 2), (2, 2), (3, 2), (3, 3), (2, 3),
    (2, 5), (3, 5), (3, 6), (2, 6), (21, 2), (22, 2), (22, 3), (21, 3), (21, 5), (22, 5),
    (22, 6), (21, 6), (2, 21), (2, 22), (3, 22), (3, 21), (5, 22), (5, 21), (5, 20), (5, 19),
    (5, 18), (2, 18), (3, 18), (3, 19), (2, 19), (22, 22), (21, 22), (21, 21), (22, 21),
    (21, 19), (21, 18), (22, 18), (22, 19), (19, 18), (19, 19), (19, 20), (19, 21), (19, 22),
    (7, 22), (8, 22), (9, 22), (10, 22), (14, 22), (15, 22), (16, 22), (17, 22), (7, 4), (8, 4),
    (7, 5), (16, 4), (17, 4), (17, 5), (7, 19), (7, 20), (8, 20), (17, 19), (17, 20), (16, 20),
    (4, 8), (4, 9), (4, 10), (4, 14), (4, 15), (4, 16), (2, 12), (3, 12), (4, 12), (5, 12),
    (6, 12), (20, 8), (20, 9), (20, 10), (20, 12), (19, 12), (21, 12), (22, 12), (18, 12),
    (20, 14), (20, 15), (20, 16), (12, 2), (12, 3), (12, 4), (12, 5), (12, 6), (12, 7), (12, 8),
    (12, 16), (12, 17), (12, 18), (12, 19), (12, 20), (12, 21), (12, 22), (2, 9), (22, 9),
    (22, 15), (2, 15), (8, 11), (8, 10), (8, 9), (8, 8), (8, 13), (8, 14), (8, 15), (8, 16),
    (9, 6), (10, 6), (10, 7), (10, 8), (9, 18), (10, 18), (10, 17), (10, 16), (10, 10),
    (10, 11), (10, 12), (10, 13), (10, 14), (5, 8), (6, 9), (7, 10), (5, 16), (6, 15), (7, 14),
    (14, 6), (15, 6), (14, 7), (14, 8), (14, 16), (14, 17), (14, 18), (15, 18), (14, 10),
    (14, 11), (14, 12), (14, 13), (16, 8), (16, 9), (16, 10), (16, 11), (16, 13), (16, 14),
    (16, 15), (16, 16), (17, 14), (18, 15), (19, 16), (17, 10), (18, 9), (19, 8), (9, 4),
    (15, 4), (9, 20), (15, 20), (11, 10), (13, 10), (11, 14), (14, 14), (13, 14), (12, 12)
  ]

/-- The fourth list of `setupLevels` (C++ variable `lvl1`, stored first in `levels`). -/
def lvl1 : List (Int × Int) :=
  [
    (2, 2), (2, 3), (2, 4), (2, 5), (2, 6), (3, 2), (4, 2), (5, 2), (6, 2), (7, 2), (6, 3),
    (3, 6), (2, 7), (6, 4), (4, 6), (22, 2), (21, 2), (20, 2), (19, 2), (18, 2), (17, 2),
    (22, 3), (22, 4), (22, 5), (22, 6), (22, 7), (18, 3), (18, 4), (20, 6), (21, 6), (2, 22),
    (2, 21), (2, 20), (2, 19), (2, 18), (2, 17), (3, 22), (4, 22), (5, 22), (6, 22), (7, 22),
    (3, 18), (4, 18), (6, 21), (6, 20), (22, 17), (22, 18), (22, 19), (22, 20), (22, 21),
    (22, 22), (21, 22), (20, 22), (19, 22), (18, 22), (17, 22), (18, 21), (18, 20), (21, 18),
    (20, 18), (4, 20), (20, 20), (20, 4), (4, 4), (6, 6), (6, 7), (6, 8), (6, 9), (6, 10),
    (6, 18), (6, 17), (6, 16), (6, 15), (6, 14), (18, 18), (18, 17), (18, 16), (18, 15),
    (18, 14), (18, 6), (18, 7), (18, 8), (18, 9), (18, 10), (9, 2), (10, 2), (11, 2), (13, 2),
    (14, 2), (15, 2), (9, 22), (10, 22), (11, 22), (13, 22), (14, 22), (15, 22), (4, 8), (4, 9),
    (4, 10), (4, 14), (4, 15), (4, 16), (20, 8), (20, 9), (20, 10), (20, 14), (20, 15),
    (20, 16), (21, 12), (22, 12), (2, 12), (3, 12), (22, 9), (22, 10), (22, 11), (2, 9),
    (2, 10), (2, 11), (22, 13), (22, 14), (22, 15), (2, 13), (2, 14), (2, 15), (9, 4), (10, 5),
    (11, 6), (12, 7), (13, 8), (14, 9), (15, 10), (15, 4), (14, 5), (13, 6), (11, 8), (10, 9),
    (9, 10), (9, 20), (10, 19), (11, 18), (12, 17), (13, 16), (14, 15), (15, 14), (11, 16),
    (10, 15), (9, 14), (13, 18), (14, 19), (15, 20), (16, 6), (16, 7), (16, 8), (8, 6), (8, 7),
    (8, 8), (8, 16), (8, 17), (8, 18), (16, 16), (16, 17), (16, 18), (12, 10), (12, 11),
    (12, 12), (12, 13), (12, 14), (5, 12), (6, 12), (8, 12), (9, 12), (15, 12), (16, 12),
    (18, 12), (19, 12)
  ]

/-- The assignment `levels = { lvl1, lvl2, lvl3, lvl4 }` at the end of `setupLevels`. -/
def setupLevels (w : MainWindow) : MainWindow :=
  { w with levels := [lvl1, lvl2, lvl3, lvl4] }

/-! ## Grid (`initMaze`, `isWalkable`) -/

/-- The read `maze[y][x]`; `none` when the index is outside the stored vectors. -/
def mazeAt (maze : List (List Int)) (y x : Nat) : Option Int :=
  match maze[y]? with
  | some row => row[x]?
  | none => none

/-- The write `maze[y][x] = v`. -/
def setCell : List (List Int) → Nat → Nat → Int → List (List Int)
  | [], _, _, _ => []
  | row :: rest, 0, x, v => row.set x v :: rest
  | row :: rest, y + 1, x, v => row :: setCell rest y x v

/-- The first loop of boundary walls: `maze[0][x] = 1; maze[rows-1][x] = 1` for each column. -/
def stampRows (rows : Nat) (maze : List (List Int)) (xs : List Nat) : List (List Int) :=
  xs.foldl (fun m x => setCell (setCell m 0 x 1) (rows - 1) x 1) maze

/-- The second loop of boundary walls: `maze[y][0] = 1; maze[y][cols-1] = 1` for each row. -/
def stampCols (cols : Nat) (maze : List (List Int)) (ys : List Nat) : List (List Int) :=
  ys.foldl (fun m y => setCell (setCell m y 0 1) y (cols - 1) 1) maze

/-- The loop over the level's wall list, with its bounds guard. -/
def stampWalls (rows cols : Nat) (maze : List (List Int)) (walls : List (Int × Int)) :
    List (List Int) :=
  walls.foldl
    (fun m p =>
      if p.1 ≥ 0 ∧ p.1 < (cols : Int) ∧ p.2 ≥ 0 ∧ p.2 < (rows : Int) then
        setCell m p.2.toNat p.1.toNat 1
      else m)
    maze

/-- The level index that `initMaze` really loads: indices outside `1..levels.size()` become 1. -/
def clampLevel (w : MainWindow) (levelNumber : Int) : Int :=
  if levelNumber ≤ 0 ∨ levelNumber > (w.levels.length : Int) then 1 else levelNumber

/-- The wall list `levels[levelNumber - 1]` read by `initMaze` after clamping. -/
def currentWalls (w : MainWindow) (levelNumber : Int) : List (Int × Int) :=
  w.levels.getD (clampLevel w levelNumber - 1).toNat []

/-- The function `MainWindow::initMaze`. -/
def initMaze (w : MainWindow) (levelNumber : Int) : MainWindow :=
  let maze0 := List.replicate w.rows (List.replicate w.cols (0 : Int))
  let maze1 := stampRows w.rows maze0 (List.range w.cols)
  let maze2 := stampCols w.cols maze1 (List.range w.rows)
  let maze3 := stampWalls w.rows w.cols maze2 (currentWalls w levelNumber)
  { w with maze := maze3, playerX := 1, playerY := 1 }

/-- The write `maze[y][x] = v` through `QVector::operator[]`, whose indices must address
stored elements: `none` when `y` or `x` is negative or past the end of its vector. -/
def writeCell (maze : List (List Int)) (y x : Int) (v : Int) : Option (List (List Int)) :=
  if 0 ≤ y ∧ 0 ≤ x ∧ (mazeAt maze y.toNat x.toNat).isSome then
    some (setCell maze y.toNat x.toNat v)
  else none

/-- The function `MainWindow::initMaze` with every element access checked: the result is
`none` as soon as a write, or the read `levels[levelNumber - 1]`, falls outside the
stored vectors. -/
def initMazeChecked (w : MainWindow) (levelNumber : Int) : Option MainWindow :=
  let maze0 := List.replicate w.rows (List.replicate w.cols (0 : Int))
  ((List.range w.cols).foldlM
      (fun m (x : Nat) =>
        (writeCell m 0 x 1).bind (fun m1 => writeCell m1 ((w.rows : Int) - 1) x 1))
      maze0).bind fun maze1 =>
  ((List.range w.rows).foldlM
      (fun m (y : Nat) =>
        (writeCell m y 0 1).bind (fun m1 => writeCell m1 y ((w.cols : Int) - 1) 1))
      maze1).bind fun maze2 =>
  (w.levels[(clampLevel w levelNumber - 1).toNat]?).bind fun walls =>
  (walls.foldlM
      (fun m p =>
        if p.1 ≥ 0 ∧ p.1 < (w.cols : Int) ∧ p.2 ≥ 0 ∧ p.2 < (w.rows : Int) then
          writeCell m p.2 p.1 1
        else some m)
      maze2).map fun maze3 =>
  { w with maze := maze3, playerX := 1, playerY := 1 }

/-- The function `MainWindow::isWalkable`: the bounds guard, then the read of `maze[y][x]`. -/
def isWalkable (w : MainWindow) (x y : Int) : Bool :=
  if x < 0 ∨ y < 0 ∨ x ≥ (w.cols : Int) ∨ y ≥ (w.rows : Int) then false
  else mazeAt w.maze y.toNat x.toNat == some 0

/-! ## Pellets (`initFood`) -/

/-- The call `QSet::insert`. -/
def setInsert (s : List (Int × Int)) (p : Int × Int) : List (Int × Int) :=
  if p ∈ s then s else p :: s

/-- The call `QSet::remove`. -/
def setRemove (s : List (Int × Int)) (p : Int × Int) : List (Int × Int) :=
  s.filter (fun q => q != p)

/-- The inner loop of `initFood`: one row `y`, columns `1 .. cols-2`. -/
def foodRow (w : MainWindow) (food : List (Int × Int)) (y : Nat) : List (Int × Int) :=
  (List.range' 1 (w.cols - 2)).foldl
    (fun f x => if mazeAt w.maze y x == some 0 then setInsert f ((x : Int), (y : Int)) else f)
    food

/-- The function `MainWindow::initFood`. -/
def initFood (w : MainWindow) : MainWindow :=
  let food := (List.range' 1 (w.rows - 2)).foldl (foodRow w) []
  { w with food := setRemove food (w.playerX, w.playerY) }

/-! ## Enemy rosters (`initEnemies`) -/

/-- The function `MainWindow::initEnemies`. -/
def initEnemies (w : MainWindow) : MainWindow :=
  let rows : Int := w.rows
  let cols : Int := w.cols
  let topLeft := QRect.ofSize 0 0 (cols / 2) (rows / 2)
  let topRight := QRect.ofSize (cols / 2) 0 (cols - cols / 2) (rows / 2)
  let bottomLeft := QRect.ofSize 0 (rows / 2) (cols / 2) (rows - rows / 2)
  let bottomRight := QRect.ofSize (cols / 2) (rows / 2) (cols - cols / 2) (rows - rows / 2)
  if w.currentLevel = 1 then
    { w with enemies :=
        [ ⟨1, rows - 2, 1, 0, Color.green, EnemyType.Simple, QRect.null, 1, 0⟩,
          ⟨cols - 2, rows - 2, 0, -1, Color.blue, EnemyType.Simple, QRect.null, 1, 1⟩,
          ⟨cols / 2, 1, 1, 0, Color.red, EnemyType.Simple, QRect.null, 1, 0⟩ ] }
  else if w.currentLevel = 2 then
    { w with enemies :=
        [ ⟨10, 2, 1, 0, Color.red, EnemyType.Smart, topLeft, 1, 0⟩,
          ⟨cols - 2, rows - 2, 0, -1, Color.blue, EnemyType.Simple, QRect.null, 1, 0⟩,
          ⟨1, rows - 2, 1, 0, Color.green, EnemyType.Simple, QRect.null, 1, 0⟩ ] }
  else if w.currentLevel = 3 then
    { w with enemies :=
        [ ⟨10, 2, 1, 0, Color.red, EnemyType.Smart, topLeft, 1, 0⟩,
          ⟨cols - 2, 1, -1, 0, Color.magenta, EnemyType.Smart, topRight, 1, 1⟩,
          ⟨1, rows - 2, 1, 0, Color.green, EnemyType.Simple, QRect.null, 1, 0⟩,
          ⟨cols - 2, rows - 2, 0, -1, Color.blue, EnemyType.Simple, QRect.null, 1, 1⟩ ] }
  else if w.currentLevel = 4 then
    { w with enemies :=
        [ ⟨10, 2, 1, 0, Color.cyan, EnemyType.Smart, topLeft, 1, 0⟩,
          ⟨22, 22, -1, 0, Color.green, EnemyType.Smart, bottomRight, 1, 0⟩,
          ⟨2, 22, 1, 0, Color.white, EnemyType.Smart, bottomLeft, 1, 0⟩ ] }
  else
    { w with enemies := [] }

/-! ## Path finder (`aStarNextStep`) -/

/-- The local record `struct Node { QPair<int,int> p; int f; int g; }`. -/
structure Node where
  p : Int × Int
  f : Int
  g : Int
deriving DecidableEq, Repr

/-- The lambda `heuristic`: Manhattan distance. -/
def heuristic (a b : Int × Int) : Int :=
  ((a.1 - b.1).natAbs : Int) + ((a.2 - b.2).natAbs : Int)

/-- The comparator lambda `cmp` handed to `std::priority_queue`. -/
def cmp (a b : Node) : Bool :=
  if a.f ≠ b.f then decide (a.f > b.f) else decide (a.g > b.g)

/-- The contract of `std::priority_queue<Node, std::vector<Node>, decltype(cmp)>`:
a container of nodes (`elems`, up to order) whose `top`/`pop` removes an element that
`cmp` ranks below no other element.  Which of several equally ranked elements comes
first is left to the implementation. -/
structure PQueue where
  Q : Type
  empty : Q
  push : Q → Node → Q
  pop : Q → Option (Node × Q)
  elems : Q → List Node
  elems_empty : elems empty = []
  elems_push : ∀ q n, (elems (push q n)).Perm (n :: elems q)
  pop_none : ∀ q, pop q = none → elems q = []
  pop_some : ∀ q n q', pop q = some (n, q') →
    (elems q).Perm (n :: elems q') ∧ ∀ x ∈ elems q, cmp n x = false

/-- The search state of `aStarNextStep`: the queue `open`, `closedSet`, `cameFrom` and
`gScore`.  (The set `openSet` of the source is written but never read.) -/
structure AStarState (Q : Type) where
  openQ : Q
  closedSet : List (Int × Int)
  cameFrom : Int × Int → Option (Int × Int)
  gScore : Int × Int → Option Int

/-- The assignment `m[k] = v` on a `QMap`. -/
def mapSet {V : Type} (m : Int × Int → Option V) (k : Int × Int) (v : V) :
    Int × Int → Option V :=
  fun q => if q = k then some v else m q

/-- The lambda `pushNeighbor(current, nx_, ny_)`. -/
def pushNeighbor (w : MainWindow) (pq : PQueue) (goal : Int × Int) (st : AStarState pq.Q)
    (current : Int × Int) (nx_ ny_ : Int) : AStarState pq.Q :=
  let np : Int × Int := (nx_, ny_)
  if !isWalkable w nx_ ny_ || st.closedSet.contains np then st
  else
    let tentative_g := (st.gScore current).getD 0 + 1
    let gScore1 := if (st.gScore np).isNone then mapSet st.gScore np 2147483647 else st.gScore
    if tentative_g < (gScore1 np).getD 0 then
      { openQ := pq.push st.openQ ⟨np, tentative_g + heuristic np goal, tentative_g⟩
        closedSet := st.closedSet
        cameFrom := mapSet st.cameFrom np current
        gScore := mapSet gScore1 np tentative_g }
    else
      { st with gScore := gScore1 }

/-- The inner loop `while (cameFrom.contains(step) && cameFrom[step] != start) step = cameFrom[step]`;
`none` when the fuel runs out. -/
def firstStep (cameFrom : Int × Int → Option (Int × Int)) (start : Int × Int) :
    Nat → Int × Int → Option (Int × Int)
  | 0, _ => none
  | fuel + 1, step =>
    match cameFrom step with
    | some prev => if prev ≠ start then firstStep cameFrom start fuel prev else some step
    | none => some step

/-- The loop `while (!open.empty())` of `aStarNextStep`.  The outer `none` means that the
fuel ran out; `some none` is `return false`, `some (some n)` is `return true` with
`(nx, ny) = n`. -/
def aStarLoop (w : MainWindow) (pq : PQueue) (start goal : Int × Int) :
    Nat → AStarState pq.Q → Option (Option (Int × Int))
  | 0, _ => none
  | fuel + 1, st =>
    match pq.pop st.openQ with
    | none => some none
    | some (cur, rest) =>
      let current := cur.p
      if st.closedSet.contains current then
        aStarLoop w pq start goal fuel { st with openQ := rest }
      else
        let st1 : AStarState pq.Q := { st with openQ := rest, closedSet := current :: st.closedSet }
        if current = goal then
          match firstStep st1.cameFrom start (w.rows * w.cols + 2) current with
          | none => none
          | some step =>
            if (st1.cameFrom step).isSome || step == goal then some (some step) else some none
        else
          let cx := current.1
          let cy := current.2
          let st2 := pushNeighbor w pq goal st1 current (cx + 1) cy
          let st3 := pushNeighbor w pq goal st2 current (cx - 1) cy
          let st4 := pushNeighbor w pq goal st3 current cx (cy + 1)
          let st5 := pushNeighbor w pq goal st4 current cx (cy - 1)
          aStarLoop w pq start goal fuel st5

/-- The state before the loop: `gScore[start] = 0` and `start` pushed on `open`. -/
def aStarInit (pq : PQueue) (start goal : Int × Int) : AStarState pq.Q :=
  { openQ := pq.push pq.empty ⟨start, heuristic start goal, 0⟩
    closedSet := []
    cameFrom := fun _ => none
    gScore := mapSet (fun _ => none) start 0 }

/-- A number of loop iterations that `aStarNextStep` never exceeds on a `rows x cols` board. -/
def aStarFuel (w : MainWindow) : Nat :=
  2 * ((w.rows * w.cols + 1) * (w.rows * w.cols + 2)) + 2

/-- The function `MainWindow::aStarNextStep`, with the loop bound made explicit: the outer
`none` would be a search cut off by the bound. -/
def aStarSearch (w : MainWindow) (pq : PQueue) (sx sy tx ty : Int) :
    Option (Option (Int × Int)) :=
  if sx = tx ∧ sy = ty then some none
  else aStarLoop w pq (sx, sy) (tx, ty) (aStarFuel w) (aStarInit pq (sx, sy) (tx, ty))

/-- The function `MainWindow::aStarNextStep`: `some (nx, ny)` for `return true`, `none` for
`return false`. -/
def aStarNextStep (w : MainWindow) (pq : PQueue) (sx sy tx ty : Int) : Option (Int × Int) :=
  match aStarSearch w pq sx sy tx ty with
  | some r => r
  | none => none

/-! ## Per-tick functions (`moveEnemies`, `checkCollisions`, `updateFrame`) -/

/-- The straight-line branch of a Smart enemy (single-axis reversal when blocked). -/
def smartStraight (w : MainWindow) (e : Enemy) : Enemy :=
  let tryx := e.x + e.dx
  let tryy := e.y + e.dy
  if isWalkable w tryx tryy then { e with x := tryx, y := tryy }
  else if e.dx ≠ 0 then { e with dx := -e.dx }
  else if e.dy ≠ 0 then { e with dy := -e.dy }
  else e

/-- The branch of a Simple enemy (each nonzero component reversed when blocked). -/
def simpleStraight (w : MainWindow) (e : Enemy) : Enemy :=
  let tryx := e.x + e.dx
  let tryy := e.y + e.dy
  if isWalkable w tryx tryy then { e with x := tryx, y := tryy }
  else
    let e1 := if e.dx ≠ 0 then { e with dx := -e.dx } else e
    if e1.dy ≠ 0 then { e1 with dy := -e1.dy } else e1

/-- The body of the loop of `moveEnemies` for one enemy. -/
def moveEnemy (w : MainWindow) (pq : PQueue) (e : Enemy) : Enemy :=
  if e.cooldown > 0 then { e with cooldown := e.cooldown - 1 }
  else
    let e := { e with cooldown := e.moveInterval }
    if e.type = EnemyType.Smart then
      let playerInHabitat := e.habitat.contains w.playerX w.playerY
      match (if playerInHabitat then aStarNextStep w pq e.x e.y w.playerX w.playerY else none) with
      | some (nx, ny) => { e with dx := nx - e.x, dy := ny - e.y, x := nx, y := ny }
      | none => smartStraight w e
    else simpleStraight w e

/-- The function `MainWindow::moveEnemies`. -/
def moveEnemies (w : MainWindow) (pq : PQueue) : MainWindow :=
  { w with enemies := w.enemies.map (moveEnemy w pq) }

/-- The value a 32-bit `int` holds when the arithmetic result is `n`: the representative of
`n` modulo `2^32` in the range `-2147483648 .. 2147483647` (two's-complement wrap-around). -/
def wrapInt (n : Int) : Int :=
  (n + 2147483648) % 4294967296 - 2147483648

/-- The pellet pickup shared by `checkCollisions` and `updateFrame`; `score += 10` is an
addition on the 32-bit member `int score`. -/
def eatFood (w : MainWindow) : MainWindow :=
  let cur := (w.playerX, w.playerY)
  if w.food.contains cur then
    { w with food := setRemove w.food cur, score := wrapInt (w.score + 10) }
  else w

/-- The body of the `if` inside the enemy loop of `checkCollisions`: the life-loss reset. -/
def loseLife (w : MainWindow) : MainWindow :=
  let w1 := initEnemies { w with playerX := 1, playerY := 1 }
  let w2 := { w1 with lives := w1.lives - 1 }
  if w2.lives ≤ 0 then
    { w2 with timerActive := false, pending := w2.pending ++ [Callback.gameOver] }
  else w2

/-- The loop `for (auto &e : enemies) if (e.x == playerX && e.y == playerY) { ...; break; }`. -/
def collideLoop (w : MainWindow) : List Enemy → MainWindow
  | [] => w
  | e :: es => if e.x = w.playerX ∧ e.y = w.playerY then loseLife w else collideLoop w es

/-- The function `MainWindow::checkCollisions`. -/
def checkCollisions (w : MainWindow) : MainWindow :=
  let w1 := eatFood w
  collideLoop w1 w1.enemies

/-- The player's move attempt at the start of `updateFrame`. -/
def movePlayer (w : MainWindow) : MainWindow :=
  if ¬ (w.playerDirX = 0 ∧ w.playerDirY = 0) then
    let nx := w.playerX + w.playerDirX
    let ny := w.playerY + w.playerDirY
    if isWalkable w nx ny then eatFood { w with playerX := nx, playerY := ny } else w
  else w

/-- The function `MainWindow::updateFrame` (drawing left out). -/
def updateFrame (w : MainWindow) (pq : PQueue) : MainWindow :=
  let w0 := { w with mouthOpen := !w.mouthOpen }
  let w1 := movePlayer w0
  let w2 := moveEnemies w1 pq
  let w3 := checkCollisions w2
  if w3.food.isEmpty then
    { w3 with timerActive := false, pending := w3.pending ++ [Callback.win] }
  else w3

/-! ## Session flow (`startGame`, `stopGame`, `handleWin`, `handleGameOver`) -/

/-- The function `MainWindow::stopGame`. -/
def stopGame (w : MainWindow) : MainWindow :=
  { w with timerActive := false }

/-- The function `MainWindow::showLevelSelect`. -/
def showLevelSelect (w : MainWindow) : MainWindow :=
  { stopGame w with menuVisible := true }

/-- The function `MainWindow::saveScore` (the file is taken to open): one line
`name,score` is appended to `leaderboard.txt`. -/
def saveScore (w : MainWindow) (name : String) (score : Int) : MainWindow :=
  { w with leaderboardFile := w.leaderboardFile ++ name ++ "," ++ toString score ++ "\n" }

/-- The test `QChar::isSpace`: the space, the control characters tab to carriage return,
next line, the no-break space and the Unicode separators. -/
def isSpace (c : Char) : Bool :=
  c = ' ' || ('\t' ≤ c && c ≤ '\r') || c.toNat = 0x85 || c.toNat = 0xA0 || c.toNat = 0x1680 ||
    (0x2000 ≤ c.toNat && c.toNat ≤ 0x200A) || c.toNat = 0x2028 || c.toNat = 0x2029 ||
    c.toNat = 0x202F || c.toNat = 0x205F || c.toNat = 0x3000

/-- The call `QString::trimmed`: the string without its leading and trailing white space. -/
def trimmed (s : List Char) : List Char :=
  ((s.dropWhile isSpace).reverse.dropWhile isSpace).reverse

/-- The name prompt of `startGame`: the dialog is shown only while the static `asked` is
false; `nameInput` is what `QInputDialog::getText` returns, and
`playerName.trimmed().isEmpty()` decides whether the default name is taken. -/
def askName (w : MainWindow) (nameInput : String) : MainWindow :=
  if !w.asked then
    { w with asked := true
             playerName := if (trimmed nameInput.data).isEmpty then "Player" else nameInput }
  else w

/-- The function `MainWindow::startGame`; `nameInput` is what `QInputDialog::getText`
returns if the dialog is shown. -/
def startGame (w : MainWindow) (level : Int) (nameInput : String) : MainWindow :=
  let w1 := if w.levels.isEmpty then setupLevels w else w
  let w2 := { w1 with currentLevel := level }
  let w3 := initEnemies (initFood (initMaze w2 w2.currentLevel))
  let w4 := askName { w3 with lives := 3 } nameInput
  { w4 with currentPlayerName := w4.playerName, mouthOpen := false
            timerActive := true, menuVisible := false }

/-- The first statements of `handleWin` and of `handleGameOver`, up to the message box:
`stopGame(); saveScore(currentPlayerName, score);`. -/
def recordResult (w : MainWindow) : MainWindow :=
  saveScore (stopGame w) w.currentPlayerName w.score

/-- The function `MainWindow::handleWin`; `ret` is the result of the message box
(0 for "Next Level"). -/
def handleWin (w : MainWindow) (ret : Int) (nameInput : String) : MainWindow :=
  let w1 := recordResult w
  if ret = 0 then
    let w2 := { w1 with currentLevel := w1.currentLevel + 1 }
    if w2.currentLevel > (w2.levels.length : Int) then showLevelSelect w2
    else startGame w2 w2.currentLevel nameInput
  else showLevelSelect w1

/-- The function `MainWindow::handleGameOver`; `ret` is the result of the message box
(0 for "Retry Level"). -/
def handleGameOver (w : MainWindow) (ret : Int) (nameInput : String) : MainWindow :=
  let w1 := recordResult w
  if ret = 0 then startGame w1 w1.currentLevel nameInput else showLevelSelect w1

/-- The event loop delivers the oldest scheduled single-shot callback: it leaves `pending`
and its body runs; `ret` and `nameInput` are the answers given to the dialogs it opens. -/
def firePending (w : MainWindow) (ret : Int) (nameInput : String) : MainWindow :=
  match w.pending with
  | [] => w
  | Callback.gameOver :: rest => handleGameOver { w with pending := rest } ret nameInput
  | Callback.win :: rest => handleWin { w with pending := rest } ret nameInput

/-- The member initialisers of the constructor `MainWindow::MainWindow`: a 25 x 25 board,
the player on `(1, 1)`, level 1, three lives, score 0, everything else empty. -/
def MainWindow.fresh : MainWindow :=
  { rows := 25, cols := 25, maze := [], food := [], enemies := []
    playerX := 1, playerY := 1, playerDirX := 0, playerDirY := 0, mouthOpen := false
    levels := [], currentLevel := 1, timerActive := false, lives := 3, score := 0
    currentPlayerName := "", asked := false, playerName := "", menuVisible := false
    pending := [], leaderboardFile := "" }

/-- The body of the constructor once `levels` is filled: `initMaze(currentLevel);
initFood(); initEnemies();`, followed by the queued `showLevelSelect`. -/
def MainWindow.boot (w : MainWindow) : MainWindow :=
  showLevelSelect (initEnemies (initFood (initMaze w w.currentLevel)))

/-- The constructor `MainWindow::MainWindow`. -/
def MainWindow.init : MainWindow :=
  MainWindow.boot (setupLevels MainWindow.fresh)

/-! ## Events -/

/-- The arrow keys, and any other key. -/
inductive Key where
  | left
  | right
  | up
  | down
  | other
deriving DecidableEq, Repr

/-- The function `MainWindow::keyPressEvent`. -/
def keyPressEvent (w : MainWindow) (k : Key) : MainWindow :=
  if w.menuVisible then w
  else
    match k with
    | Key.left => { w with playerDirX := -1, playerDirY := 0 }
    | Key.right => { w with playerDirX := 1, playerDirY := 0 }
    | Key.up => { w with playerDirX := 0, playerDirY := -1 }
    | Key.down => { w with playerDirX := 0, playerDirY := 1 }
    | Key.other => w

/-- The function `MainWindow::keyReleaseEvent`. -/
def keyReleaseEvent (w : MainWindow) (k : Key) : MainWindow :=
  if w.menuVisible then w
  else
    match k with
    | Key.other => w
    | _ => { w with playerDirX := 0, playerDirY := 0 }

/-- What can happen while a session runs: a key goes down or up, or the game timer fires. -/
inductive Event where
  | press (k : Key)
  | release (k : Key)
  | timeout
deriving DecidableEq, Repr

/-- One event.  The game timer only fires while it is active. -/
def step (pq : PQueue) (w : MainWindow) : Event → MainWindow
  | Event.press k => keyPressEvent w k
  | Event.release k => keyReleaseEvent w k
  | Event.timeout => if w.timerActive then updateFrame w pq else w

/-- A run of events, oldest first. -/
def run (pq : PQueue) (w : MainWindow) (evs : List Event) : MainWindow :=
  evs.foldl (step pq) w

/-! ## A concrete priority queue -/

/-- The better of two nodes under `cmp` (the earlier one on a tie). -/
def better (b x : Node) : Node := if cmp b x then x else b

/-- An element of `x :: xs` that `cmp` ranks first. -/
def bestOf (x : Node) (xs : List Node) : Node := xs.foldl better x

/-- Removal of the top element of a list-backed queue. -/
def popList : List Node → Option (Node × List Node)
  | [] => none
  | x :: xs => some (bestOf x xs, (x :: xs).erase (bestOf x xs))

/-- A list-backed implementation of the queue contract, used to run the model: `push`
puts the node in front, `pop` takes out the first node that `cmp` ranks below no other. -/
def listPQ : PQueue where
  Q := List Node
  empty := []
  push := fun q n => n :: q
  pop := popList
  elems := fun q => q
  elems_empty := rfl
  elems_push := fun _ _ => List.Perm.refl _
  pop_none := by
    intro q h
    cases q with
    | nil => rfl
    | cons x xs => simp [popList] at h
  pop_some := by
    have hfalse : ∀ a b : Node, cmp a b = false ↔ a.f < b.f ∨ (a.f = b.f ∧ a.g ≤ b.g) := by
      intro a b
      unfold cmp
      by_cases h : a.f = b.f
      · simp [h]
      · simp [h]
        omega
    have hbetter : ∀ x z : Node, cmp (better x z) x = false ∧ cmp (better x z) z = false ∧
        (better x z = x ∨ better x z = z) := by
      intro x z
      unfold better
      cases hc : cmp x z with
      | true =>
        have hc' : ¬ cmp x z = false := by rw [hc]; exact fun h => by cases h
        rw [hfalse] at hc'
        refine ⟨?_, ?_, Or.inr rfl⟩
        · show cmp z x = false
          rw [hfalse]; omega
        · show cmp z z = false
          rw [hfalse]; omega
      | false =>
        refine ⟨?_, hc, Or.inl rfl⟩
        show cmp x x = false
        rw [hfalse]; omega
    have hbest : ∀ (xs : List Node) (x : Node),
        bestOf x xs ∈ x :: xs ∧ ∀ y ∈ x :: xs, cmp (bestOf x xs) y = false := by
      intro xs
      induction xs with
      | nil =>
        intro x
        refine ⟨List.mem_cons_self _ _, ?_⟩
        intro y hy
        rw [List.mem_singleton] at hy
        subst hy
        show cmp y y = false
        rw [hfalse]; omega
      | cons z zs ih =>
        intro x
        have hb : bestOf x (z :: zs) = bestOf (better x z) zs := rfl
        rw [hb]
        obtain ⟨hm, hmin⟩ := ih (better x z)
        obtain ⟨b1, b2, b3⟩ := hbetter x z
        refine ⟨?_, ?_⟩
        · rcases List.mem_cons.1 hm with h1 | h1
          · rcases b3 with h2 | h2
            · rw [h1, h2]; exact List.mem_cons_self _ _
            · rw [h1, h2]; exact List.mem_cons_of_mem _ (List.mem_cons_self _ _)
          · exact List.mem_cons_of_mem _ (List.mem_cons_of_mem _ h1)
        · intro y hy
          have hbb := hmin (better x z) (List.mem_cons_self _ _)
          rcases List.mem_cons.1 hy with h1 | h1
          · subst h1
            rw [hfalse] at hbb b1 ⊢
            omega
          · rcases List.mem_cons.1 h1 with h2 | h2
            · subst h2
              rw [hfalse] at hbb b2 ⊢
              omega
            · exact hmin y (List.mem_cons_of_mem _ h2)
    intro q n q' h
    cases q with
    | nil => simp [popList] at h
    | cons x xs =>
      simp only [popList, Option.some.injEq, Prod.mk.injEq] at h
      obtain ⟨h1, h2⟩ := h
      subst h1
      subst h2
      exact ⟨List.perm_cons_erase (hbest xs x).1, (hbest xs x).2⟩

/-! ## Leaderboard (`loadLeaderboard`) -/

/-- What a `QTextStream` reads from a file opened with `QIODevice::Text`: the characters of
the file without the carriage returns. -/
def textMode (s : List Char) : List Char :=
  s.filter (fun c => c != '\r')

/-- The loop `while (!in.atEnd()) { line = in.readLine(); ... }`: the lines of the text,
each without its line feed; after a final line feed no further line is read.  `cur` holds
the characters of the line being read. -/
def readLines : List Char → List Char → List (List Char)
  | [], cur => if cur.isEmpty then [] else [cur]
  | c :: cs, cur => if c = '\n' then cur :: readLines cs [] else readLines cs (cur ++ [c])

/-- The call `QString::split(sep)` (empty parts are kept).  `cur` holds the characters of
the part being read. -/
def split (sep : Char) : List Char → List Char → List (List Char)
  | [], cur => [cur]
  | c :: cs, cur => if c = sep then cur :: split sep cs [] else split sep cs (cur ++ [c])

/-- The value of a decimal digit. -/
def digitValue (c : Char) : Option Nat :=
  if '0' ≤ c ∧ c ≤ '9' then some (c.toNat - '0'.toNat) else none

/-- The value of a run of decimal digits, continuing from `acc`; `none` if some character
is not a digit. -/
def parseDigits : List Char → Nat → Option Nat
  | [], acc => some acc
  | c :: cs, acc =>
    match digitValue c with
    | some d => parseDigits cs (acc * 10 + d)
    | none => none

/-- A decimal integer: an optional sign and at least one digit. -/
def parseInt : List Char → Option Int
  | [] => none
  | c :: cs =>
    if c = '-' then
      (if cs.isEmpty then none else (parseDigits cs 0).map (fun (n : Nat) => -(n : Int)))
    else if c = '+' then
      (if cs.isEmpty then none else (parseDigits cs 0).map (fun (n : Nat) => (n : Int)))
    else (parseDigits (c :: cs) 0).map (fun (n : Nat) => (n : Int))

/-- The call `QString::toInt()`: the value of the string read as a decimal `int`, white
space around it ignored; 0 if the string is not an integer or does not fit an `int`. -/
def toInt (s : List Char) : Int :=
  match parseInt (trimmed s) with
  | some v => if -2147483648 ≤ v ∧ v ≤ 2147483647 then v else 0
  | none => 0

/-- The contract of `std::sort` with the comparator `a.second > b.second`: the result is a
rearrangement of the input in which no later entry compares before an earlier one. -/
structure Sorter where
  sort : List (String × Int) → List (String × Int)
  perm : ∀ l, (sort l).Perm l
  sorted : ∀ l, (sort l).Pairwise (fun a b => ¬ b.2 > a.2)

/-- The body of the reading loop of `loadLeaderboard` for one line. -/
def appendLine (list : List (String × Int)) (line : List Char) : List (String × Int) :=
  let parts := split ',' line []
  if parts.length = 2 then list ++ [(String.mk (parts.getD 0 []), toInt (parts.getD 1 []))]
  else list

/-- The function `MainWindow::loadLeaderboard`. -/
def loadLeaderboard (w : MainWindow) (sorter : Sorter) : List (String × Int) :=
  let list := (readLines (textMode w.leaderboardFile.data) []).foldl appendLine []
  sorter.sort list

/-- A sort that runs: insertion sort by descending score. -/
def listSorter : Sorter where
  sort := List.insertionSort (fun a b => a.2 ≥ b.2)
  perm := fun l => List.perm_insertionSort _ l
  sorted := fun l => by
    have h := @List.sorted_insertionSort (String × Int) (fun a b => a.2 ≥ b.2) _
      ⟨fun a b => le_total b.2 a.2⟩ ⟨fun a b c hab hbc => le_trans hbc hab⟩ l
    exact h.imp (fun hab => not_lt.mpr hab)

/-! ## Definitions used to state the properties -/

/-- Stamping a list of cells with the value 1. -/
def stampCells (m : List (List Int)) (cs : List (Nat × Nat)) : List (List Int) :=
  cs.foldl (fun acc c => setCell acc c.1 c.2 1) m

/-- The cells that the wall loop of `initMaze` writes: the in-bounds entries of the list. -/
def wallCells (rows cols : Nat) (walls : List (Int × Int)) : List (Nat × Nat) :=
  walls.filterMap (fun p =>
    if p.1 ≥ 0 ∧ p.1 < (cols : Int) ∧ p.2 ≥ 0 ∧ p.2 < (rows : Int) then
      some (p.2.toNat, p.1.toNat)
    else none)

/-- Whether `(x, y)` lies on the one-cell border of a `rows x cols` board. -/
def onBorder (rows cols : Nat) (x y : Nat) : Prop :=
  x = 0 ∨ y = 0 ∨ x = cols - 1 ∨ y = rows - 1

instance (rows cols x y : Nat) : Decidable (onBorder rows cols x y) := by
  unfold onBorder
  infer_instance

/-- The grid stores exactly the cells of a `rows` x `cols` board. -/
def Shaped (rows cols : Nat) (m : List (List Int)) : Prop :=
  ∀ y x : Nat, (mazeAt m y x).isSome = true ↔ (y < rows ∧ x < cols)

/-- Whether some enemy of the roster stands on the player's cell. -/
def hitsPlayer (w : MainWindow) : Bool :=
  w.enemies.any (fun e => decide (e.x = w.playerX ∧ e.y = w.playerY))

/-- The score, and the score with 10 points for every pellet still on the board, lie in the
range of the 32-bit `int`: no `score += 10` of the session overflows. -/
def ScoreFits (w : MainWindow) : Prop :=
  -2147483648 ≤ w.score ∧ w.score + 10 * (w.food.length : Int) ≤ 2147483647

/-- The state on which `updateFrame` runs `checkCollisions`: the player's move attempt and
the enemies' moves are done. -/
def preCollision (w : MainWindow) (pq : PQueue) : MainWindow :=
  moveEnemies (movePlayer { w with mouthOpen := !w.mouthOpen }) pq

/-- Whether the tick that starts in `w` resolves a player-enemy collision. -/
def tickCollides (w : MainWindow) (pq : PQueue) : Bool :=
  hitsPlayer (preCollision w pq)

/-- The freshly constructed window, except that the score stands at 50, as it does after a
session in which five pellets were eaten. -/
def scoredState : MainWindow := { MainWindow.init with score := 50 }

/-- The number of ticks of a run that resolve a player-enemy collision. -/
def collisions (pq : PQueue) : MainWindow → List Event → Nat
  | _, [] => 0
  | w, ev :: evs =>
    (if ev = Event.timeout ∧ w.timerActive = true ∧ tickCollides w pq = true then 1 else 0) +
      collisions pq (step pq w ev) evs

/-- How many game-over callbacks have been scheduled. -/
def gameOvers (w : MainWindow) : Nat := w.pending.count Callback.gameOver

/-- The bookkeeping that holds between the events of a session: `n` collisions resolved so
far, out of the three lives that `startGame` grants; `g0` game-over callbacks were already
scheduled when the session began. -/
def LivesInv (g0 : Nat) (w : MainWindow) (n : Nat) : Prop :=
  n ≤ 3 ∧ w.lives = 3 - (n : Int) ∧
    (n < 3 → gameOvers w = g0) ∧
    (n = 3 → w.timerActive = false ∧ gameOvers w = g0 + 1)

/-- Two cells are 4-adjacent: their Manhattan distance is 1. -/
def adjacent (a b : Int × Int) : Prop := heuristic a b = 1

instance (a b : Int × Int) : Decidable (adjacent a b) := by
  unfold adjacent
  infer_instance

/-- The relation `Walk w a b k`: there is a 4-directional path of `k` steps from `a` to `b`
every cell of which, after `a` itself, is walkable. -/
inductive Walk (w : MainWindow) : Int × Int → Int × Int → Nat → Prop
  | nil (a : Int × Int) : Walk w a a 0
  | snoc {a b c : Int × Int} {k : Nat} :
      Walk w a b k → adjacent b c → isWalkable w c.1 c.2 = true → Walk w a c (k + 1)

/-- The relation `IsDist w a b L`: `L` is the shortest-path distance from `a` to `b`, a walk
of `L` steps exists and none is shorter. -/
def IsDist (w : MainWindow) (a b : Int × Int) (L : Nat) : Prop :=
  Walk w a b L ∧ ∀ k, Walk w a b k → L ≤ k

/-- The invariant of the search loop.  `cur` is the node being expanded and `todo` holds of
the neighbours of `cur` that `pushNeighbor` has not been called on yet (`todo` is empty
between iterations). -/
structure AInv (w : MainWindow) (pq : PQueue) (start goal cur : Int × Int)
    (todo : Int × Int → Prop) (st : AStarState pq.Q) : Prop where
  g_start : st.gScore start = some 0
  g_node : ∀ v g, st.gScore v = some g → v ≠ start →
    ∃ u gu, st.cameFrom v = some u ∧ u ∈ st.closedSet ∧ st.gScore u = some gu ∧
      g = gu + 1 ∧ adjacent u v ∧ isWalkable w v.1 v.2 = true
  g_bound : ∀ v g, st.gScore v = some g → 0 ≤ g ∧ g ≤ (st.closedSet.length : Int)
  g_walk : ∀ v g, st.gScore v = some g → Walk w start v g.toNat
  closed_opt : ∀ v ∈ st.closedSet, ∃ g, st.gScore v = some g ∧
    ∀ k : Nat, Walk w start v k → g ≤ (k : Int)
  closed_nbr : ∀ u ∈ st.closedSet, ∀ v, adjacent u v → isWalkable w v.1 v.2 = true →
    (u = cur ∧ todo v) ∨
      ∃ gu gv, st.gScore u = some gu ∧ st.gScore v = some gv ∧ gv ≤ gu + 1
  q_entry : ∀ e ∈ pq.elems st.openQ, ∃ g, st.gScore e.p = some g ∧ g ≤ e.g ∧
    e.f = e.g + heuristic e.p goal
  q_cover : ∀ v g, st.gScore v = some g → v ∉ st.closedSet →
    ∃ e ∈ pq.elems st.openQ, e.p = v ∧ e.g = g
  closed_nodup : st.closedSet.Nodup
  closed_dom : ∀ v ∈ st.closedSet, v = start ∨ isWalkable w v.1 v.2 = true
  start_closed : st.closedSet ≠ [] → start ∈ st.closedSet
  goal_open : goal ∉ st.closedSet

/-- All cells of the board, row by row. -/
def allCells (w : MainWindow) : List (Int × Int) :=
  (List.range w.rows).flatMap
    (fun (y : Nat) => (List.range w.cols).map (fun (x : Nat) => ((x : Int), (y : Int))))

/-- A bound that no score of the search reaches. -/
def scoreCap (w : MainWindow) : Nat := w.rows * w.cols + 2

/-- The weight of one `gScore` entry: the score, or the cap when the entry is absent. -/
def pot (w : MainWindow) (o : Option Int) : Nat :=
  match o with
  | none => scoreCap w
  | some g => min g.toNat (scoreCap w)

/-- The total weight of the `gScore` map over the board. -/
def gSum (w : MainWindow) (gs : Int × Int → Option Int) : Nat :=
  ((allCells w).map (fun c => pot w (gs c))).sum

/-- The quantity that every iteration of the search loop decreases. -/
def searchMeasure (w : MainWindow) (pq : PQueue) (st : AStarState pq.Q) : Nat :=
  (pq.elems st.openQ).length + 2 * gSum w st.gScore

/-- The four calls of `pushNeighbor` that expand the node `cur`. -/
def expand (w : MainWindow) (pq : PQueue) (goal : Int × Int) (st : AStarState pq.Q)
    (cur : Int × Int) : AStarState pq.Q :=
  pushNeighbor w pq goal
    (pushNeighbor w pq goal
      (pushNeighbor w pq goal (pushNeighbor w pq goal st cur (cur.1 + 1) cur.2) cur (cur.1 - 1) cur.2)
      cur cur.1 (cur.2 + 1))
    cur cur.1 (cur.2 - 1)

/-- What `aStarNextStep` promises about its result `r`: no step means that no walk from
`start` to `goal` exists; a step is walkable, adjacent to `start` and one closer to
`goal` than `start` is. -/
def StepPost (w : MainWindow) (start goal : Int × Int) : Option (Int × Int) → Prop
  | none => ∀ k, ¬ Walk w start goal k
  | some n => isWalkable w n.1 n.2 = true ∧ adjacent start n ∧
      ∃ m : Nat, IsDist w start goal (m + 1) ∧ IsDist w n goal m

/-- Repeated application of `aStarNextStep` toward the fixed target `t`: the cell reached
after the given number of steps, or `none` if some call reports no step. -/
def chase (w : MainWindow) (pq : PQueue) (t : Int × Int) : Nat → Int × Int → Option (Int × Int)
  | 0, c => some c
  | k + 1, c =>
    match aStarNextStep w pq c.1 c.2 t.1 t.2 with
    | none => none
    | some n => chase w pq t k n

/-- A key press followed by `n` timer ticks. -/
def go (k : Key) (n : Nat) : List Event := Event.press k :: List.replicate n Event.timeout

/-- The red Smart enemy of level 2 on its start cell `(10, 2)`, ready to move. -/
def redHunter : Enemy :=
  ⟨10, 2, 1, 0, Color.red, EnemyType.Smart, QRect.ofSize 0 0 12 12, 1, 0⟩

/-- An enemy's cooldown lies between 0 and its move interval. -/
def cooldownOk (e : Enemy) : Prop := 0 ≤ e.cooldown ∧ e.cooldown ≤ e.moveInterval

/-- Every enemy of the roster has its cooldown between 0 and its move interval. -/
def CooldownInv (w : MainWindow) : Prop := ∀ e ∈ w.enemies, cooldownOk e

/-- The board that `startGame` builds: the level table is filled if it is still empty,
`currentLevel` is assigned and `initMaze` runs. -/
def levelBoard (w : MainWindow) (level : Int) : MainWindow :=
  initMaze { (if w.levels.isEmpty then setupLevels w else w) with currentLevel := level } level

/-- The player stands on a walkable cell and the start cell `(1, 1)` is walkable. -/
def PlayerInv (w : MainWindow) : Prop :=
  isWalkable w w.playerX w.playerY = true ∧ isWalkable w 1 1 = true

/-- A late state of a level-1 session: two pellets are left, on `(2, 1)` and `(3, 1)`; the
player stands on the start cell with the right arrow held. -/
def twoPellets : MainWindow :=
  { startGame MainWindow.init 1 "" with food := [(2, 1), (3, 1)], playerDirX := 1, score := 3510 }

/-- The same state with the score ten below the largest value of a 32-bit `int`. -/
def nearOverflow : MainWindow :=
  { twoPellets with score := 2147483640 }

/-- A level-1 session as it stands 20 ticks after the start when the right arrow is held
from the beginning (the pellet set is abridged to the two pellets ahead of the player): the
player is on `(21, 1)` heading right, the red enemy is on `(22, 1)` heading right with
cooldown 0. -/
def besideRed : MainWindow :=
  { startGame MainWindow.init 1 "" with
      playerX := 21, playerDirX := 1
      food := [(22, 1), (23, 1)]
      enemies :=
        [ ⟨11, 23, 1, 0, Color.green, EnemyType.Simple, QRect.null, 1, 0⟩,
          ⟨23, 13, 0, -1, Color.blue, EnemyType.Simple, QRect.null, 1, 1⟩,
          ⟨22, 1, 1, 0, Color.red, EnemyType.Simple, QRect.null, 1, 0⟩ ] }

/-- The same session one tick later, with one life and one pellet left: the player is on
`(22, 1)` heading right, the red enemy waits on `(23, 1)` (cooldown 1), where the last
pellet lies. -/
def lastPellet : MainWindow :=
  { startGame MainWindow.init 1 "" with
      playerX := 22, playerDirX := 1, lives := 1, score := 3520
      food := [(23, 1)]
      enemies :=
        [ ⟨12, 23, 1, 0, Color.green, EnemyType.Simple, QRect.null, 1, 1⟩,
          ⟨23, 13, 0, -1, Color.blue, EnemyType.Simple, QRect.null, 1, 0⟩,
          ⟨23, 1, 1, 0, Color.red, EnemyType.Simple, QRect.null, 1, 1⟩ ] }

/-- What the reading loop of `loadLeaderboard` makes of one line, said without the
splitting: a line with exactly one comma gives the entry made of the text before the comma
and of `toInt` of the text after it; any other line gives nothing. -/
def lineEntry (line : List Char) : Option (String × Int) :=
  if line.count ',' = 1 then
    some (String.mk (line.takeWhile (fun c => c != ',')),
      toInt ((line.dropWhile (fun c => c != ',')).drop 1))
  else none

/-- The text of the file made of the given lines, each closed by a line feed. -/
def fileOf (lines : List (List Char)) : List Char :=
  lines.flatMap (fun l => l ++ ['\n'])

/-- The line that `saveScore` writes for an entry, without its line feed. -/
def entryLine (e : String × Int) : List Char :=
  e.1.data ++ ',' :: (toString e.2).data

/-- The window after `saveScore` has been called for each entry in turn. -/
def saveAll (w : MainWindow) (entries : List (String × Int)) : MainWindow :=
  entries.foldl (fun w e => saveScore w e.1 e.2) w

/-- A character that `Nat.digitChar` yields for a decimal digit. -/
def isDigitChar (c : Char) : Prop := ∃ k, k < 10 ∧ c = Nat.digitChar k

/-- A leaderboard file with a well-formed line, a line whose score field is no integer and
a line without a comma. -/
def mixedBoard : MainWindow :=
  { MainWindow.fresh with leaderboardFile := "Alice,120\nBob,abc\nnocomma\n" }

/-- The velocity `(dx, dy)` is one of the four unit axis vectors. -/
def unitAxis (dx dy : Int) : Prop :=
  (dx = 1 ∧ dy = 0) ∨ (dx = -1 ∧ dy = 0) ∨ (dx = 0 ∧ dy = 1) ∨ (dx = 0 ∧ dy = -1)

instance (dx dy : Int) : Decidable (unitAxis dx dy) := by
  unfold unitAxis
  infer_instance

/-- What one enemy's advance may do: the enemy `e'` stands where `e` stood, or on a
walkable cell 4-adjacent to it, and its velocity is a unit axis vector. -/
def unitStep (w : MainWindow) (e e' : Enemy) : Prop :=
  ((e'.x = e.x ∧ e'.y = e.y) ∨
    (adjacent (e.x, e.y) (e'.x, e'.y) ∧ isWalkable w e'.x e'.y = true)) ∧
  unitAxis e'.dx e'.dy

/-- For each enemy of the roster, its cell and whether that cell is walkable. -/
def startCells (w : MainWindow) : List ((Int × Int) × Bool) :=
  w.enemies.map (fun e => ((e.x, e.y), isWalkable w e.x e.y))

/-- The cell `(x, y)` that a letter of a route leads to from the cell `p`: `R`, `L`, `D`,
`U` for the four arrow keys; any other letter, and a step off the first column or row,
leaves the cell as it is. -/
def stepNat (d : Char) (p : Nat × Nat) : Nat × Nat :=
  if d = 'R' then (p.1 + 1, p.2) else if d = 'L' then (p.1 - 1, p.2)
  else if d = 'D' then (p.1, p.2 + 1) else if d = 'U' then (p.1, p.2 - 1) else p

/-- The cells that a route visits after its start cell, in order. -/
def routeCells : Nat × Nat → List Char → List (Nat × Nat)
  | _, [] => []
  | cur, d :: ds => stepNat d cur :: routeCells (stepNat d cur) ds

/-- The board-sized grid in which the cells `(x, y)` of the list hold 1 and all others 0. -/
def marks (w : MainWindow) (cells : List (Nat × Nat)) : List (List Int) :=
  stampCells (List.replicate w.rows (List.replicate w.cols (0 : Int)))
    (cells.map (fun c => (c.2, c.1)))

/-- The grid that holds 1 on the open cells of a maze and 0 on its walls. -/
def openGrid (maze : List (List Int)) : List (List Int) :=
  maze.map (fun row => row.map (fun v => if v = 0 then (1 : Int) else 0))

/-- Whether the route from `(1, 1)` stays on the board and the cells it visits, `(1, 1)`
included, are exactly the open cells of the grid. -/
def routeFills (w : MainWindow) (dirs : List Char) : Bool :=
  ((1, 1) :: routeCells (1, 1) dirs).all
      (fun c => decide (c.1 < w.cols) && decide (c.2 < w.rows)) &&
    decide (marks w ((1, 1) :: routeCells (1, 1) dirs) = openGrid w.maze)

/-- The grid of a level on the 25 x 25 board of the constructor. -/
def levelGrid (level : Int) : MainWindow :=
  initMaze (setupLevels MainWindow.fresh) level

/-- The route of a level: a sequence of arrow-key moves from the start cell `(1, 1)`. -/
def routeOf (level : Int) : List Char :=
  if level = 1 then
    ("RRRRRRRRRRRRRRRRRRRRRRDDDDDDDLLDDDLLLLLLLLDRDRRRRRRRDDDRRDDDDDDDLLLLLLLLLLLLLLLLLLLLLLUUUU" ++
      "UUURRDRRDDRRRRURURLLURLULLDDDUUUURURRRDLRDRRURLUDDLDULUUULURULRURRDRLULUDLDDLLLLLLLLUUULLD" ++
      "DDDDDDUUUUUUUUUUUUUDDDDDDRRURRDDDUUUUURRRRDRDRLLDRLDLLDRLUUUUDDDRRUURULULULURRRRRRRRRRDLDR" ++
      "RRRRUULLDURRDDLLDDRRLLDDDUUUUULLDDDDLLULURULRUDDLLRDRDRDRLURUUUULURULUDLLDLLLLRDRRLDULURRR" ++
      "ULLUDLLLLUDLDRDLLLLLUURRDULLDDRRDDLLDDDDRDDRRRUDLLDDDUUULLDDUURUURRRRRRDRDLLLDLDRRDDRDLDLD" ++
      "LDRRRRRRRRRRULURRRRRDDLLUDRRUULLUURRLLUUUDDDDDLLUUUULLDLDRDLRDUULLRURURURLDRDDDDLDRDLDULLU" ++
      "LLLLRURRLUDLDRRRDLLDULLLLDULURULLLLLDDRRUDLLUURRUULLULLDDDDDDDRRRRRRRRRRRRRRRRRRRRRRUUUUUU" ++
      "UUUUUUUUDDDDDDDLLUUULUDLLLU").data
  else if level = 2 then
    ("RRRRRRRRRRRRRRRRRRRRRRDDDLRDDDDLLLLLLLLURRURRRRLUUUURLDDDDLLLLLRUURRUDLLDDRDLLLLLLLLLDLLLL" ++
      "LLLDDRDLDDDDDRRURURURRRRRDDRDRDRRRDLLLRDDRRDLLDLDRRRRRRRRRRRUULLLLRRUUUURRDDDUUUUUUUULLLLL" ++
      "LLLDDLLLUULLLLLRRRUUURURLLRDLDDDRRUURRRDULULRDLLDDDDRDRLURRUURRRRRRDDLLLLDLDRLLRURURRRDRLU" ++
      "RUUURRUUDDLLULLLLURLLRDRRRRDDRRDDDDDLLLLDDLLDDDUUUUDRRUURRDDDDRRDDLLLLLLLLLLLLLLLLLLLLLLUU" ++
      "URRULLRRURURURURURLDLDLDLDLDDLLDDDRRRRURULURULRURRRRLULLRURRLUDLDRDLLLDDLDRDLDRRRRRUUULLDU" ++
      "RRDDDRRURURRULLUURRULLLULULUULLLLLLLDURURLUURRRRUDLLLLUDDDDRDLDLDLDLRULUUUUURULUUURULURURR" ++
      "UUDDLLLUUDDRDLDRDLDRRRURURLLRDLDRRRRUURULURURLDLLLURULRDLDRRDRDLDRRRURULRURRULLRRURR").data
  else if level = 3 then
    ("RRRRRRRRRRRRRRRRRRRRRRDDDLLLDDDRRRDLLDDRRDLLLLLLDLLDDDLLLLLLDDLLLLLLLLDDDRRRDDDRRRRRRRRRRR" ++
      "RRRRRRRRUUULLLDDUUUUURRRDDUUULLUURRDUULLLLLLRDRDULURRRRRUDDLLDDRRDLLLLLLLLUDRDRRDDDLLLLLDU" ++
      "URURRLLLUUUDDDRDLDRRRRRDUUUULLURURLUDDRRRDDDRRRDDDLLLLLLLLLLLLUULLLLLDUUUURRDRRRDLRUUUUDDD" ++
      "LLLULLDDDRRRRRDDLLLLLLLLLLUUDDRRRUUUUUDDLLLUUUURRUULLDUURRRRRRURRDDUUUUURRRRRRDDUUUURRRRLD" ++
      "LDURUULLULLLDDDUUUURURRRRDDUUUDLLLLLUDRDLDRRRDRRDLLLDDLLLDDRDDLLUUDDRDURUULUULUUUULLLDLLDR" ++
      "RRDULLDLRDUULLLLLLDRRDDLLDRRRRRRLULUDRDLLLLLDUUUDRRUULLUUUURRRDDUUUUDDLLLUUDDDDDRRRRRUUUUR" ++
      "RRRRDLRUUDLLLLLUDDDDRRURRRDDDDLLDDDLLDLDLDURULLLLLDRRDDLLDRRRRRURUDLDRRRUURRRRRRUUURRURURU" ++
      "DLDRRRRRUUDLLUURRUUUDDLLLUUUUU").data
  else
    ("RRRRRRRRRRRRRRRRRRRRRRDLLLLLLDLDRLURURRRRDDDLLDLLLLLUUULLDDDDLLLLDDRRRRRRRRRRRRRRRDDLLDDDL" ++
      "LLDRRRRRDDDDLDRDLDRDLLLLLLLLLLLLLLLLLLLLLLURRULLUUUUURRDDDRRRDRRRRRRRRULURRUURULURUUUUDDDD" ++
      "LLLLLLLLLLLLLLLUUURRRDRLLRUUUULLLDRLUURLDRRRURRDDRDLRDDDUUUULUULLUURRRRRRULUURRRRRLLLLLLLD" ++
      "URRDDRDLLDULLLULURULRDLDRDLLLLUURLDDRRRDDDDDDLLLDDDRRRRDRDRRDLLLUDRRRDDRRURULURRRLLLUDDRDL" ++
      "DLLUUULLULURRRRRRURURRULLLLLDRRLLURRRRRDLLDLDRRRRDRDLDDLLDRDLLDLLDRRRRRRRULURRRRUUURLDDDLL" ++
      "LUURUUDDLDDLDRDLLLLLLLLLLRRRURRULLLLLLLDDUURULLLUUULLDDDDDRRDLLDRRRRRRRRRRRRRRRRRRURRLLDRR" ++
      "RRULURULURUUUUUUDDLLLLLURRRUUURRUUULLLLLLLLRRRRUDRRURRULLRRUUDDDLLDRRDLLLLDLDRDLRULURULLLL" ++
      "LLULRDLLLLLUURRRRUUUURRDDDRRRRRUU").data

/-- The window `b` shadows the window `a`: both are on level 1 with the same board, the
same roster (simple enemies only), the same player cell and direction, the same lives,
menu, timer and level table, and every pellet of `b` is a pellet of `a`. -/
def Shadow (a b : MainWindow) : Prop :=
  a.rows = b.rows ∧ a.cols = b.cols ∧ a.maze = b.maze ∧ a.currentLevel = b.currentLevel ∧
  a.enemies = b.enemies ∧ a.playerX = b.playerX ∧ a.playerY = b.playerY ∧
  a.playerDirX = b.playerDirX ∧ a.playerDirY = b.playerDirY ∧ a.lives = b.lives ∧
  a.menuVisible = b.menuVisible ∧ a.timerActive = b.timerActive ∧
  a.currentLevel = 1 ∧ (∀ e ∈ a.enemies, e.type = EnemyType.Simple) ∧
  (∀ p ∈ b.food, p ∈ a.food) ∧ a.levels = b.levels

/-- The cells on which the ticks of a run look for a pellet: for every tick, the player's
cell once the move attempt is done. -/
def track (pq : PQueue) : MainWindow → List Event → List (Int × Int)
  | _, [] => []
  | w, ev :: evs =>
    (if ev = Event.timeout ∧ w.timerActive = true then
        [((preCollision w pq).playerX, (preCollision w pq).playerY)]
      else []) ++
      track pq (step pq w ev) evs

/-- The event that a letter of a route stands for: the arrow key of the letter goes down;
for any other letter the arrow key is let go, which stops the player. -/
def keyOf (d : Char) : Event :=
  if d = 'R' then Event.press Key.right
  else if d = 'L' then Event.press Key.left
  else if d = 'D' then Event.press Key.down
  else if d = 'U' then Event.press Key.up
  else Event.release Key.right

/-- Playing a route: for every letter its key event, then one tick of the game timer. -/
def play (dirs : List Char) : List Event :=
  dirs.flatMap (fun d => [keyOf d, Event.timeout])

/-- A route through level 1, from the start cell `(1, 1)`, that takes the player over
every open cell; its last move, Left onto `(13, 17)`, is left out. -/
def winRoute : List Char :=
  ("RRRRRRRRRRRRRRRRRRRRRLRSRDDDDDDDLLULLUURRUULLDDLLLLDLDRDLRDRRUUUUULURLLLLLLLLLLDRDRDRDRL" ++
    "LDRLDLLUUUULLLLUURRDDDDLLDLLUUUUUUDDDDDDDDDDDDDDRRUUURRRRRRRRULURULRURRDRDRRRRRRRUUURRDD" ++
    "DDDDDDLLUUULLLLLLLLURLUDDDRLDLLULRDRDURURURRDRDLLDLDRDLRDRRRRRRDDLLUUUURRLLUUUURUULUUUDD" ++
    "DLLULRDDDDDDDDDDLDRLLLLLLLLLLURURURURLLURLULLURLUUURRLULDLLLLUUDDRDURUUUDDDLDDRDDDDLLRRD" ++
    "DRRUUUDDDLLLLDDRRUURRRDDDDRRRRRRRRRRRRRRRUUUUUUULLDLLDDLLLDDDULLULLLLRURRLUDDDDDLLLLLLLL" ++
    "LLLUUUUUUURRUUURRRRRRRRUUUURUDRDRDRRUULULULRRUURUUUDLLDLLLLRDRRLDUUUUDLLLLUDRRRRRRRRRDDD" ++
    "DDDDDDDLDDLDLD").data

/-- The events of the winning session up to its last tick: the route is played and the
left arrow goes down. -/
def winEvents : List Event :=
  play winRoute ++ [Event.press Key.left]

/-- A first visit to level 1 in the freshly constructed program: the right arrow is held
for five ticks, which takes the pellets on `(2, 1)` to `(6, 1)`; then the player leaves
through the Exit button and, declining to quit, is back at the level menu
(`showLevelSelect`) with 50 points. -/
def firstVisit : MainWindow :=
  showLevelSelect (run listPQ (startGame MainWindow.init 1 "") (go Key.right 5))

/-- The first level-1 session of the program with all pellets taken off the board except
the one on `(13, 17)`, far from the top corridor. -/
def chaseShadow : MainWindow :=
  { startGame MainWindow.init 1 "" with food := [(13, 17)] }

/-- The second visit to level 1, after a first visit in which the pellets were taken off
the board as in `chaseShadow`; again only the pellet on `(13, 17)`, where the winning route
ends, is on the board. -/
def winShadow : MainWindow :=
  { startGame (showLevelSelect (run listPQ chaseShadow (go Key.right 5))) 1 "" with
      food := [(13, 17)] }

/-! ## Proofs -/

theorem cmp_eq_true_iff (a b : Node) :
    cmp a b = true ↔ a.f > b.f ∨ (a.f = b.f ∧ a.g > b.g) := by
  unfold cmp
  by_cases h : a.f = b.f
  · simp [h]
  · have h1 : ¬ (a.f = b.f ∧ a.g > b.g) := fun hh => h hh.1
    simp [h]

theorem cmp_eq_false_iff (a b : Node) :
    cmp a b = false ↔ a.f < b.f ∨ (a.f = b.f ∧ a.g ≤ b.g) := by
  rw [← Bool.not_eq_true, cmp_eq_true_iff]
  omega

theorem mazeAt_nil (y x : Nat) : mazeAt [] y x = none := by
  simp [mazeAt]

theorem mazeAt_cons_zero (row : List Int) (rest : List (List Int)) (x : Nat) :
    mazeAt (row :: rest) 0 x = row[x]? := by
  simp [mazeAt]

theorem mazeAt_cons_succ (row : List Int) (rest : List (List Int)) (y x : Nat) :
    mazeAt (row :: rest) (y + 1) x = mazeAt rest y x := by
  simp [mazeAt]

theorem mazeAt_setCell (m : List (List Int)) (y x : Nat) (v : Int) (y' x' : Nat) :
    mazeAt (setCell m y x v) y' x' =
      if y' = y ∧ x' = x ∧ (mazeAt m y x).isSome then some v else mazeAt m y' x' := by
  induction m generalizing y y' with
  | nil => simp [setCell, mazeAt_nil]
  | cons row rest ih =>
    cases y with
    | zero =>
      cases y' with
      | zero =>
        simp only [setCell, mazeAt_cons_zero, List.getElem?_set]
        by_cases hx : x = x'
        · subst hx
          by_cases hl : x < row.length
          · simp [hl]
          · have hn : row[x]? = none := List.getElem?_eq_none (by omega)
            simp [hl, hn]
        · have hx' : ¬ x' = x := fun h => hx h.symm
          simp [hx, hx']
      | succ y' =>
        simp [setCell, mazeAt_cons_succ]
    | succ y =>
      cases y' with
      | zero =>
        simp [setCell, mazeAt_cons_zero]
      | succ y' =>
        simp only [setCell, mazeAt_cons_succ, ih]
        simp

theorem mazeAt_replicate (rows cols : Nat) (y x : Nat) :
    mazeAt (List.replicate rows (List.replicate cols (0 : Int))) y x =
      if y < rows ∧ x < cols then some 0 else none := by
  unfold mazeAt
  by_cases hy : y < rows
  · by_cases hx : x < cols
    · simp [List.getElem?_replicate, hy, hx]
    · simp [List.getElem?_replicate, hy, hx]
  · simp [List.getElem?_replicate, hy]

theorem mazeAt_stampCells (cs : List (Nat × Nat)) (m : List (List Int)) (y x : Nat) :
    mazeAt (stampCells m cs) y x =
      if (y, x) ∈ cs ∧ (mazeAt m y x).isSome then some 1 else mazeAt m y x := by
  induction cs generalizing m with
  | nil => simp [stampCells]
  | cons c cs ih =>
    have h : stampCells m (c :: cs) = stampCells (setCell m c.1 c.2 1) cs := rfl
    rw [h, ih, mazeAt_setCell]
    by_cases hc : y = c.1 ∧ x = c.2
    · obtain ⟨h1, h2⟩ := hc
      subst h1
      subst h2
      by_cases hs : (mazeAt m c.1 c.2).isSome
      · simp [hs]
      · simp [hs]
    · have hne : ¬ ((y, x) = c) := by
        intro h
        apply hc
        rw [← h]
        exact ⟨rfl, rfl⟩
      have hc' : ¬ (y = c.1 ∧ x = c.2 ∧ (mazeAt m c.1 c.2).isSome = true) := fun h => hc ⟨h.1, h.2.1⟩
      simp only [hc', if_false, List.mem_cons, hne, false_or]

theorem stampRows_eq (rows : Nat) (xs : List Nat) (m : List (List Int)) :
    stampRows rows m xs = stampCells m (xs.flatMap (fun x => [(0, x), (rows - 1, x)])) := by
  induction xs generalizing m with
  | nil => rfl
  | cons x xs ih =>
    have h : stampRows rows m (x :: xs) =
        stampRows rows (setCell (setCell m 0 x 1) (rows - 1) x 1) xs := rfl
    rw [h, ih]
    rfl

theorem stampCols_eq (cols : Nat) (ys : List Nat) (m : List (List Int)) :
    stampCols cols m ys = stampCells m (ys.flatMap (fun y => [(y, 0), (y, cols - 1)])) := by
  induction ys generalizing m with
  | nil => rfl
  | cons y ys ih =>
    have h : stampCols cols m (y :: ys) =
        stampCols cols (setCell (setCell m y 0 1) y (cols - 1) 1) ys := rfl
    rw [h, ih]
    rfl

theorem stampWalls_eq (rows cols : Nat) (walls : List (Int × Int)) (m : List (List Int)) :
    stampWalls rows cols m walls = stampCells m (wallCells rows cols walls) := by
  induction walls generalizing m with
  | nil => rfl
  | cons p ps ih =>
    by_cases hg : p.1 ≥ 0 ∧ p.1 < (cols : Int) ∧ p.2 ≥ 0 ∧ p.2 < (rows : Int)
    · have h : stampWalls rows cols m (p :: ps) =
          stampWalls rows cols (setCell m p.2.toNat p.1.toNat 1) ps := by
        simp only [stampWalls, List.foldl_cons, hg, and_self, if_true]
      have h2 : wallCells rows cols (p :: ps) = (p.2.toNat, p.1.toNat) :: wallCells rows cols ps := by
        simp only [wallCells, List.filterMap_cons, hg, and_self, if_true]
      rw [h, h2, ih]
      rfl
    · have h : stampWalls rows cols m (p :: ps) = stampWalls rows cols m ps := by
        simp only [stampWalls, List.foldl_cons, hg, if_false]
      have h2 : wallCells rows cols (p :: ps) = wallCells rows cols ps := by
        simp only [wallCells, List.filterMap_cons, hg, if_false]
      rw [h, h2, ih]

theorem mem_wallCells (rows cols : Nat) (walls : List (Int × Int)) (y x : Nat) :
    (y, x) ∈ wallCells rows cols walls ↔
      (((x : Int), (y : Int)) ∈ walls ∧ x < cols ∧ y < rows) := by
  unfold wallCells
  rw [List.mem_filterMap]
  constructor
  · rintro ⟨p, hp, hq⟩
    by_cases hg : p.1 ≥ 0 ∧ p.1 < (cols : Int) ∧ p.2 ≥ 0 ∧ p.2 < (rows : Int)
    · rw [if_pos hg] at hq
      simp only [Option.some.injEq, Prod.mk.injEq] at hq
      obtain ⟨h1, h2⟩ := hq
      have e1 : p.1 = (x : Int) := by omega
      have e2 : p.2 = (y : Int) := by omega
      have : p = ((x : Int), (y : Int)) := Prod.ext e1 e2
      rw [← this]
      refine ⟨hp, ?_, ?_⟩ <;> omega
    · rw [if_neg hg] at hq
      cases hq
  · rintro ⟨hp, hx, hy⟩
    refine ⟨((x : Int), (y : Int)), hp, ?_⟩
    have hg : ((x : Int), (y : Int)).1 ≥ 0 ∧ ((x : Int), (y : Int)).1 < (cols : Int) ∧
        ((x : Int), (y : Int)).2 ≥ 0 ∧ ((x : Int), (y : Int)).2 < (rows : Int) := by
      simp only
      omega
    rw [if_pos hg]
    simp

theorem mem_rowCells (rows cols : Nat) (y x : Nat) :
    (y, x) ∈ (List.range cols).flatMap (fun x => [(0, x), (rows - 1, x)]) ↔
      (x < cols ∧ (y = 0 ∨ y = rows - 1)) := by
  simp only [List.mem_flatMap, List.mem_range, List.mem_cons, Prod.mk.injEq, List.mem_singleton,
    List.not_mem_nil, or_false]
  constructor
  · rintro ⟨a, ha, h | h⟩
    · exact ⟨by omega, Or.inl h.1⟩
    · exact ⟨by omega, Or.inr h.1⟩
  · rintro ⟨hx, h | h⟩
    · exact ⟨x, hx, Or.inl ⟨h, rfl⟩⟩
    · exact ⟨x, hx, Or.inr ⟨h, rfl⟩⟩

theorem mem_colCells (rows cols : Nat) (y x : Nat) :
    (y, x) ∈ (List.range rows).flatMap (fun y => [(y, 0), (y, cols - 1)]) ↔
      (y < rows ∧ (x = 0 ∨ x = cols - 1)) := by
  simp only [List.mem_flatMap, List.mem_range, List.mem_cons, Prod.mk.injEq, List.mem_singleton,
    List.not_mem_nil, or_false]
  constructor
  · rintro ⟨a, ha, h | h⟩
    · exact ⟨by omega, Or.inl h.2⟩
    · exact ⟨by omega, Or.inr h.2⟩
  · rintro ⟨hy, h | h⟩
    · exact ⟨y, hy, Or.inl ⟨rfl, h⟩⟩
    · exact ⟨y, hy, Or.inr ⟨rfl, h⟩⟩

theorem mazeAt_stampCells_some (cs : List (Nat × Nat)) (m : List (List Int)) (y x : Nat)
    (a : Int) (h : mazeAt m y x = some a) :
    mazeAt (stampCells m cs) y x = if (y, x) ∈ cs then some 1 else some a := by
  rw [mazeAt_stampCells, h]
  simp

theorem mazeAt_stampCells_none (cs : List (Nat × Nat)) (m : List (List Int)) (y x : Nat)
    (h : mazeAt m y x = none) : mazeAt (stampCells m cs) y x = none := by
  rw [mazeAt_stampCells, h]
  simp

theorem mazeAt_initMaze (w : MainWindow) (lvl : Int) (y x : Nat) :
    mazeAt (initMaze w lvl).maze y x =
      if y < w.rows ∧ x < w.cols then
        (if onBorder w.rows w.cols x y ∨ ((x : Int), (y : Int)) ∈ currentWalls w lvl then some 1
         else some 0)
      else none := by
  simp only [initMaze, stampRows_eq, stampCols_eq, stampWalls_eq]
  by_cases hb : y < w.rows ∧ x < w.cols
  · rw [if_pos hb]
    have h0 := mazeAt_replicate w.rows w.cols y x
    rw [if_pos hb] at h0
    have hA := mem_rowCells w.rows w.cols y x
    have hB := mem_colCells w.rows w.cols y x
    have hC := mem_wallCells w.rows w.cols (currentWalls w lvl) y x
    by_cases pA : (y, x) ∈ (List.range w.cols).flatMap (fun x => [(0, x), (w.rows - 1, x)])
    · have h1 : mazeAt (stampCells (List.replicate w.rows (List.replicate w.cols (0 : Int)))
          ((List.range w.cols).flatMap (fun x => [(0, x), (w.rows - 1, x)]))) y x = some 1 := by
        rw [mazeAt_stampCells_some _ _ y x 0 h0, if_pos pA]
      have h2 := mazeAt_stampCells_some
        ((List.range w.rows).flatMap (fun y => [(y, 0), (y, w.cols - 1)])) _ y x 1 h1
      rw [ite_self] at h2
      have h3 := mazeAt_stampCells_some (wallCells w.rows w.cols (currentWalls w lvl)) _ y x 1 h2
      rw [ite_self] at h3
      rw [h3, if_pos]
      left
      have := hA.1 pA
      unfold onBorder
      omega
    · have h1 : mazeAt (stampCells (List.replicate w.rows (List.replicate w.cols (0 : Int)))
          ((List.range w.cols).flatMap (fun x => [(0, x), (w.rows - 1, x)]))) y x = some 0 := by
        rw [mazeAt_stampCells_some _ _ y x 0 h0, if_neg pA]
      have h2 := mazeAt_stampCells_some
        ((List.range w.rows).flatMap (fun y => [(y, 0), (y, w.cols - 1)])) _ y x 0 h1
      by_cases pB : (y, x) ∈ (List.range w.rows).flatMap (fun y => [(y, 0), (y, w.cols - 1)])
      · rw [if_pos pB] at h2
        have h3 := mazeAt_stampCells_some (wallCells w.rows w.cols (currentWalls w lvl)) _ y x 1 h2
        rw [ite_self] at h3
        rw [h3, if_pos]
        left
        have := hB.1 pB
        unfold onBorder
        omega
      · rw [if_neg pB] at h2
        have h3 := mazeAt_stampCells_some (wallCells w.rows w.cols (currentWalls w lvl)) _ y x 0 h2
        rw [h3]
        have nA : ¬ (x < w.cols ∧ (y = 0 ∨ y = w.rows - 1)) := fun h => pA (hA.2 h)
        have nB : ¬ (y < w.rows ∧ (x = 0 ∨ x = w.cols - 1)) := fun h => pB (hB.2 h)
        have nb : ¬ onBorder w.rows w.cols x y := by
          unfold onBorder
          omega
        by_cases pC : (y, x) ∈ wallCells w.rows w.cols (currentWalls w lvl)
        · rw [if_pos pC, if_pos (Or.inr (hC.1 pC).1)]
        · have nC : ¬ ((x : Int), (y : Int)) ∈ currentWalls w lvl := fun h => pC (hC.2 ⟨h, hb.2, hb.1⟩)
          rw [if_neg pC, if_neg]
          rintro (h | h)
          · exact nb h
          · exact nC h
  · rw [if_neg hb]
    have h0 := mazeAt_replicate w.rows w.cols y x
    rw [if_neg hb] at h0
    exact mazeAt_stampCells_none _ _ y x
      (mazeAt_stampCells_none _ _ y x (mazeAt_stampCells_none _ _ y x h0))

theorem mem_setInsert (s : List (Int × Int)) (p q : Int × Int) :
    q ∈ setInsert s p ↔ q = p ∨ q ∈ s := by
  unfold setInsert
  by_cases h : p ∈ s
  · rw [if_pos h]
    constructor
    · exact fun hq => Or.inr hq
    · rintro (hq | hq)
      · rw [hq]; exact h
      · exact hq
  · rw [if_neg h]
    exact List.mem_cons

theorem nodup_setInsert (s : List (Int × Int)) (p : Int × Int) (h : s.Nodup) :
    (setInsert s p).Nodup := by
  unfold setInsert
  by_cases hp : p ∈ s
  · rw [if_pos hp]; exact h
  · rw [if_neg hp]; exact List.nodup_cons.2 ⟨hp, h⟩

theorem mem_setRemove (s : List (Int × Int)) (p q : Int × Int) :
    q ∈ setRemove s p ↔ q ∈ s ∧ q ≠ p := by
  unfold setRemove
  simp [List.mem_filter]

theorem nodup_setRemove (s : List (Int × Int)) (p : Int × Int) (h : s.Nodup) :
    (setRemove s p).Nodup := by
  unfold setRemove
  exact h.filter _

theorem length_setRemove (s : List (Int × Int)) (p : Int × Int) (h : s.Nodup) (hp : p ∈ s) :
    (setRemove s p).length + 1 = s.length := by
  induction s with
  | nil => cases hp
  | cons a s ih =>
    have hn := List.nodup_cons.1 h
    by_cases ha : a = p
    · subst ha
      have : setRemove (a :: s) a = s := by
        unfold setRemove
        rw [List.filter_cons_of_neg (by simp)]
        apply List.filter_eq_self.2
        intro b hb
        have : b ≠ a := fun e => hn.1 (e ▸ hb)
        simpa using this
      rw [this]
      rfl
    · have hps : p ∈ s := by
        rcases List.mem_cons.1 hp with e | e
        · exact absurd e.symm ha
        · exact e
      have : setRemove (a :: s) p = a :: setRemove s p := by
        unfold setRemove
        rw [List.filter_cons_of_pos (by simpa using ha)]
      rw [this, List.length_cons, List.length_cons, ih hn.2 hps]

theorem mem_foodRow (w : MainWindow) (y : Nat) (xs : List Nat) (f : List (Int × Int))
    (q : Int × Int) :
    q ∈ xs.foldl
        (fun f x => if mazeAt w.maze y x == some 0 then setInsert f ((x : Int), (y : Int)) else f) f ↔
      q ∈ f ∨ ∃ x ∈ xs, mazeAt w.maze y x = some 0 ∧ q = ((x : Int), (y : Int)) := by
  induction xs generalizing f with
  | nil => simp
  | cons a xs ih =>
    rw [List.foldl_cons, ih]
    by_cases hm : mazeAt w.maze y a = some 0
    · have hb : (mazeAt w.maze y a == some 0) = true := by rw [hm]; rfl
      rw [if_pos hb, mem_setInsert]
      constructor
      · rintro ((h | h) | ⟨x, hx, h1, h2⟩)
        · exact Or.inr ⟨a, List.mem_cons_self _ _, hm, h⟩
        · exact Or.inl h
        · exact Or.inr ⟨x, List.mem_cons_of_mem _ hx, h1, h2⟩
      · rintro (h | ⟨x, hx, h1, h2⟩)
        · exact Or.inl (Or.inr h)
        · rcases List.mem_cons.1 hx with e | e
          · subst e; exact Or.inl (Or.inl h2)
          · exact Or.inr ⟨x, e, h1, h2⟩
    · have hb : ¬ (mazeAt w.maze y a == some 0) = true := by
        intro h
        exact hm (by simpa using h)
      rw [if_neg hb]
      constructor
      · rintro (h | ⟨x, hx, h1, h2⟩)
        · exact Or.inl h
        · exact Or.inr ⟨x, List.mem_cons_of_mem _ hx, h1, h2⟩
      · rintro (h | ⟨x, hx, h1, h2⟩)
        · exact Or.inl h
        · rcases List.mem_cons.1 hx with e | e
          · subst e; exact absurd h1 hm
          · exact Or.inr ⟨x, e, h1, h2⟩

theorem nodup_foodRow (w : MainWindow) (y : Nat) (xs : List Nat) (f : List (Int × Int))
    (h : f.Nodup) :
    (xs.foldl
        (fun f x => if mazeAt w.maze y x == some 0 then setInsert f ((x : Int), (y : Int)) else f)
        f).Nodup := by
  induction xs generalizing f with
  | nil => exact h
  | cons a xs ih =>
    rw [List.foldl_cons]
    apply ih
    by_cases hb : (mazeAt w.maze y a == some 0) = true
    · rw [if_pos hb]; exact nodup_setInsert _ _ h
    · rw [if_neg hb]; exact h

theorem mem_foodRows (w : MainWindow) (ys : List Nat) (f : List (Int × Int)) (q : Int × Int) :
    q ∈ ys.foldl (foodRow w) f ↔
      q ∈ f ∨ ∃ y ∈ ys, ∃ x ∈ List.range' 1 (w.cols - 2),
        mazeAt w.maze y x = some 0 ∧ q = ((x : Int), (y : Int)) := by
  induction ys generalizing f with
  | nil => simp
  | cons a ys ih =>
    rw [List.foldl_cons, ih]
    unfold foodRow
    rw [mem_foodRow]
    constructor
    · rintro ((h | ⟨x, hx, h1, h2⟩) | ⟨y, hy, h⟩)
      · exact Or.inl h
      · exact Or.inr ⟨a, List.mem_cons_self _ _, x, hx, h1, h2⟩
      · exact Or.inr ⟨y, List.mem_cons_of_mem _ hy, h⟩
    · rintro (h | ⟨y, hy, h⟩)
      · exact Or.inl (Or.inl h)
      · rcases List.mem_cons.1 hy with e | e
        · subst e
          obtain ⟨x, hx, h1, h2⟩ := h
          exact Or.inl (Or.inr ⟨x, hx, h1, h2⟩)
        · exact Or.inr ⟨y, e, h⟩

theorem nodup_foodRows (w : MainWindow) (ys : List Nat) (f : List (Int × Int)) (h : f.Nodup) :
    (ys.foldl (foodRow w) f).Nodup := by
  induction ys generalizing f with
  | nil => exact h
  | cons a ys ih =>
    rw [List.foldl_cons]
    exact ih _ (nodup_foodRow w a _ f h)

theorem mem_initFood (w : MainWindow) (q : Int × Int) :
    q ∈ (initFood w).food ↔
      (∃ y ∈ List.range' 1 (w.rows - 2), ∃ x ∈ List.range' 1 (w.cols - 2),
        mazeAt w.maze y x = some 0 ∧ q = ((x : Int), (y : Int))) ∧ q ≠ (w.playerX, w.playerY) := by
  unfold initFood
  simp only
  rw [mem_setRemove, mem_foodRows]
  simp

theorem nodup_initFood (w : MainWindow) : (initFood w).food.Nodup := by
  unfold initFood
  exact nodup_setRemove _ _ (nodup_foodRows w _ [] List.nodup_nil)

theorem isWalkable_iff (w : MainWindow) (x y : Int) :
    isWalkable w x y = true ↔
      0 ≤ x ∧ 0 ≤ y ∧ x < (w.cols : Int) ∧ y < (w.rows : Int) ∧
        mazeAt w.maze y.toNat x.toNat = some 0 := by
  unfold isWalkable
  by_cases h : x < 0 ∨ y < 0 ∨ x ≥ (w.cols : Int) ∨ y ≥ (w.rows : Int)
  · rw [if_pos h]
    constructor
    · intro h'; cases h'
    · intro h'; omega
  · rw [if_neg h]
    constructor
    · intro h'
      refine ⟨by omega, by omega, by omega, by omega, by simpa using h'⟩
    · intro h'
      simpa using h'.2.2.2.2

theorem shaped_replicate (rows cols : Nat) :
    Shaped rows cols (List.replicate rows (List.replicate cols (0 : Int))) := by
  intro y x
  rw [mazeAt_replicate]
  by_cases h : y < rows ∧ x < cols
  · rw [if_pos h]; simp [h]
  · rw [if_neg h]; simp [h]

theorem shaped_setCell (rows cols : Nat) (m : List (List Int)) (y x : Nat) (v : Int)
    (h : Shaped rows cols m) : Shaped rows cols (setCell m y x v) := by
  intro y' x'
  rw [mazeAt_setCell, ← h y' x']
  by_cases hc : y' = y ∧ x' = x ∧ (mazeAt m y x).isSome
  · rw [if_pos hc]
    obtain ⟨h1, h2, h3⟩ := hc
    subst h1; subst h2
    simp [h3]
  · rw [if_neg hc]

theorem writeCell_inside (rows cols : Nat) (m : List (List Int)) (y x v : Int)
    (h : Shaped rows cols m) (hy : 0 ≤ y ∧ y < (rows : Int)) (hx : 0 ≤ x ∧ x < (cols : Int)) :
    writeCell m y x v = some (setCell m y.toNat x.toNat v) := by
  unfold writeCell
  rw [if_pos]
  refine ⟨hy.1, hx.1, ?_⟩
  rw [h]
  omega

theorem writeCell_outside (rows cols : Nat) (m : List (List Int)) (y x v : Int)
    (h : Shaped rows cols m)
    (hout : ¬ (x ≥ 0 ∧ x < (cols : Int) ∧ y ≥ 0 ∧ y < (rows : Int))) :
    writeCell m y x v = none := by
  unfold writeCell
  rw [if_neg]
  rintro ⟨h1, h2, h3⟩
  rw [h] at h3
  omega

theorem checked_rows (rows cols : Nat) (hr : 0 < rows) (xs : List Nat) (hxs : ∀ x ∈ xs, x < cols)
    (m : List (List Int)) (h : Shaped rows cols m) :
    xs.foldlM
        (fun m (x : Nat) =>
          (writeCell m 0 x 1).bind (fun m1 => writeCell m1 ((rows : Int) - 1) x 1)) m =
      some (stampRows rows m xs) ∧ Shaped rows cols (stampRows rows m xs) := by
  induction xs generalizing m with
  | nil => exact ⟨rfl, h⟩
  | cons x xs ih =>
    have hx : x < cols := hxs x (List.mem_cons_self _ _)
    have h1 : writeCell m 0 (x : Int) 1 = some (setCell m 0 x 1) := by
      rw [writeCell_inside rows cols m 0 x 1 h (by omega) (by omega)]
      rfl
    have s1 := shaped_setCell rows cols m 0 x 1 h
    have h2 : writeCell (setCell m 0 x 1) ((rows : Int) - 1) (x : Int) 1 =
        some (setCell (setCell m 0 x 1) (rows - 1) x 1) := by
      rw [writeCell_inside rows cols _ _ x 1 s1 (by omega) (by omega)]
      have e : ((rows : Int) - 1).toNat = rows - 1 := by omega
      rw [e]
      rfl
    have s2 := shaped_setCell rows cols _ (rows - 1) x 1 s1
    have hrec := ih (fun x' hx' => hxs x' (List.mem_cons_of_mem _ hx')) _ s2
    rw [List.foldlM_cons, h1]
    show (writeCell (setCell m 0 x 1) ((rows : Int) - 1) (x : Int) 1 >>= _) = _ ∧ _
    rw [h2]
    exact hrec

theorem checked_cols (rows cols : Nat) (hc : 0 < cols) (ys : List Nat) (hys : ∀ y ∈ ys, y < rows)
    (m : List (List Int)) (h : Shaped rows cols m) :
    ys.foldlM
        (fun m (y : Nat) =>
          (writeCell m y 0 1).bind (fun m1 => writeCell m1 y ((cols : Int) - 1) 1)) m =
      some (stampCols cols m ys) ∧ Shaped rows cols (stampCols cols m ys) := by
  induction ys generalizing m with
  | nil => exact ⟨rfl, h⟩
  | cons y ys ih =>
    have hy : y < rows := hys y (List.mem_cons_self _ _)
    have h1 : writeCell m (y : Int) 0 1 = some (setCell m y 0 1) := by
      rw [writeCell_inside rows cols m y 0 1 h (by omega) (by omega)]
      rfl
    have s1 := shaped_setCell rows cols m y 0 1 h
    have h2 : writeCell (setCell m y 0 1) (y : Int) ((cols : Int) - 1) 1 =
        some (setCell (setCell m y 0 1) y (cols - 1) 1) := by
      rw [writeCell_inside rows cols _ y _ 1 s1 (by omega) (by omega)]
      have e : ((cols : Int) - 1).toNat = cols - 1 := by omega
      rw [e]
      rfl
    have s2 := shaped_setCell rows cols _ y (cols - 1) 1 s1
    have hrec := ih (fun y' hy' => hys y' (List.mem_cons_of_mem _ hy')) _ s2
    rw [List.foldlM_cons, h1]
    show (writeCell (setCell m y 0 1) (y : Int) ((cols : Int) - 1) 1 >>= _) = _ ∧ _
    rw [h2]
    exact hrec

theorem checked_walls (rows cols : Nat) (walls : List (Int × Int)) (m : List (List Int))
    (h : Shaped rows cols m) :
    walls.foldlM
        (fun m p =>
          if p.1 ≥ 0 ∧ p.1 < (cols : Int) ∧ p.2 ≥ 0 ∧ p.2 < (rows : Int) then
            writeCell m p.2 p.1 1
          else some m) m =
      some (stampWalls rows cols m walls) ∧ Shaped rows cols (stampWalls rows cols m walls) := by
  induction walls generalizing m with
  | nil => exact ⟨rfl, h⟩
  | cons p ps ih =>
    rw [List.foldlM_cons]
    by_cases hg : p.1 ≥ 0 ∧ p.1 < (cols : Int) ∧ p.2 ≥ 0 ∧ p.2 < (rows : Int)
    · have hst : stampWalls rows cols m (p :: ps) =
          stampWalls rows cols (setCell m p.2.toNat p.1.toNat 1) ps := by
        simp only [stampWalls, List.foldl_cons, hg, and_self, if_true]
      rw [if_pos hg, writeCell_inside rows cols m p.2 p.1 1 h ⟨hg.2.2.1, hg.2.2.2⟩ ⟨hg.1, hg.2.1⟩,
        hst]
      exact ih _ (shaped_setCell rows cols m _ _ 1 h)
    · have hst : stampWalls rows cols m (p :: ps) = stampWalls rows cols m ps := by
        simp only [stampWalls, List.foldl_cons, hg, if_false]
      rw [if_neg hg, hst]
      exact ih m h

theorem clampLevel_valid (w : MainWindow) (levelNumber : Int) (hl : w.levels ≠ []) :
    w.levels[(clampLevel w levelNumber - 1).toNat]? = some (currentWalls w levelNumber) := by
  have hpos : 0 < w.levels.length := List.length_pos.2 hl
  have hlt : (clampLevel w levelNumber - 1).toNat < w.levels.length := by
    unfold clampLevel
    split_ifs <;> omega
  unfold currentWalls
  rw [List.getD_eq_getElem?_getD, List.getElem?_eq_getElem hlt]
  rfl

theorem initMazeChecked_eq (w : MainWindow) (levelNumber : Int) (hr : 0 < w.rows)
    (hc : 0 < w.cols) (hl : w.levels ≠ []) :
    initMazeChecked w levelNumber = some (initMaze w levelNumber) := by
  obtain ⟨r1, r2⟩ := checked_rows w.rows w.cols hr (List.range w.cols)
    (fun x hx => List.mem_range.1 hx) _ (shaped_replicate w.rows w.cols)
  obtain ⟨c1, c2⟩ := checked_cols w.rows w.cols hc (List.range w.rows)
    (fun y hy => List.mem_range.1 hy) _ r2
  obtain ⟨w1, _⟩ := checked_walls w.rows w.cols (currentWalls w levelNumber) _ c2
  unfold initMazeChecked
  simp only
  rw [r1, Option.some_bind, c1, Option.some_bind, clampLevel_valid w levelNumber hl,
    Option.some_bind, w1]
  rfl

theorem stampWalls_filter (rows cols : Nat) (walls : List (Int × Int)) (m : List (List Int)) :
    stampWalls rows cols m walls =
      stampWalls rows cols m
        (walls.filter (fun p =>
          decide (p.1 ≥ 0 ∧ p.1 < (cols : Int) ∧ p.2 ≥ 0 ∧ p.2 < (rows : Int)))) := by
  induction walls generalizing m with
  | nil => rfl
  | cons p ps ih =>
    by_cases hg : p.1 ≥ 0 ∧ p.1 < (cols : Int) ∧ p.2 ≥ 0 ∧ p.2 < (rows : Int)
    · have hst : stampWalls rows cols m (p :: ps) =
          stampWalls rows cols (setCell m p.2.toNat p.1.toNat 1) ps := by
        simp only [stampWalls, List.foldl_cons, hg, and_self, if_true]
      rw [List.filter_cons_of_pos (by simpa using hg), hst, ih]
      simp only [stampWalls, List.foldl_cons, hg, and_self, if_true]
    · have hst : stampWalls rows cols m (p :: ps) = stampWalls rows cols m ps := by
        simp only [stampWalls, List.foldl_cons, hg, if_false]
      rw [List.filter_cons_of_neg (by simpa using hg), hst, ih]

theorem mem_initFood_initMaze (w : MainWindow) (levelNumber : Int) (x y : Int) :
    (x, y) ∈ (initFood (initMaze w levelNumber)).food ↔
      (isWalkable (initMaze w levelNumber) x y = true ∧ (x, y) ≠ (1, 1)) := by
  rw [mem_initFood, isWalkable_iff]
  have hc : (initMaze w levelNumber).cols = w.cols := rfl
  have hr : (initMaze w levelNumber).rows = w.rows := rfl
  have hpx : (initMaze w levelNumber).playerX = 1 := rfl
  have hpy : (initMaze w levelNumber).playerY = 1 := rfl
  rw [hc, hr, hpx, hpy]
  constructor
  · rintro ⟨⟨b, hb, a, ha, hm, he⟩, hne⟩
    simp only [Prod.mk.injEq] at he
    obtain ⟨e1, e2⟩ := he
    subst e1
    subst e2
    rw [List.mem_range'_1] at hb ha
    refine ⟨⟨by omega, by omega, by omega, by omega, ?_⟩, hne⟩
    simpa using hm
  · rintro ⟨⟨h1, h2, h3, h4, hm⟩, hne⟩
    refine ⟨?_, hne⟩
    have hm' := hm
    rw [mazeAt_initMaze, if_pos ⟨by omega, by omega⟩] at hm'
    by_cases hbw : onBorder w.rows w.cols x.toNat y.toNat ∨
        (((x.toNat : Nat) : Int), ((y.toNat : Nat) : Int)) ∈ currentWalls w levelNumber
    · rw [if_pos hbw] at hm'
      cases hm'
    · have hnb : ¬ onBorder w.rows w.cols x.toNat y.toNat := fun h => hbw (Or.inl h)
      unfold onBorder at hnb
      refine ⟨y.toNat, ?_, x.toNat, ?_, hm, ?_⟩
      · rw [List.mem_range'_1]; omega
      · rw [List.mem_range'_1]; omega
      · simp only [Prod.mk.injEq]
        omega

/-- C4: after `initMaze` with any level index, every border cell of the board is a wall,
`isWalkable` is false on every border cell, `isWalkable` is false outside
`[0,cols) x [0,rows)` (negative coordinates included) whatever the stored cells are,
because the bounds guard answers before the grid is read, and every read that passes the
guard lands on a stored cell. -/
theorem initMaze_border_and_bounds (w : MainWindow) (levelNumber : Int) :
    (∀ x y : Nat, x < w.cols ∧ y < w.rows ∧ onBorder w.rows w.cols x y →
        mazeAt (initMaze w levelNumber).maze y x = some 1 ∧
        isWalkable (initMaze w levelNumber) (x : Int) (y : Int) = false) ∧
    (∀ x y : Int, (x < 0 ∨ y < 0 ∨ x ≥ (w.cols : Int) ∨ y ≥ (w.rows : Int)) →
        ∀ cells : List (List Int),
          isWalkable { initMaze w levelNumber with maze := cells } x y = false) ∧
    (∀ x y : Int, ¬ (x < 0 ∨ y < 0 ∨ x ≥ (w.cols : Int) ∨ y ≥ (w.rows : Int)) →
        (mazeAt (initMaze w levelNumber).maze y.toNat x.toNat).isSome = true) := by
  refine ⟨?_, ?_, ?_⟩
  · rintro x y ⟨hx, hy, hb⟩
    have hm : mazeAt (initMaze w levelNumber).maze y x = some 1 := by
      rw [mazeAt_initMaze, if_pos ⟨hy, hx⟩, if_pos (Or.inl hb)]
    refine ⟨hm, ?_⟩
    cases hw : isWalkable (initMaze w levelNumber) (x : Int) (y : Int) with
    | false => rfl
    | true =>
      have h := (isWalkable_iff _ _ _).1 hw
      have h5 := h.2.2.2.2
      simp only [Int.toNat_ofNat] at h5
      rw [hm] at h5
      cases h5
  · intro x y h cells
    have hc : (initMaze w levelNumber).cols = w.cols := rfl
    have hr : (initMaze w levelNumber).rows = w.rows := rfl
    unfold isWalkable
    rw [if_pos]
    simpa [hc, hr] using h
  · intro x y h
    rw [mazeAt_initMaze, if_pos ⟨by omega, by omega⟩]
    split <;> rfl

/-- C5: for every level table and level index, the grid built by `initMaze` holds a wall
at an in-bounds cell exactly when the cell lies on the border or occurs in the wall list
that is loaded, and holds 0 otherwise; no cell exists outside `[0,cols) x [0,rows)`; a
valid index loads its own list.  With every element access checked, `initMaze` on a
non-empty board with a non-empty level table completes, whatever the wall list holds, and
builds that same grid: on a grid of the board's size a write at a coordinate that passes
the guard of the wall loop addresses a stored cell, whereas the write for a coordinate
outside `[0,cols) x [0,rows)`, which the guard skips, would fall outside the stored
vectors.  The wall loop builds the same grid from a list as from the list without its
out-of-board entries. -/
theorem initMaze_walls_exact (w : MainWindow) (levelNumber : Int) :
    (∀ x y : Nat, x < w.cols ∧ y < w.rows →
        (mazeAt (initMaze w levelNumber).maze y x = some 1 ↔
          (onBorder w.rows w.cols x y ∨ ((x : Int), (y : Int)) ∈ currentWalls w levelNumber)) ∧
        (mazeAt (initMaze w levelNumber).maze y x = some 0 ↔
          ¬ (onBorder w.rows w.cols x y ∨ ((x : Int), (y : Int)) ∈ currentWalls w levelNumber))) ∧
    (∀ x y : Nat, ¬ (x < w.cols ∧ y < w.rows) → mazeAt (initMaze w levelNumber).maze y x = none) ∧
    (1 ≤ levelNumber ∧ levelNumber ≤ (w.levels.length : Int) →
        w.levels[(levelNumber - 1).toNat]? = some (currentWalls w levelNumber)) ∧
    (0 < w.rows → 0 < w.cols → w.levels ≠ [] →
        initMazeChecked w levelNumber = some (initMaze w levelNumber)) ∧
    (∀ (m : List (List Int)) (p : Int × Int), Shaped w.rows w.cols m →
        (p.1 ≥ 0 ∧ p.1 < (w.cols : Int) ∧ p.2 ≥ 0 ∧ p.2 < (w.rows : Int)) →
        writeCell m p.2 p.1 1 = some (setCell m p.2.toNat p.1.toNat 1) ∧
          Shaped w.rows w.cols (setCell m p.2.toNat p.1.toNat 1)) ∧
    (∀ (m : List (List Int)) (p : Int × Int), Shaped w.rows w.cols m →
        ¬ (p.1 ≥ 0 ∧ p.1 < (w.cols : Int) ∧ p.2 ≥ 0 ∧ p.2 < (w.rows : Int)) →
        writeCell m p.2 p.1 1 = none) ∧
    Shaped w.rows w.cols (initMaze w levelNumber).maze ∧
    (∀ (m : List (List Int)) (walls : List (Int × Int)),
        stampWalls w.rows w.cols m walls =
          stampWalls w.rows w.cols m
            (walls.filter (fun p =>
              decide (p.1 ≥ 0 ∧ p.1 < (w.cols : Int) ∧ p.2 ≥ 0 ∧ p.2 < (w.rows : Int))))) := by
  refine ⟨?_, ?_, ?_, initMazeChecked_eq w levelNumber, ?_, ?_, ?_,
    fun m walls => stampWalls_filter w.rows w.cols walls m⟩
  · rintro x y ⟨hx, hy⟩
    rw [mazeAt_initMaze, if_pos ⟨hy, hx⟩]
    by_cases h : onBorder w.rows w.cols x y ∨ ((x : Int), (y : Int)) ∈ currentWalls w levelNumber
    · rw [if_pos h]
      simp [h]
    · rw [if_neg h]
      simp [h]
  · intro x y h
    rw [mazeAt_initMaze, if_neg]
    intro h'
    exact h ⟨h'.2, h'.1⟩
  · rintro ⟨h1, h2⟩
    have hc : clampLevel w levelNumber = levelNumber := by
      unfold clampLevel
      rw [if_neg]
      omega
    have hlt : (levelNumber - 1).toNat < w.levels.length := by omega
    unfold currentWalls
    rw [hc, List.getD_eq_getElem?_getD, List.getElem?_eq_getElem hlt]
    rfl
  · intro m p hm hg
    exact ⟨writeCell_inside w.rows w.cols m p.2 p.1 1 hm ⟨hg.2.2.1, hg.2.2.2⟩ ⟨hg.1, hg.2.1⟩,
      shaped_setCell w.rows w.cols m _ _ 1 hm⟩
  · intro m p hm hg
    exact writeCell_outside w.rows w.cols m p.2 p.1 1 hm hg
  · intro y x
    rw [mazeAt_initMaze]
    by_cases hb : y < w.rows ∧ x < w.cols
    · rw [if_pos hb]
      simp only [hb, and_self, iff_true]
      split <;> rfl
    · rw [if_neg hb]
      simp [hb]

/-- C6: on the grid that `initMaze` builds, `initFood` leaves a pellet on a cell exactly
when the cell is walkable and is not the start cell `(1, 1)`. -/
theorem initFood_pellets_exact (w : MainWindow) (levelNumber : Int) (x y : Int) :
    (x, y) ∈ (initFood (initMaze w levelNumber)).food ↔
      (isWalkable (initMaze w levelNumber) x y = true ∧ (x, y) ≠ (1, 1)) :=
  mem_initFood_initMaze w levelNumber x y

theorem initEnemies_frame (w : MainWindow) :
    (initEnemies w).lives = w.lives ∧ (initEnemies w).score = w.score ∧
    (initEnemies w).food = w.food ∧ (initEnemies w).playerX = w.playerX ∧
    (initEnemies w).playerY = w.playerY ∧ (initEnemies w).timerActive = w.timerActive ∧
    (initEnemies w).pending = w.pending ∧ (initEnemies w).currentLevel = w.currentLevel ∧
    (initEnemies w).rows = w.rows ∧ (initEnemies w).cols = w.cols ∧
    (initEnemies w).maze = w.maze ∧
    (initEnemies w).currentPlayerName = w.currentPlayerName ∧
    (initEnemies w).leaderboardFile = w.leaderboardFile := by
  unfold initEnemies
  simp only
  split_ifs <;> exact ⟨rfl, rfl, rfl, rfl, rfl, rfl, rfl, rfl, rfl, rfl, rfl, rfl, rfl⟩

theorem initEnemies_roster_congr (w w' : MainWindow) (hr : w'.rows = w.rows)
    (hc : w'.cols = w.cols) (hl : w'.currentLevel = w.currentLevel) :
    (initEnemies w').enemies = (initEnemies w).enemies := by
  unfold initEnemies
  simp only [hr, hc, hl]
  split_ifs <;> rfl

theorem collideLoop_eq (w : MainWindow) (es : List Enemy) :
    collideLoop w es =
      if es.any (fun e => decide (e.x = w.playerX ∧ e.y = w.playerY)) then loseLife w else w := by
  induction es with
  | nil => rfl
  | cons e es ih =>
    by_cases h : e.x = w.playerX ∧ e.y = w.playerY
    · simp [collideLoop, h]
    · simp [collideLoop, h, ih]

theorem eatFood_frame (w : MainWindow) :
    (eatFood w).lives = w.lives ∧ (eatFood w).enemies = w.enemies ∧
    (eatFood w).playerX = w.playerX ∧ (eatFood w).playerY = w.playerY ∧
    (eatFood w).timerActive = w.timerActive ∧ (eatFood w).pending = w.pending ∧
    (eatFood w).currentLevel = w.currentLevel ∧ (eatFood w).rows = w.rows ∧
    (eatFood w).cols = w.cols ∧ (eatFood w).maze = w.maze ∧
    (eatFood w).currentPlayerName = w.currentPlayerName ∧
    (eatFood w).leaderboardFile = w.leaderboardFile := by
  unfold eatFood
  simp only
  split_ifs <;> exact ⟨rfl, rfl, rfl, rfl, rfl, rfl, rfl, rfl, rfl, rfl, rfl, rfl⟩

theorem wrapInt_fits (n : Int) (h1 : -2147483648 ≤ n) (h2 : n ≤ 2147483647) : wrapInt n = n := by
  unfold wrapInt
  omega

theorem wrapInt_range (n : Int) : -2147483648 ≤ wrapInt n ∧ wrapInt n ≤ 2147483647 := by
  unfold wrapInt
  omega

theorem eatFood_account (w : MainWindow) (h : w.food.Nodup) (hr : ScoreFits w) :
    (eatFood w).food.Nodup ∧
      (eatFood w).score + 10 * ((eatFood w).food.length : Int) =
        w.score + 10 * (w.food.length : Int) ∧
      (∀ q, q ∈ (eatFood w).food → q ∈ w.food) ∧ ScoreFits (eatFood w) := by
  obtain ⟨hr1, hr2⟩ := hr
  unfold ScoreFits eatFood
  simp only
  by_cases hc : w.food.contains (w.playerX, w.playerY) = true
  · rw [if_pos hc]
    have hm : (w.playerX, w.playerY) ∈ w.food := by simpa using hc
    have hl := length_setRemove w.food _ h hm
    have hlen : (w.food.length : Int) = ((setRemove w.food (w.playerX, w.playerY)).length : Int) + 1 := by
      rw [← hl]; push_cast; ring
    have hw : wrapInt (w.score + 10) = w.score + 10 :=
      wrapInt_fits _ (by omega) (by omega)
    refine ⟨nodup_setRemove _ _ h, ?_, ?_, ?_, ?_⟩
    · simp only
      rw [hw, hlen]; ring
    · intro q hq
      exact ((mem_setRemove _ _ _).1 hq).1
    · simp only
      rw [hw]; omega
    · simp only
      rw [hw]; omega
  · rw [if_neg hc]
    exact ⟨h, rfl, fun q hq => hq, hr1, hr2⟩

theorem loseLife_fields (w : MainWindow) :
    (loseLife w).playerX = 1 ∧ (loseLife w).playerY = 1 ∧
    (loseLife w).enemies = (initEnemies w).enemies ∧ (loseLife w).lives = w.lives - 1 ∧
    (loseLife w).food = w.food ∧ (loseLife w).score = w.score ∧
    (loseLife w).currentPlayerName = w.currentPlayerName ∧
    (loseLife w).leaderboardFile = w.leaderboardFile ∧
    (loseLife w).timerActive = (decide (0 < w.lives - 1) && w.timerActive) ∧
    (loseLife w).pending =
      (if w.lives - 1 ≤ 0 then w.pending ++ [Callback.gameOver] else w.pending) := by
  have hf := initEnemies_frame { w with playerX := 1, playerY := 1 }
  have hr := initEnemies_roster_congr w { w with playerX := 1, playerY := 1 } rfl rfl rfl
  obtain ⟨f1, f2, f3, f4, f5, f6, f7, f8, f9, f10, f11, f12, f13⟩ := hf
  unfold loseLife
  simp only
  by_cases hl : w.lives - 1 ≤ 0
  · have hl' : (initEnemies { w with playerX := 1, playerY := 1 }).lives - 1 ≤ 0 := by
      rw [f1]; exact hl
    have hd : decide (0 < w.lives - 1) = false := by simpa using hl
    rw [if_pos hl', if_pos hl, hd]
    refine ⟨f4, f5, hr, ?_, f3, f2, f12, f13, ?_, ?_⟩
    · show (initEnemies { w with playerX := 1, playerY := 1 }).lives - 1 = w.lives - 1
      rw [f1]
    · rfl
    · show (initEnemies { w with playerX := 1, playerY := 1 }).pending ++ [Callback.gameOver] = _
      rw [f7]
  · have hl' : ¬ (initEnemies { w with playerX := 1, playerY := 1 }).lives - 1 ≤ 0 := by
      rw [f1]; exact hl
    have hd : decide (0 < w.lives - 1) = true := by
      simp only [decide_eq_true_eq]; omega
    rw [if_neg hl', if_neg hl, hd]
    refine ⟨f4, f5, hr, ?_, f3, f2, f12, f13, ?_, f7⟩
    · show (initEnemies { w with playerX := 1, playerY := 1 }).lives - 1 = w.lives - 1
      rw [f1]
    · show (initEnemies { w with playerX := 1, playerY := 1 }).timerActive = (true && w.timerActive)
      rw [f6]; rfl

theorem hitsPlayer_eatFood (w : MainWindow) : hitsPlayer (eatFood w) = hitsPlayer w := by
  obtain ⟨_, h2, h3, h4, _⟩ := eatFood_frame w
  unfold hitsPlayer
  rw [h2, h3, h4]

theorem checkCollisions_eq (w : MainWindow) :
    checkCollisions w = if hitsPlayer w then loseLife (eatFood w) else eatFood w := by
  unfold checkCollisions
  simp only
  rw [collideLoop_eq]
  have h := hitsPlayer_eatFood w
  unfold hitsPlayer at h
  rw [h]
  rfl

theorem hitsPlayer_iff (w : MainWindow) :
    hitsPlayer w = true ↔ ∃ e ∈ w.enemies, e.x = w.playerX ∧ e.y = w.playerY := by
  unfold hitsPlayer
  simp

theorem updateFrame_eq (w : MainWindow) (pq : PQueue) :
    updateFrame w pq =
      if (checkCollisions (preCollision w pq)).food.isEmpty then
        { checkCollisions (preCollision w pq) with
            timerActive := false
            pending := (checkCollisions (preCollision w pq)).pending ++ [Callback.win] }
      else checkCollisions (preCollision w pq) := rfl

theorem movePlayer_cases (w : MainWindow) :
    movePlayer w = w ∨
      movePlayer w =
        eatFood { w with playerX := w.playerX + w.playerDirX, playerY := w.playerY + w.playerDirY } := by
  unfold movePlayer
  simp only
  by_cases h1 : ¬ (w.playerDirX = 0 ∧ w.playerDirY = 0)
  · rw [if_pos h1]
    by_cases h2 : isWalkable w (w.playerX + w.playerDirX) (w.playerY + w.playerDirY) = true
    · rw [if_pos h2]; exact Or.inr rfl
    · rw [if_neg h2]; exact Or.inl rfl
  · rw [if_neg h1]; exact Or.inl rfl

theorem movePlayer_frame (w : MainWindow) :
    (movePlayer w).lives = w.lives ∧ (movePlayer w).enemies = w.enemies ∧
    (movePlayer w).timerActive = w.timerActive ∧ (movePlayer w).pending = w.pending ∧
    (movePlayer w).currentPlayerName = w.currentPlayerName ∧
    (movePlayer w).leaderboardFile = w.leaderboardFile := by
  rcases movePlayer_cases w with h | h
  · rw [h]; exact ⟨rfl, rfl, rfl, rfl, rfl, rfl⟩
  · rw [h]
    obtain ⟨h1, h2, _, _, h5, h6, _, _, _, _, h11, h12⟩ :=
      eatFood_frame { w with playerX := w.playerX + w.playerDirX, playerY := w.playerY + w.playerDirY }
    exact ⟨h1, h2, h5, h6, h11, h12⟩

theorem movePlayer_account (w : MainWindow) (h : w.food.Nodup) (hr : ScoreFits w) :
    (movePlayer w).food.Nodup ∧
      (movePlayer w).score + 10 * ((movePlayer w).food.length : Int) =
        w.score + 10 * (w.food.length : Int) ∧
      (∀ q, q ∈ (movePlayer w).food → q ∈ w.food) ∧ ScoreFits (movePlayer w) := by
  rcases movePlayer_cases w with h' | h'
  · rw [h']; exact ⟨h, rfl, fun q hq => hq, hr⟩
  · rw [h']
    exact eatFood_account
      { w with playerX := w.playerX + w.playerDirX, playerY := w.playerY + w.playerDirY } h hr

theorem preCollision_frame (w : MainWindow) (pq : PQueue) :
    (preCollision w pq).lives = w.lives ∧ (preCollision w pq).timerActive = w.timerActive ∧
    (preCollision w pq).pending = w.pending ∧
    (preCollision w pq).currentPlayerName = w.currentPlayerName ∧
    (preCollision w pq).leaderboardFile = w.leaderboardFile := by
  obtain ⟨h1, _, h3, h4, h5, h6⟩ := movePlayer_frame { w with mouthOpen := !w.mouthOpen }
  exact ⟨h1, h3, h4, h5, h6⟩

theorem preCollision_account (w : MainWindow) (pq : PQueue) (h : w.food.Nodup)
    (hr : ScoreFits w) :
    (preCollision w pq).food.Nodup ∧
      (preCollision w pq).score + 10 * ((preCollision w pq).food.length : Int) =
        w.score + 10 * (w.food.length : Int) ∧
      (∀ q, q ∈ (preCollision w pq).food → q ∈ w.food) ∧ ScoreFits (preCollision w pq) :=
  movePlayer_account { w with mouthOpen := !w.mouthOpen } h hr

theorem checkCollisions_account (w : MainWindow) (h : w.food.Nodup) (hr : ScoreFits w) :
    (checkCollisions w).food.Nodup ∧
      (checkCollisions w).score + 10 * ((checkCollisions w).food.length : Int) =
        w.score + 10 * (w.food.length : Int) ∧
      (∀ q, q ∈ (checkCollisions w).food → q ∈ w.food) ∧ ScoreFits (checkCollisions w) := by
  rw [checkCollisions_eq]
  have he := eatFood_account w h hr
  unfold ScoreFits at he ⊢
  split_ifs
  · obtain ⟨_, _, _, _, h5, h6, _⟩ := loseLife_fields (eatFood w)
    rw [h5, h6]
    exact he
  · exact he

theorem updateFrame_account (w : MainWindow) (pq : PQueue) (h : w.food.Nodup)
    (hr : ScoreFits w) :
    (updateFrame w pq).food.Nodup ∧
      (updateFrame w pq).score + 10 * ((updateFrame w pq).food.length : Int) =
        w.score + 10 * (w.food.length : Int) ∧
      (∀ q, q ∈ (updateFrame w pq).food → q ∈ w.food) ∧ ScoreFits (updateFrame w pq) := by
  have h1 := preCollision_account w pq h hr
  have h2 := checkCollisions_account (preCollision w pq) h1.1 h1.2.2.2
  have key : (checkCollisions (preCollision w pq)).food.Nodup ∧
      (checkCollisions (preCollision w pq)).score +
          10 * ((checkCollisions (preCollision w pq)).food.length : Int) =
        w.score + 10 * (w.food.length : Int) ∧
      (∀ q, q ∈ (checkCollisions (preCollision w pq)).food → q ∈ w.food) ∧
      ScoreFits (checkCollisions (preCollision w pq)) :=
    ⟨h2.1, h2.2.1.trans h1.2.1, fun q hq => h1.2.2.1 q (h2.2.2.1 q hq), h2.2.2.2⟩
  rw [updateFrame_eq]
  unfold ScoreFits at key ⊢
  split_ifs
  · exact key
  · exact key

theorem updateFrame_win (w : MainWindow) (pq : PQueue) (h : (updateFrame w pq).food = []) :
    (updateFrame w pq).timerActive = false ∧
      (updateFrame w pq).pending =
        (checkCollisions (preCollision w pq)).pending ++ [Callback.win] := by
  rw [updateFrame_eq] at h ⊢
  by_cases he : (checkCollisions (preCollision w pq)).food.isEmpty = true
  · rw [if_pos he]
    exact ⟨rfl, rfl⟩
  · rw [if_neg he] at h
    rw [h] at he
    exact absurd rfl he

theorem keyPressEvent_frame (w : MainWindow) (k : Key) :
    (keyPressEvent w k).food = w.food ∧ (keyPressEvent w k).score = w.score ∧
    (keyPressEvent w k).lives = w.lives ∧ (keyPressEvent w k).timerActive = w.timerActive ∧
    (keyPressEvent w k).pending = w.pending ∧
    (keyPressEvent w k).currentPlayerName = w.currentPlayerName ∧
    (keyPressEvent w k).leaderboardFile = w.leaderboardFile := by
  unfold keyPressEvent
  by_cases h : w.menuVisible = true
  · rw [if_pos h]; exact ⟨rfl, rfl, rfl, rfl, rfl, rfl, rfl⟩
  · rw [if_neg h]
    cases k <;> exact ⟨rfl, rfl, rfl, rfl, rfl, rfl, rfl⟩

theorem keyReleaseEvent_frame (w : MainWindow) (k : Key) :
    (keyReleaseEvent w k).food = w.food ∧ (keyReleaseEvent w k).score = w.score ∧
    (keyReleaseEvent w k).lives = w.lives ∧ (keyReleaseEvent w k).timerActive = w.timerActive ∧
    (keyReleaseEvent w k).pending = w.pending ∧
    (keyReleaseEvent w k).currentPlayerName = w.currentPlayerName ∧
    (keyReleaseEvent w k).leaderboardFile = w.leaderboardFile := by
  unfold keyReleaseEvent
  by_cases h : w.menuVisible = true
  · rw [if_pos h]; exact ⟨rfl, rfl, rfl, rfl, rfl, rfl, rfl⟩
  · rw [if_neg h]
    cases k <;> exact ⟨rfl, rfl, rfl, rfl, rfl, rfl, rfl⟩

theorem step_timeout (pq : PQueue) (w : MainWindow) :
    step pq w Event.timeout = if w.timerActive then updateFrame w pq else w := rfl

theorem step_account (pq : PQueue) (w : MainWindow) (ev : Event) (h : w.food.Nodup)
    (hr : ScoreFits w) :
    (step pq w ev).food.Nodup ∧
      (step pq w ev).score + 10 * ((step pq w ev).food.length : Int) =
        w.score + 10 * (w.food.length : Int) ∧ ScoreFits (step pq w ev) := by
  cases ev with
  | press k =>
    obtain ⟨h1, h2, _⟩ := keyPressEvent_frame w k
    unfold ScoreFits at hr ⊢
    show (keyPressEvent w k).food.Nodup ∧
      (keyPressEvent w k).score + 10 * ((keyPressEvent w k).food.length : Int) = _ ∧
      -2147483648 ≤ (keyPressEvent w k).score ∧
      (keyPressEvent w k).score + 10 * ((keyPressEvent w k).food.length : Int) ≤ 2147483647
    rw [h1, h2]
    exact ⟨h, rfl, hr⟩
  | release k =>
    obtain ⟨h1, h2, _⟩ := keyReleaseEvent_frame w k
    unfold ScoreFits at hr ⊢
    show (keyReleaseEvent w k).food.Nodup ∧
      (keyReleaseEvent w k).score + 10 * ((keyReleaseEvent w k).food.length : Int) = _ ∧
      -2147483648 ≤ (keyReleaseEvent w k).score ∧
      (keyReleaseEvent w k).score + 10 * ((keyReleaseEvent w k).food.length : Int) ≤ 2147483647
    rw [h1, h2]
    exact ⟨h, rfl, hr⟩
  | timeout =>
    rw [step_timeout]
    by_cases ht : w.timerActive = true
    · rw [if_pos ht]
      exact ⟨(updateFrame_account w pq h hr).1, (updateFrame_account w pq h hr).2.1,
        (updateFrame_account w pq h hr).2.2.2⟩
    · rw [if_neg ht]
      exact ⟨h, rfl, hr⟩

theorem run_cons (pq : PQueue) (w : MainWindow) (ev : Event) (evs : List Event) :
    run pq w (ev :: evs) = run pq (step pq w ev) evs := rfl

theorem run_append (pq : PQueue) (w : MainWindow) (evs evs' : List Event) :
    run pq w (evs ++ evs') = run pq (run pq w evs) evs' := by
  unfold run
  rw [List.foldl_append]

theorem run_account (pq : PQueue) (evs : List Event) (w : MainWindow) (h : w.food.Nodup)
    (hr : ScoreFits w) :
    (run pq w evs).food.Nodup ∧
      (run pq w evs).score + 10 * ((run pq w evs).food.length : Int) =
        w.score + 10 * (w.food.length : Int) := by
  induction evs generalizing w with
  | nil => exact ⟨h, rfl⟩
  | cons ev evs ih =>
    have hs := step_account pq w ev h hr
    have := ih (step pq w ev) hs.1 hs.2.2
    rw [run_cons]
    exact ⟨this.1, this.2.trans hs.2.1⟩

theorem run_last_tick (pq : PQueue) (w : MainWindow) (evs : List Event)
    (h : (run pq w evs).timerActive = true) :
    run pq w (evs ++ [Event.timeout]) = updateFrame (run pq w evs) pq := by
  rw [run_append]
  show step pq _ Event.timeout = _
  rw [step_timeout, if_pos h]

theorem askName_frame (w : MainWindow) (nameInput : String) :
    (askName w nameInput).lives = w.lives ∧ (askName w nameInput).score = w.score ∧
    (askName w nameInput).food = w.food ∧ (askName w nameInput).pending = w.pending ∧
    (askName w nameInput).currentLevel = w.currentLevel ∧
    (askName w nameInput).leaderboardFile = w.leaderboardFile ∧
    (askName w nameInput).enemies = w.enemies ∧ (askName w nameInput).maze = w.maze ∧
    (askName w nameInput).rows = w.rows ∧ (askName w nameInput).cols = w.cols ∧
    (askName w nameInput).playerX = w.playerX ∧ (askName w nameInput).playerY = w.playerY := by
  unfold askName
  by_cases h : (!w.asked) = true
  · rw [if_pos h]; exact ⟨rfl, rfl, rfl, rfl, rfl, rfl, rfl, rfl, rfl, rfl, rfl, rfl⟩
  · rw [if_neg h]; exact ⟨rfl, rfl, rfl, rfl, rfl, rfl, rfl, rfl, rfl, rfl, rfl, rfl⟩

theorem loadLevels_frame (w : MainWindow) :
    (if w.levels.isEmpty then setupLevels w else w).score = w.score ∧
    (if w.levels.isEmpty then setupLevels w else w).pending = w.pending ∧
    (if w.levels.isEmpty then setupLevels w else w).leaderboardFile = w.leaderboardFile ∧
    (if w.levels.isEmpty then setupLevels w else w).rows = w.rows ∧
    (if w.levels.isEmpty then setupLevels w else w).cols = w.cols := by
  by_cases h : w.levels.isEmpty = true
  · rw [if_pos h]; exact ⟨rfl, rfl, rfl, rfl, rfl⟩
  · rw [if_neg h]; exact ⟨rfl, rfl, rfl, rfl, rfl⟩

theorem startGame_fields (w : MainWindow) (level : Int) (nameInput : String) :
    (startGame w level nameInput).lives = 3 ∧ (startGame w level nameInput).score = w.score ∧
    (startGame w level nameInput).food.Nodup ∧
    (startGame w level nameInput).timerActive = true ∧
    (startGame w level nameInput).pending = w.pending ∧
    (startGame w level nameInput).currentLevel = level ∧
    (startGame w level nameInput).leaderboardFile = w.leaderboardFile := by
  obtain ⟨s1, s2, s3, _, _⟩ := loadLevels_frame w
  generalize hw1 : (if w.levels.isEmpty then setupLevels w else w) = w1 at s1 s2 s3
  have hsg : startGame w level nameInput =
      { askName { initEnemies (initFood (initMaze { w1 with currentLevel := level } level)) with
            lives := 3 } nameInput with
          currentPlayerName := (askName { initEnemies (initFood (initMaze
            { w1 with currentLevel := level } level)) with lives := 3 } nameInput).playerName
          mouthOpen := false, timerActive := true, menuVisible := false } := by
    unfold startGame
    simp only
    rw [hw1]
  obtain ⟨f1, f2, f3, f4, f5, f6, f7, f8, f9, f10, f11, f12, f13⟩ :=
    initEnemies_frame (initFood (initMaze { w1 with currentLevel := level } level))
  have hn := nodup_initFood (initMaze { w1 with currentLevel := level } level)
  obtain ⟨a1, a2, a3, a4, a5, a6, _⟩ :=
    askName_frame { initEnemies (initFood (initMaze { w1 with currentLevel := level } level)) with
      lives := 3 } nameInput
  rw [hsg]
  refine ⟨a1, ?_, ?_, rfl, ?_, ?_, ?_⟩
  · show (askName _ nameInput).score = _
    rw [a2]
    show (initEnemies _).score = _
    rw [f2]; exact s1
  · show (askName _ nameInput).food.Nodup
    rw [a3]
    show (initEnemies _).food.Nodup
    rw [f3]; exact hn
  · show (askName _ nameInput).pending = _
    rw [a4]
    show (initEnemies _).pending = _
    rw [f7]; exact s2
  · show (askName _ nameInput).currentLevel = _
    rw [a5]
    show (initEnemies _).currentLevel = _
    rw [f8]; rfl
  · show (askName _ nameInput).leaderboardFile = _
    rw [a6]
    show (initEnemies _).leaderboardFile = _
    rw [f13]; exact s3

/-- C7: when `checkCollisions` runs with at least one enemy on the player's cell, the
player ends on the start cell `(1, 1)`, the roster is the one `initEnemies` builds for the
current level (whatever the old roster was) and `lives` has dropped by exactly 1, however
many enemies share the cell; when no enemy is on the player's cell, player position,
roster and `lives` are unchanged. -/
theorem checkCollisions_life_loss (w : MainWindow) :
    ((∃ e ∈ w.enemies, e.x = w.playerX ∧ e.y = w.playerY) →
        (checkCollisions w).playerX = 1 ∧ (checkCollisions w).playerY = 1 ∧
        (checkCollisions w).enemies = (initEnemies w).enemies ∧
        (∀ roster : List Enemy,
          (checkCollisions w).enemies = (initEnemies { w with enemies := roster }).enemies) ∧
        (checkCollisions w).lives = w.lives - 1) ∧
    ((¬ ∃ e ∈ w.enemies, e.x = w.playerX ∧ e.y = w.playerY) →
        (checkCollisions w).playerX = w.playerX ∧ (checkCollisions w).playerY = w.playerY ∧
        (checkCollisions w).enemies = w.enemies ∧ (checkCollisions w).lives = w.lives) := by
  obtain ⟨e1, e2, e3, e4, _, _, e7, e8, e9, _⟩ := eatFood_frame w
  constructor
  · intro h
    have hh : hitsPlayer w = true := (hitsPlayer_iff w).2 h
    rw [checkCollisions_eq, hh, if_pos rfl]
    obtain ⟨l1, l2, l3, l4, _⟩ := loseLife_fields (eatFood w)
    have hr : (initEnemies (eatFood w)).enemies = (initEnemies w).enemies :=
      initEnemies_roster_congr w (eatFood w) e8 e9 e7
    refine ⟨l1, l2, l3.trans hr, ?_, by rw [l4, e1]⟩
    intro roster
    rw [l3, hr]
    exact (initEnemies_roster_congr w { w with enemies := roster } rfl rfl rfl).symm
  · intro h
    have hh : hitsPlayer w = false := by
      cases hc : hitsPlayer w with
      | false => rfl
      | true => exact absurd ((hitsPlayer_iff w).1 hc) h
    rw [checkCollisions_eq, hh]
    exact ⟨e3, e4, e2, e1⟩

/-- C10 (as amended): after `startGame`, `lives` is 3 and `score` is what it was before
the call; `startGame` does not touch the score. -/
theorem startGame_lives_and_score (w : MainWindow) (level : Int) (nameInput : String) :
    (startGame w level nameInput).lives = 3 ∧ (startGame w level nameInput).score = w.score :=
  ⟨(startGame_fields w level nameInput).1, (startGame_fields w level nameInput).2.1⟩

/-- C10 fails as stated: started from a state whose score is 50, `startGame(1)` sets
`lives` to 3 but leaves the score at 50, not 0. -/
theorem startGame_keeps_score :
    (startGame scoredState 1 "Ann").lives = 3 ∧ (startGame scoredState 1 "Ann").score = 50 ∧
      ¬ ((startGame scoredState 1 "Ann").lives = 3 ∧ (startGame scoredState 1 "Ann").score = 0) := by
  have h := startGame_fields scoredState 1 "Ann"
  have hs : (startGame scoredState 1 "Ann").score = 50 := h.2.1
  refine ⟨h.1, hs, ?_⟩
  rintro ⟨_, h0⟩
  rw [hs] at h0
  exact absurd h0 (by decide)

theorem checkCollisions_lives (w : MainWindow) :
    (checkCollisions w).lives = (if hitsPlayer w then w.lives - 1 else w.lives) ∧
    (checkCollisions w).timerActive =
      (if hitsPlayer w then (decide (0 < w.lives - 1) && w.timerActive) else w.timerActive) ∧
    (checkCollisions w).pending =
      (if hitsPlayer w = true ∧ w.lives - 1 ≤ 0 then w.pending ++ [Callback.gameOver]
       else w.pending) ∧
    (checkCollisions w).currentPlayerName = w.currentPlayerName ∧
    (checkCollisions w).leaderboardFile = w.leaderboardFile := by
  obtain ⟨e1, _, _, _, e5, e6, _, _, _, _, e11, e12⟩ := eatFood_frame w
  rw [checkCollisions_eq]
  by_cases hh : hitsPlayer w = true
  · obtain ⟨_, _, _, l4, _, _, l7, l8, l9, l10⟩ := loseLife_fields (eatFood w)
    rw [if_pos hh, if_pos hh, if_pos hh, l4, l9, l10, e1, e5, e6, l7, l8, e11, e12]
    refine ⟨rfl, rfl, ?_, rfl, rfl⟩
    by_cases hl : w.lives - 1 ≤ 0
    · rw [if_pos hl, if_pos ⟨hh, hl⟩]
    · rw [if_neg hl, if_neg (fun h => hl h.2)]
  · rw [if_neg hh, if_neg hh, if_neg hh, if_neg (fun h => hh h.1)]
    exact ⟨e1, e5, e6, e11, e12⟩

theorem count_append_win (l : List Callback) :
    (l ++ [Callback.win]).count Callback.gameOver = l.count Callback.gameOver := by
  rw [List.count_append]
  simp

theorem count_append_gameOver (l : List Callback) :
    (l ++ [Callback.gameOver]).count Callback.gameOver = l.count Callback.gameOver + 1 := by
  rw [List.count_append]
  simp

theorem updateFrame_lives (w : MainWindow) (pq : PQueue) :
    (updateFrame w pq).lives = (if tickCollides w pq then w.lives - 1 else w.lives) ∧
    ((updateFrame w pq).timerActive = true → w.timerActive = true ∧
        ¬ (tickCollides w pq = true ∧ w.lives - 1 ≤ 0)) ∧
    gameOvers (updateFrame w pq) =
      gameOvers w + (if tickCollides w pq = true ∧ w.lives - 1 ≤ 0 then 1 else 0) ∧
    (updateFrame w pq).currentPlayerName = w.currentPlayerName ∧
    (updateFrame w pq).leaderboardFile = w.leaderboardFile := by
  obtain ⟨p1, p2, p3, p4, p5⟩ := preCollision_frame w pq
  obtain ⟨c1, c2, c3, c4, c5⟩ := checkCollisions_lives (preCollision w pq)
  have hl : (checkCollisions (preCollision w pq)).lives =
      (if tickCollides w pq then w.lives - 1 else w.lives) := by
    rw [c1, p1]; rfl
  have ht : (checkCollisions (preCollision w pq)).timerActive = true → w.timerActive = true ∧
        ¬ (tickCollides w pq = true ∧ w.lives - 1 ≤ 0) := by
    rw [c2, p1, p2]
    unfold tickCollides
    by_cases hh : hitsPlayer (preCollision w pq) = true
    · rw [if_pos hh]
      intro h
      simp only [Bool.and_eq_true, decide_eq_true_eq] at h
      exact ⟨h.2, fun h' => by omega⟩
    · rw [if_neg hh]
      intro h
      exact ⟨h, fun h' => hh h'.1⟩
  have hg : gameOvers (checkCollisions (preCollision w pq)) =
      gameOvers w + (if tickCollides w pq = true ∧ w.lives - 1 ≤ 0 then 1 else 0) := by
    unfold gameOvers
    rw [c3, p1, p3]
    unfold tickCollides
    by_cases hh : hitsPlayer (preCollision w pq) = true ∧ w.lives - 1 ≤ 0
    · rw [if_pos hh, if_pos hh, count_append_gameOver]
    · rw [if_neg hh, if_neg hh]; rfl
  rw [updateFrame_eq]
  by_cases he : (checkCollisions (preCollision w pq)).food.isEmpty = true
  · rw [if_pos he]
    refine ⟨hl, ?_, ?_, c4.trans p4, c5.trans p5⟩
    · intro h; cases h
    · show ((checkCollisions (preCollision w pq)).pending ++ [Callback.win]).count _ = _
      rw [count_append_win]
      exact hg
  · rw [if_neg he]
    exact ⟨hl, ht, hg, c4.trans p4, c5.trans p5⟩

theorem step_lives (pq : PQueue) (g0 : Nat) (w : MainWindow) (n : Nat) (ev : Event)
    (h : LivesInv g0 w n) :
    LivesInv g0 (step pq w ev)
      (n + (if ev = Event.timeout ∧ w.timerActive = true ∧ tickCollides w pq = true then 1 else 0)) ∧
    (step pq w ev).currentPlayerName = w.currentPlayerName ∧
    (step pq w ev).leaderboardFile = w.leaderboardFile := by
  obtain ⟨h1, h2, h3, h4⟩ := h
  cases ev with
  | press k =>
    obtain ⟨_, _, k3, k4, k5, k6, k7⟩ := keyPressEvent_frame w k
    have hc : ¬ (Event.press k = Event.timeout ∧ w.timerActive = true ∧ tickCollides w pq = true) :=
      fun h => by cases h.1
    rw [if_neg hc]
    show LivesInv g0 (keyPressEvent w k) (n + 0) ∧ (keyPressEvent w k).currentPlayerName = _ ∧
      (keyPressEvent w k).leaderboardFile = _
    unfold LivesInv gameOvers
    rw [k3, k4, k5]
    exact ⟨⟨h1, h2, h3, h4⟩, k6, k7⟩
  | release k =>
    obtain ⟨_, _, k3, k4, k5, k6, k7⟩ := keyReleaseEvent_frame w k
    have hc : ¬ (Event.release k = Event.timeout ∧ w.timerActive = true ∧ tickCollides w pq = true) :=
      fun h => by cases h.1
    rw [if_neg hc]
    show LivesInv g0 (keyReleaseEvent w k) (n + 0) ∧ (keyReleaseEvent w k).currentPlayerName = _ ∧
      (keyReleaseEvent w k).leaderboardFile = _
    unfold LivesInv gameOvers
    rw [k3, k4, k5]
    exact ⟨⟨h1, h2, h3, h4⟩, k6, k7⟩
  | timeout =>
    rw [step_timeout]
    by_cases ht : w.timerActive = true
    · rw [if_pos ht]
      obtain ⟨u1, u2, u3, u4, u5⟩ := updateFrame_lives w pq
      have hn : n < 3 := by
        by_contra hge
        have : n = 3 := by omega
        have := (h4 this).1
        rw [this] at ht
        cases ht
      refine ⟨?_, u4, u5⟩
      by_cases hc : tickCollides w pq = true
      · rw [if_pos ⟨rfl, ht, hc⟩]
        rw [if_pos hc] at u1
        refine ⟨by omega, by rw [u1, h2]; push_cast; ring, ?_, ?_⟩
        · intro hlt
          rw [u3, if_neg (fun h => by omega), h3 hn]
          rfl
        · intro heq
          have hl0 : w.lives - 1 ≤ 0 := by omega
          constructor
          · cases hta : (updateFrame w pq).timerActive with
            | false => rfl
            | true => exact absurd ⟨hc, hl0⟩ (u2 hta).2
          · rw [u3, if_pos ⟨hc, hl0⟩, h3 hn]
      · have hc' : ¬ (Event.timeout = Event.timeout ∧ w.timerActive = true ∧
            tickCollides w pq = true) := fun h => hc h.2.2
        rw [if_neg hc']
        rw [if_neg hc] at u1
        refine ⟨h1, by rw [u1, h2]; rfl, ?_, ?_⟩
        · intro hlt
          rw [u3, if_neg (fun h => hc h.1), h3 hlt]
          rfl
        · intro heq
          omega
    · rw [if_neg ht]
      have hc' : ¬ (Event.timeout = Event.timeout ∧ w.timerActive = true ∧
          tickCollides w pq = true) := fun h => ht h.2.1
      rw [if_neg hc']
      exact ⟨⟨h1, h2, h3, h4⟩, rfl, rfl⟩

theorem run_lives (pq : PQueue) (g0 : Nat) (evs : List Event) (w : MainWindow) (n : Nat)
    (h : LivesInv g0 w n) :
    LivesInv g0 (run pq w evs) (n + collisions pq w evs) ∧
    (run pq w evs).currentPlayerName = w.currentPlayerName ∧
    (run pq w evs).leaderboardFile = w.leaderboardFile := by
  induction evs generalizing w n with
  | nil => exact ⟨h, rfl, rfl⟩
  | cons ev evs ih =>
    obtain ⟨s1, s2, s3⟩ := step_lives pq g0 w n ev h
    obtain ⟨r1, r2, r3⟩ := ih (step pq w ev) _ s1
    rw [run_cons]
    refine ⟨?_, r2.trans s2, r3.trans s3⟩
    have : n + collisions pq w (ev :: evs) =
        n + (if ev = Event.timeout ∧ w.timerActive = true ∧ tickCollides w pq = true then 1 else 0) +
          collisions pq (step pq w ev) evs := by
      show n + (_ + _) = _
      omega
    rw [this]
    exact r1

theorem collisions_append (pq : PQueue) (evs evs' : List Event) (w : MainWindow) :
    collisions pq w (evs ++ evs') = collisions pq w evs + collisions pq (run pq w evs) evs' := by
  induction evs generalizing w with
  | nil => simp [collisions, run]
  | cons ev evs ih =>
    show _ + collisions pq (step pq w ev) (evs ++ evs') = (_ + _) + _
    rw [ih, run_cons]
    omega

theorem startGame_livesInv (w0 : MainWindow) (level : Int) (nameInput : String) :
    LivesInv (gameOvers w0) (startGame w0 level nameInput) 0 := by
  obtain ⟨h1, _, _, _, h5, _⟩ := startGame_fields w0 level nameInput
  refine ⟨by omega, by rw [h1]; rfl, ?_, ?_⟩
  · intro _
    unfold gameOvers
    rw [h5]
  · intro h
    omega

/-- C8 (as amended): in a session begun by `startGame` with a score `s` that is an `int`
and for which `s` plus 10 times the number `K` of pellets of the level does not exceed
2147483647, the score always equals `s` plus 10 for each pellet eaten since; the tick
that leaves the pellet set empty stops the game timer and schedules `handleWin`, and at
that moment the score is `s + 10 * K`. -/
theorem win_tick_score (pq : PQueue) (w0 : MainWindow) (level : Int) (nameInput : String)
    (evs : List Event)
    (hlow : -2147483648 ≤ w0.score)
    (hhigh : w0.score + 10 * ((startGame w0 level nameInput).food.length : Int) ≤ 2147483647)
    (hactive : (run pq (startGame w0 level nameInput) evs).timerActive = true)
    (hempty : (run pq (startGame w0 level nameInput) (evs ++ [Event.timeout])).food = []) :
    (run pq (startGame w0 level nameInput) (evs ++ [Event.timeout])).timerActive = false ∧
    (∃ rest, (run pq (startGame w0 level nameInput) (evs ++ [Event.timeout])).pending =
        rest ++ [Callback.win]) ∧
    (run pq (startGame w0 level nameInput) (evs ++ [Event.timeout])).score =
      w0.score + 10 * ((startGame w0 level nameInput).food.length : Int) ∧
    (run pq (startGame w0 level nameInput) evs).score =
      w0.score + 10 * (((startGame w0 level nameInput).food.length : Int) -
        ((run pq (startGame w0 level nameInput) evs).food.length : Int)) := by
  obtain ⟨_, f2, f3, _⟩ := startGame_fields w0 level nameInput
  have hfit : ScoreFits (startGame w0 level nameInput) := by
    unfold ScoreFits
    rw [f2]
    exact ⟨hlow, hhigh⟩
  have hacc := run_account pq (evs ++ [Event.timeout]) (startGame w0 level nameInput) f3 hfit
  have hacc' := run_account pq evs (startGame w0 level nameInput) f3 hfit
  have hstep := run_last_tick pq (startGame w0 level nameInput) evs hactive
  have hw := updateFrame_win (run pq (startGame w0 level nameInput) evs) pq (by rw [← hstep]; exact hempty)
  rw [← hstep] at hw
  refine ⟨hw.1, ⟨_, hw.2⟩, ?_, ?_⟩
  · have h := hacc.2
    rw [hempty, f2] at h
    simpa using h
  · have h := hacc'.2
    rw [f2] at h
    linarith

theorem initEnemies_asked (w : MainWindow) :
    (initEnemies w).asked = w.asked ∧ (initEnemies w).playerName = w.playerName := by
  unfold initEnemies
  simp only
  split_ifs <;> exact ⟨rfl, rfl⟩

theorem startGame_name (w : MainWindow) (level : Int) (nameInput : String) :
    (startGame w level nameInput).currentPlayerName =
      if w.asked = true then w.playerName
      else if (trimmed nameInput.data).isEmpty = true then "Player" else nameInput := by
  have hl : (if w.levels.isEmpty then setupLevels w else w).asked = w.asked ∧
      (if w.levels.isEmpty then setupLevels w else w).playerName = w.playerName := by
    split_ifs <;> exact ⟨rfl, rfl⟩
  generalize hw1 : (if w.levels.isEmpty then setupLevels w else w) = w1 at hl
  obtain ⟨e1, e2⟩ :=
    initEnemies_asked (initFood (initMaze { w1 with currentLevel := level } level))
  have ha : (initEnemies (initFood (initMaze { w1 with currentLevel := level } level))).asked =
      w.asked := e1.trans hl.1
  have hp : (initEnemies (initFood (initMaze { w1 with currentLevel := level } level))).playerName =
      w.playerName := e2.trans hl.2
  have hsg : (startGame w level nameInput).currentPlayerName =
      (askName { initEnemies (initFood (initMaze { w1 with currentLevel := level } level)) with
            lives := 3 } nameInput).playerName := by
    unfold startGame
    simp only
    rw [hw1]
  rw [hsg]
  unfold askName
  simp only
  rw [ha]
  by_cases hask : w.asked = true
  · rw [if_pos hask, if_neg (by rw [hask]; decide)]
    exact hp
  · rw [if_neg hask, if_pos (by simpa using hask)]

theorem blank_name_is_player :
    (startGame MainWindow.fresh 1 "\x0b\u00A0\u3000 ").currentPlayerName = "Player" ∧
    (startGame MainWindow.fresh 1 " Ann").currentPlayerName = " Ann" := by
  rw [startGame_name, startGame_name]
  decide!

/-- C9: in a session begun by `startGame` (three lives), `lives` is 3 minus the number of
collisions resolved so far and never negative; while fewer than three collisions have
been resolved `lives` is positive and no game over has been scheduled; once the third is
resolved `lives` is 0, the timer is stopped, exactly one `handleGameOver` has been
scheduled, and `handleGameOver` stops the game and appends the line `name,score` to the
leaderboard file; the callback is scheduled by the very tick that resolves the third
collision.  The name is the one `startGame` settled: the name kept from the first prompt
if the prompt was shown before, otherwise the text entered, or `Player` if that text is
empty or holds white space only (`QString::trimmed`). -/
theorem game_over_on_third_collision (pq : PQueue) (w0 : MainWindow) (level : Int)
    (nameInput : String) (evs : List Event) :
    collisions pq (startGame w0 level nameInput) evs ≤ 3 ∧
    (run pq (startGame w0 level nameInput) evs).lives =
      3 - (collisions pq (startGame w0 level nameInput) evs : Int) ∧
    0 ≤ (run pq (startGame w0 level nameInput) evs).lives ∧
    (collisions pq (startGame w0 level nameInput) evs < 3 →
      0 < (run pq (startGame w0 level nameInput) evs).lives ∧
      gameOvers (run pq (startGame w0 level nameInput) evs) = gameOvers w0) ∧
    (collisions pq (startGame w0 level nameInput) evs = 3 →
      (run pq (startGame w0 level nameInput) evs).lives = 0 ∧
      (run pq (startGame w0 level nameInput) evs).timerActive = false ∧
      gameOvers (run pq (startGame w0 level nameInput) evs) = gameOvers w0 + 1 ∧
      (recordResult (run pq (startGame w0 level nameInput) evs)).timerActive = false ∧
      (recordResult (run pq (startGame w0 level nameInput) evs)).leaderboardFile =
        w0.leaderboardFile ++ (startGame w0 level nameInput).currentPlayerName ++ "," ++
          toString (run pq (startGame w0 level nameInput) evs).score ++ "\n" ∧
      ∀ (ret : Int) (name : String),
        handleGameOver (run pq (startGame w0 level nameInput) evs) ret name =
          if ret = 0 then
            startGame (recordResult (run pq (startGame w0 level nameInput) evs))
              (run pq (startGame w0 level nameInput) evs).currentLevel name
          else showLevelSelect (recordResult (run pq (startGame w0 level nameInput) evs))) ∧
    (gameOvers (run pq (startGame w0 level nameInput) (evs ++ [Event.timeout])) =
        gameOvers (run pq (startGame w0 level nameInput) evs) + 1 ↔
      (collisions pq (startGame w0 level nameInput) evs = 2 ∧
        collisions pq (startGame w0 level nameInput) (evs ++ [Event.timeout]) = 3)) ∧
    (startGame w0 level nameInput).currentPlayerName =
      (if w0.asked = true then w0.playerName
       else if (trimmed nameInput.data).isEmpty = true then "Player" else nameInput) := by
  have h0 := startGame_livesInv w0 level nameInput
  obtain ⟨⟨i1, i2, i3, i4⟩, hname, hfile⟩ :=
    run_lives pq (gameOvers w0) evs (startGame w0 level nameInput) 0 h0
  obtain ⟨⟨j1, j2, j3, j4⟩, _, _⟩ :=
    run_lives pq (gameOvers w0) (evs ++ [Event.timeout]) (startGame w0 level nameInput) 0 h0
  rw [Nat.zero_add] at i1 i2 i3 i4 j1 j2 j3 j4
  have happ := collisions_append pq evs [Event.timeout] (startGame w0 level nameInput)
  have hle : collisions pq (startGame w0 level nameInput) evs ≤
      collisions pq (startGame w0 level nameInput) (evs ++ [Event.timeout]) := by omega
  obtain ⟨_, _, _, _, _, _, sfile⟩ := startGame_fields w0 level nameInput
  refine ⟨i1, i2, by omega, ?_, ?_, ?_, startGame_name w0 level nameInput⟩
  · intro hlt
    exact ⟨by omega, i3 hlt⟩
  · intro heq
    refine ⟨by omega, (i4 heq).1, (i4 heq).2, rfl, ?_, ?_⟩
    · show (run pq (startGame w0 level nameInput) evs).leaderboardFile ++
        (run pq (startGame w0 level nameInput) evs).currentPlayerName ++ "," ++
          toString (run pq (startGame w0 level nameInput) evs).score ++ "\n" = _
      rw [hfile, hname, sfile]
    · intro ret name
      rfl
  · constructor
    · intro hg
      by_cases hn : collisions pq (startGame w0 level nameInput) evs < 3
      · by_cases hn' : collisions pq (startGame w0 level nameInput) (evs ++ [Event.timeout]) < 3
        · rw [i3 hn, j3 hn'] at hg
          omega
        · have h3 : collisions pq (startGame w0 level nameInput) (evs ++ [Event.timeout]) = 3 := by
            omega
          have hone : collisions pq (run pq (startGame w0 level nameInput) evs) [Event.timeout] ≤ 1 := by
            show (if _ then 1 else 0) + 0 ≤ 1
            split_ifs <;> omega
          exact ⟨by omega, h3⟩
      · have h3 : collisions pq (startGame w0 level nameInput) evs = 3 := by omega
        have h3' : collisions pq (startGame w0 level nameInput) (evs ++ [Event.timeout]) = 3 := by
          omega
        rw [(i4 h3).2, (j4 h3').2] at hg
        omega
    · rintro ⟨h2, h3⟩
      rw [(j4 h3).2, i3 (by omega)]

theorem heuristic_self (a : Int × Int) : heuristic a a = 0 := by
  unfold heuristic
  simp

theorem heuristic_nonneg (a b : Int × Int) : 0 ≤ heuristic a b := by
  unfold heuristic
  omega

theorem heuristic_triangle (a b c : Int × Int) :
    heuristic a c ≤ heuristic a b + heuristic b c := by
  unfold heuristic
  omega

theorem heuristic_comm (a b : Int × Int) : heuristic a b = heuristic b a := by
  unfold heuristic
  omega

theorem heuristic_eq_zero {a b : Int × Int} (h : heuristic a b = 0) : a = b := by
  unfold heuristic at h
  apply Prod.ext <;> omega

theorem adjacent_symm {a b : Int × Int} (h : adjacent a b) : adjacent b a := by
  unfold adjacent at *
  rw [heuristic_comm]
  exact h

theorem adjacent_cases {a b : Int × Int} (h : adjacent a b) :
    b = (a.1 + 1, a.2) ∨ b = (a.1 - 1, a.2) ∨ b = (a.1, a.2 + 1) ∨ b = (a.1, a.2 - 1) := by
  unfold adjacent heuristic at h
  have h1 : (b.1 = a.1 + 1 ∧ b.2 = a.2) ∨ (b.1 = a.1 - 1 ∧ b.2 = a.2) ∨
      (b.1 = a.1 ∧ b.2 = a.2 + 1) ∨ (b.1 = a.1 ∧ b.2 = a.2 - 1) := by omega
  rcases h1 with h | h | h | h
  · exact Or.inl (Prod.ext h.1 h.2)
  · exact Or.inr (Or.inl (Prod.ext h.1 h.2))
  · exact Or.inr (Or.inr (Or.inl (Prod.ext h.1 h.2)))
  · exact Or.inr (Or.inr (Or.inr (Prod.ext h.1 h.2)))

theorem adjacent_right (a : Int × Int) : adjacent a (a.1 + 1, a.2) := by
  unfold adjacent heuristic; simp

theorem adjacent_left (a : Int × Int) : adjacent a (a.1 - 1, a.2) := by
  unfold adjacent heuristic; simp

theorem adjacent_down (a : Int × Int) : adjacent a (a.1, a.2 + 1) := by
  unfold adjacent heuristic; simp

theorem adjacent_up (a : Int × Int) : adjacent a (a.1, a.2 - 1) := by
  unfold adjacent heuristic; simp

theorem Walk.cons {w : MainWindow} {a b c : Int × Int} {k : Nat} (hab : adjacent a b)
    (hb : isWalkable w b.1 b.2 = true) (h : Walk w b c k) : Walk w a c (k + 1) := by
  induction h with
  | nil => exact Walk.snoc (Walk.nil a) hab hb
  | snoc _ hadj hw ih => exact Walk.snoc ih hadj hw

theorem Walk.heuristic_le {w : MainWindow} {a b : Int × Int} {k : Nat} (h : Walk w a b k) :
    heuristic a b ≤ k := by
  induction h with
  | nil => rw [heuristic_self]; rfl
  | @snoc b c k _ hadj _ ih =>
    have := heuristic_triangle a b c
    unfold adjacent at hadj
    push_cast
    omega

theorem Walk.zero_eq {w : MainWindow} {a b : Int × Int} (h : Walk w a b 0) : a = b := by
  have := h.heuristic_le
  have h0 := heuristic_nonneg a b
  exact heuristic_eq_zero (by simp at this; omega)

theorem IsDist.unique {w : MainWindow} {a b : Int × Int} {L L' : Nat} (h : IsDist w a b L)
    (h' : IsDist w a b L') : L = L' :=
  Nat.le_antisymm (h.2 L' h'.1) (h'.2 L h.1)

theorem mapSet_same {V : Type} (m : Int × Int → Option V) (k : Int × Int) (v : V) :
    mapSet m k v k = some v := by
  unfold mapSet
  rw [if_pos rfl]

theorem mapSet_other {V : Type} (m : Int × Int → Option V) (k q : Int × Int) (v : V)
    (h : q ≠ k) : mapSet m k v q = m q := by
  unfold mapSet
  rw [if_neg h]

theorem AInv.init (w : MainWindow) (pq : PQueue) (start goal cur : Int × Int) :
    AInv w pq start goal cur (fun _ => False) (aStarInit pq start goal) := by
  have hel : ∀ e ∈ pq.elems (aStarInit pq start goal).openQ,
      e = ⟨start, heuristic start goal, 0⟩ := by
    intro e he
    have hp := pq.elems_push pq.empty ⟨start, heuristic start goal, 0⟩
    rw [pq.elems_empty] at hp
    have := (hp.mem_iff).1 he
    simpa using this
  have hg : ∀ v g, (aStarInit pq start goal).gScore v = some g → v = start ∧ g = 0 := by
    intro v g h
    unfold aStarInit mapSet at h
    simp only at h
    by_cases hv : v = start
    · rw [if_pos hv] at h
      exact ⟨hv, by injection h with h; exact h.symm⟩
    · rw [if_neg hv] at h
      cases h
  have hgs : (aStarInit pq start goal).gScore start = some 0 := by
    show mapSet (fun _ => none) start (0 : Int) start = some 0
    exact mapSet_same _ _ _
  refine
    { g_start := hgs
      g_node := ?_
      g_bound := ?_
      g_walk := ?_
      closed_opt := ?_
      closed_nbr := ?_
      q_entry := ?_
      q_cover := ?_
      closed_nodup := List.nodup_nil
      closed_dom := ?_
      start_closed := fun h => absurd rfl h
      goal_open := List.not_mem_nil _ }
  · intro v g h hv
    exact absurd (hg v g h).1 hv
  · intro v g h
    rw [(hg v g h).2]
    exact ⟨le_refl _, by simp [aStarInit]⟩
  · intro v g h
    obtain ⟨h1, h2⟩ := hg v g h
    subst h1
    subst h2
    exact Walk.nil _
  · intro v hv
    cases hv
  · intro u hu
    cases hu
  · intro e he
    rw [hel e he]
    exact ⟨0, hgs, le_refl _, by simp⟩
  · intro v g h _
    obtain ⟨h1, h2⟩ := hg v g h
    refine ⟨⟨start, heuristic start goal, 0⟩, ?_, h1.symm, h2.symm⟩
    have hp := pq.elems_push pq.empty ⟨start, heuristic start goal, 0⟩
    exact (hp.mem_iff).2 (List.mem_cons_self _ _)
  · intro v hv
    cases hv

/-- The frontier lemma: between iterations, every cell that a walk from `start` reaches
is closed, or some cell of that walk is still open with a score no larger than its
position on the walk. -/
theorem AInv.frontier {w : MainWindow} {pq : PQueue} {start goal cur : Int × Int}
    {st : AStarState pq.Q} (inv : AInv w pq start goal cur (fun _ => False) st) {x : Int × Int} {k : Nat}
    (hw : Walk w start x k) :
    x ∈ st.closedSet ∨
      ∃ y gy, ∃ j : Nat, y ∉ st.closedSet ∧ st.gScore y = some gy ∧ gy ≤ (j : Int) ∧
        (j : Int) + heuristic y x ≤ (k : Int) := by
  induction hw with
  | nil =>
    by_cases hs : start ∈ st.closedSet
    · exact Or.inl hs
    · refine Or.inr ⟨start, 0, 0, hs, inv.g_start, le_refl _, ?_⟩
      rw [heuristic_self]
      simp
  | @snoc b c k hwb hadj hwc ih =>
    rcases ih with hb | ⟨y, gy, j, hy, hgy, hle, hk⟩
    · obtain ⟨gb, hgb, hopt⟩ := inv.closed_opt b hb
      have hbk := hopt k hwb
      rcases inv.closed_nbr b hb c hadj hwc with ⟨_, hmem⟩ | ⟨gu, gv, hgu, hgv, hle⟩
      · exact absurd hmem id
      · rw [hgb] at hgu
        injection hgu with hgu
        subst hgu
        by_cases hc : c ∈ st.closedSet
        · exact Or.inl hc
        · refine Or.inr ⟨c, gv, k + 1, hc, hgv, ?_, ?_⟩
          · push_cast; omega
          · rw [heuristic_self]; simp
    · refine Or.inr ⟨y, gy, j, hy, hgy, hle, ?_⟩
      have ht := heuristic_triangle y b c
      unfold adjacent at hadj
      push_cast
      omega

/-- The node taken from the queue, if it is not closed yet, carries its true distance. -/
theorem AInv.pop_opt {w : MainWindow} {pq : PQueue} {start goal cur : Int × Int}
    {st : AStarState pq.Q} (inv : AInv w pq start goal cur (fun _ => False) st) {e : Node}
    (he : e ∈ pq.elems st.openQ) (hmin : ∀ x ∈ pq.elems st.openQ, cmp e x = false)
    (hopen : e.p ∉ st.closedSet) :
    ∃ g, st.gScore e.p = some g ∧ ∀ k : Nat, Walk w start e.p k → g ≤ (k : Int) := by
  obtain ⟨g, hg, hge, hf⟩ := inv.q_entry e he
  refine ⟨g, hg, ?_⟩
  intro k hk
  rcases inv.frontier hk with hc | ⟨y, gy, j, hy, hgy, hle, hjk⟩
  · exact absurd hc hopen
  · obtain ⟨ey, hey, hp, hgq⟩ := inv.q_cover y gy hgy hy
    obtain ⟨g', hg', hge', hf'⟩ := inv.q_entry ey hey
    have hc := hmin ey hey
    rw [cmp_eq_false_iff] at hc
    rw [hp] at hf'
    have ht := heuristic_triangle y e.p goal
    omega

theorem AInv.skip {w : MainWindow} {pq : PQueue} {start goal cur : Int × Int}
    {todo : Int × Int → Prop} {st : AStarState pq.Q} (inv : AInv w pq start goal cur todo st)
    (np : Int × Int)
    (hdone : isWalkable w np.1 np.2 = true →
      ∃ gu gv, st.gScore cur = some gu ∧ st.gScore np = some gv ∧ gv ≤ gu + 1) :
    AInv w pq start goal cur (fun v => todo v ∧ v ≠ np) st :=
  { g_start := inv.g_start
    g_node := inv.g_node
    g_bound := inv.g_bound
    g_walk := inv.g_walk
    closed_opt := inv.closed_opt
    closed_nbr := by
      intro u hu v hadj hwv
      rcases inv.closed_nbr u hu v hadj hwv with ⟨h1, h2⟩ | h
      · by_cases hv : v = np
        · subst hv
          subst h1
          exact Or.inr (hdone hwv)
        · exact Or.inl ⟨h1, h2, hv⟩
      · exact Or.inr h
    q_entry := inv.q_entry
    q_cover := inv.q_cover
    closed_nodup := inv.closed_nodup
    closed_dom := inv.closed_dom
    start_closed := inv.start_closed
    goal_open := inv.goal_open }

theorem AInv.relax {w : MainWindow} {pq : PQueue} {start goal cur : Int × Int}
    {todo : Int × Int → Prop} {st st' : AStarState pq.Q}
    (inv : AInv w pq start goal cur todo st) (hcur : cur ∈ st.closedSet) {gc : Int}
    (hgc : st.gScore cur = some gc) (hgcb : gc + 1 ≤ (st.closedSet.length : Int))
    {np : Int × Int} (hadj : adjacent cur np) (hwalk : isWalkable w np.1 np.2 = true)
    (hopen : np ∉ st.closedSet) (hless : ∀ old, st.gScore np = some old → gc + 1 < old)
    (hq : (pq.elems st'.openQ).Perm (⟨np, gc + 1 + heuristic np goal, gc + 1⟩ :: pq.elems st.openQ))
    (hclosed : st'.closedSet = st.closedSet)
    (hcf : ∀ q, st'.cameFrom q = mapSet st.cameFrom np cur q)
    (hgs : ∀ q, st'.gScore q = mapSet st.gScore np (gc + 1) q) :
    AInv w pq start goal cur (fun v => todo v ∧ v ≠ np) st' := by
  have hne : ∀ u, u ∈ st.closedSet → u ≠ np := fun u hu e => hopen (e ▸ hu)
  have hgsame : ∀ u, u ≠ np → st'.gScore u = st.gScore u := fun u hu => by
    rw [hgs, mapSet_other _ _ _ _ hu]
  have hgnp : st'.gScore np = some (gc + 1) := by rw [hgs, mapSet_same]
  have hstart : start ∈ st.closedSet := inv.start_closed (List.ne_nil_of_mem hcur)
  have hgc0 := (inv.g_bound cur gc hgc).1
  refine
    { g_start := ?_
      g_node := ?_
      g_bound := ?_
      g_walk := ?_
      closed_opt := ?_
      closed_nbr := ?_
      q_entry := ?_
      q_cover := ?_
      closed_nodup := by rw [hclosed]; exact inv.closed_nodup
      closed_dom := by rw [hclosed]; exact inv.closed_dom
      start_closed := by rw [hclosed]; exact inv.start_closed
      goal_open := by rw [hclosed]; exact inv.goal_open }
  · rw [hgsame start (hne start hstart)]
    exact inv.g_start
  · intro v g hv hvs
    by_cases hvn : v = np
    · subst hvn
      rw [hgnp] at hv
      injection hv with hv
      refine ⟨cur, gc, ?_, ?_, ?_, hv.symm, hadj, hwalk⟩
      · rw [hcf, mapSet_same]
      · rw [hclosed]; exact hcur
      · rw [hgsame cur (hne cur hcur)]; exact hgc
    · rw [hgsame v hvn] at hv
      obtain ⟨u, gu, h1, h2, h3, h4, h5, h6⟩ := inv.g_node v g hv hvs
      refine ⟨u, gu, ?_, ?_, ?_, h4, h5, h6⟩
      · rw [hcf, mapSet_other _ _ _ _ hvn]; exact h1
      · rw [hclosed]; exact h2
      · rw [hgsame u (hne u h2)]; exact h3
  · intro v g hv
    rw [hclosed]
    by_cases hvn : v = np
    · subst hvn
      rw [hgnp] at hv
      injection hv with hv
      omega
    · rw [hgsame v hvn] at hv
      exact inv.g_bound v g hv
  · intro v g hv
    by_cases hvn : v = np
    · subst hvn
      rw [hgnp] at hv
      injection hv with hv
      have hwc := inv.g_walk cur gc hgc
      have : g.toNat = gc.toNat + 1 := by omega
      rw [this]
      exact Walk.snoc hwc hadj hwalk
    · rw [hgsame v hvn] at hv
      exact inv.g_walk v g hv
  · intro v hv
    rw [hclosed] at hv
    rw [hgsame v (hne v hv)]
    exact inv.closed_opt v hv
  · intro u hu v hadj' hwv
    rw [hclosed] at hu
    rw [hgsame u (hne u hu)]
    by_cases hvn : v = np
    · subst hvn
      rw [hgnp]
      right
      rcases inv.closed_nbr u hu v hadj' hwv with ⟨h1, _⟩ | ⟨gu, gv, h1, h2, h3⟩
      · subst h1
        exact ⟨gc, gc + 1, hgc, rfl, le_refl _⟩
      · have := hless gv h2
        exact ⟨gu, gc + 1, h1, rfl, by omega⟩
    · rw [hgsame v hvn]
      rcases inv.closed_nbr u hu v hadj' hwv with ⟨h1, h2⟩ | h
      · exact Or.inl ⟨h1, h2, hvn⟩
      · exact Or.inr h
  · intro e he
    rcases List.mem_cons.1 (hq.mem_iff.1 he) with h | h
    · subst h
      exact ⟨gc + 1, hgnp, le_refl _, rfl⟩
    · obtain ⟨g, h1, h2, h3⟩ := inv.q_entry e h
      by_cases hen : e.p = np
      · rw [hen, hgnp]
        rw [hen] at h1
        have := hless g h1
        exact ⟨gc + 1, rfl, by omega, by rw [← hen]; exact h3⟩
      · rw [hgsame e.p hen]
        exact ⟨g, h1, h2, h3⟩
  · intro v g hv hvc
    rw [hclosed] at hvc
    by_cases hvn : v = np
    · subst hvn
      rw [hgnp] at hv
      injection hv with hv
      exact ⟨⟨v, gc + 1 + heuristic v goal, gc + 1⟩, hq.mem_iff.2 (List.mem_cons_self _ _), rfl, hv⟩
    · rw [hgsame v hvn] at hv
      obtain ⟨e, h1, h2, h3⟩ := inv.q_cover v g hv hvc
      exact ⟨e, hq.mem_iff.2 (List.mem_cons_of_mem _ h1), h2, h3⟩

theorem mem_allCells (w : MainWindow) (v : Int × Int) :
    v ∈ allCells w ↔ 0 ≤ v.1 ∧ v.1 < (w.cols : Int) ∧ 0 ≤ v.2 ∧ v.2 < (w.rows : Int) := by
  unfold allCells
  simp only [List.mem_flatMap, List.mem_range, List.mem_map]
  constructor
  · rintro ⟨y, hy, x, hx, rfl⟩
    simp only
    omega
  · rintro ⟨h1, h2, h3, h4⟩
    refine ⟨v.2.toNat, by omega, v.1.toNat, by omega, ?_⟩
    apply Prod.ext
    · simp only; omega
    · simp only; omega

theorem length_allCells (w : MainWindow) : (allCells w).length = w.rows * w.cols := by
  unfold allCells
  generalize w.rows = r
  induction r with
  | zero => simp
  | succ n ih =>
    rw [List.range_succ, List.flatMap_append, List.length_append, ih]
    simp [Nat.succ_mul]

theorem walkable_mem_allCells {w : MainWindow} {v : Int × Int}
    (h : isWalkable w v.1 v.2 = true) : v ∈ allCells w := by
  rw [mem_allCells]
  have := (isWalkable_iff w v.1 v.2).1 h
  omega

theorem pot_le_cap (w : MainWindow) (o : Option Int) : pot w o ≤ scoreCap w := by
  unfold pot
  cases o with
  | none => exact le_refl _
  | some g => exact min_le_right _ _

theorem gSum_le (w : MainWindow) (gs : Int × Int → Option Int) :
    gSum w gs ≤ w.rows * w.cols * scoreCap w := by
  unfold gSum
  have h := List.sum_le_card_nsmul ((allCells w).map (fun c => pot w (gs c))) (scoreCap w)
    (by
      intro x hx
      obtain ⟨c, _, rfl⟩ := List.mem_map.1 hx
      exact pot_le_cap w _)
  rw [List.length_map, length_allCells] at h
  simpa using h

theorem gSum_mono (w : MainWindow) (gs gs' : Int × Int → Option Int)
    (h : ∀ c, pot w (gs' c) ≤ pot w (gs c)) : gSum w gs' ≤ gSum w gs := by
  unfold gSum
  exact List.sum_le_sum (fun c _ => h c)

theorem gSum_lt (w : MainWindow) (gs gs' : Int × Int → Option Int)
    (h : ∀ c, pot w (gs' c) ≤ pot w (gs c)) (np : Int × Int) (hnp : np ∈ allCells w)
    (hlt : pot w (gs' np) < pot w (gs np)) : gSum w gs' < gSum w gs := by
  unfold gSum
  exact List.sum_lt_sum _ _ (fun c _ => h c) ⟨np, hnp, hlt⟩

theorem closed_length_le {w : MainWindow} {pq : PQueue} {start goal cur : Int × Int}
    {todo : Int × Int → Prop} {st : AStarState pq.Q} (inv : AInv w pq start goal cur todo st) :
    st.closedSet.length ≤ w.rows * w.cols + 1 := by
  have hsub : st.closedSet ⊆ start :: allCells w := by
    intro v hv
    rcases inv.closed_dom v hv with h | h
    · rw [h]; exact List.mem_cons_self _ _
    · exact List.mem_cons_of_mem _ (walkable_mem_allCells h)
  have := (List.subperm_of_subset inv.closed_nodup hsub).length_le
  rw [List.length_cons, length_allCells] at this
  exact this

theorem pushNeighbor_spec {w : MainWindow} {pq : PQueue} {start goal cur : Int × Int}
    {todo : Int × Int → Prop} {st : AStarState pq.Q}
    (inv : AInv w pq start goal cur todo st) (hcur : cur ∈ st.closedSet) {gc : Int}
    (hgc : st.gScore cur = some gc) (hgcb : gc + 1 ≤ (st.closedSet.length : Int))
    (hsize : w.rows * w.cols + 2 < 2147483647) (np : Int × Int) (hadj : adjacent cur np) :
    AInv w pq start goal cur (fun v => todo v ∧ v ≠ np)
        (pushNeighbor w pq goal st cur np.1 np.2) ∧
      (pushNeighbor w pq goal st cur np.1 np.2).closedSet = st.closedSet ∧
      (pushNeighbor w pq goal st cur np.1 np.2).gScore cur = some gc ∧
      searchMeasure w pq (pushNeighbor w pq goal st cur np.1 np.2) ≤ searchMeasure w pq st := by
  have hlen := closed_length_le inv
  have hgc0 := (inv.g_bound cur gc hgc).1
  have hnp : ((np.1, np.2) : Int × Int) = np := rfl
  unfold pushNeighbor
  simp only [hnp, hgc, Option.getD_some]
  by_cases hguard : (!isWalkable w np.1 np.2 || st.closedSet.contains np) = true
  · rw [if_pos hguard]
    refine ⟨inv.skip np ?_, rfl, hgc, le_refl _⟩
    intro hwalk
    have hc : np ∈ st.closedSet := by
      simp only [hwalk, Bool.not_true, Bool.false_or] at hguard
      simpa using hguard
    obtain ⟨g, hg, hopt⟩ := inv.closed_opt np hc
    have hw := Walk.snoc (inv.g_walk cur gc hgc) hadj hwalk
    have := hopt _ hw
    exact ⟨gc, g, hgc, hg, by push_cast at this; omega⟩
  · rw [if_neg hguard]
    have hwalk : isWalkable w np.1 np.2 = true := by
      cases h : isWalkable w np.1 np.2 with
      | true => rfl
      | false => simp [h] at hguard
    have hopen : np ∉ st.closedSet := by
      intro h
      apply hguard
      simp [h]
    have hcn : cur ≠ np := fun e => hopen (e ▸ hcur)
    have hmem := walkable_mem_allCells hwalk
    cases hold : st.gScore np with
    | none =>
      simp only [Option.isNone_none, if_true, mapSet_same, Option.getD_some]
      have hlt : gc + 1 < 2147483647 := by omega
      rw [if_pos hlt]
      have hgs : ∀ q, mapSet (mapSet st.gScore np 2147483647) np (gc + 1) q =
          mapSet st.gScore np (gc + 1) q := by
        intro q
        unfold mapSet
        by_cases hq : q = np
        · rw [if_pos hq, if_pos hq]
        · rw [if_neg hq, if_neg hq, if_neg hq]
      refine ⟨inv.relax hcur hgc hgcb hadj hwalk hopen ?_ (pq.elems_push _ _) rfl (fun _ => rfl) hgs,
        rfl, ?_, ?_⟩
      · intro old ho
        rw [hold] at ho
        cases ho
      · show mapSet (mapSet st.gScore np 2147483647) np (gc + 1) cur = some gc
        rw [hgs, mapSet_other _ _ _ _ hcn]
        exact hgc
      · unfold searchMeasure
        simp only
        have hl := (pq.elems_push st.openQ ⟨np, gc + 1 + heuristic np goal, gc + 1⟩).length_eq
        rw [hl, List.length_cons]
        have hs : gSum w (mapSet (mapSet st.gScore np 2147483647) np (gc + 1)) < gSum w st.gScore := by
          apply gSum_lt w _ _ _ np hmem
          · rw [hgs, mapSet_same, hold]
            unfold pot scoreCap
            simp only
            omega
          · intro c
            rw [hgs]
            by_cases hc : c = np
            · rw [hc, mapSet_same, hold]
              exact pot_le_cap w _
            · rw [mapSet_other _ _ _ _ hc]
        omega
    | some old =>
      simp only [Option.isNone_some, Bool.false_eq_true, if_false, hold, Option.getD_some]
      by_cases hlt : gc + 1 < old
      · rw [if_pos hlt]
        refine ⟨inv.relax hcur hgc hgcb hadj hwalk hopen ?_ (pq.elems_push _ _) rfl (fun _ => rfl)
          (fun _ => rfl), rfl, ?_, ?_⟩
        · intro old' ho
          rw [hold] at ho
          injection ho with ho
          rw [← ho]
          exact hlt
        · show mapSet st.gScore np (gc + 1) cur = some gc
          rw [mapSet_other _ _ _ _ hcn]
          exact hgc
        · unfold searchMeasure
          simp only
          have hl := (pq.elems_push st.openQ ⟨np, gc + 1 + heuristic np goal, gc + 1⟩).length_eq
          rw [hl, List.length_cons]
          have hs : gSum w (mapSet st.gScore np (gc + 1)) < gSum w st.gScore := by
            apply gSum_lt w _ _ _ np hmem
            · rw [mapSet_same, hold]
              unfold pot scoreCap
              simp only
              omega
            · intro c
              by_cases hc : c = np
              · rw [hc, mapSet_same, hold]
                unfold pot
                simp only
                omega
              · rw [mapSet_other _ _ _ _ hc]
          omega
      · rw [if_neg hlt]
        refine ⟨inv.skip np ?_, rfl, hgc, le_refl _⟩
        intro _
        exact ⟨gc, old, hgc, hold, by omega⟩

theorem AInv.discard {w : MainWindow} {pq : PQueue} {start goal cur : Int × Int}
    {st : AStarState pq.Q} (inv : AInv w pq start goal cur (fun _ => False) st) {e : Node}
    {rest : pq.Q} (hpop : pq.pop st.openQ = some (e, rest)) (hclosed : e.p ∈ st.closedSet) :
    AInv w pq start goal cur (fun _ => False) { st with openQ := rest } ∧
      searchMeasure w pq { st with openQ := rest } + 1 = searchMeasure w pq st := by
  obtain ⟨hperm, _⟩ := pq.pop_some _ _ _ hpop
  refine ⟨?_, ?_⟩
  · exact
      { g_start := inv.g_start
        g_node := inv.g_node
        g_bound := inv.g_bound
        g_walk := inv.g_walk
        closed_opt := inv.closed_opt
        closed_nbr := inv.closed_nbr
        q_entry := fun x hx => inv.q_entry x (hperm.mem_iff.2 (List.mem_cons_of_mem _ hx))
        q_cover := by
          intro v g hv hvc
          obtain ⟨x, hx, hp, hg⟩ := inv.q_cover v g hv hvc
          rcases List.mem_cons.1 (hperm.mem_iff.1 hx) with h | h
          · subst h
            rw [hp] at hclosed
            exact absurd hclosed hvc
          · exact ⟨x, h, hp, hg⟩
        closed_nodup := inv.closed_nodup
        closed_dom := inv.closed_dom
        start_closed := inv.start_closed
        goal_open := inv.goal_open }
  · unfold searchMeasure
    simp only
    rw [hperm.length_eq, List.length_cons]
    omega

theorem AInv.close {w : MainWindow} {pq : PQueue} {start goal cur : Int × Int}
    {st : AStarState pq.Q} (inv : AInv w pq start goal cur (fun _ => False) st) {e : Node}
    {rest : pq.Q} (hpop : pq.pop st.openQ = some (e, rest)) (hopen : e.p ∉ st.closedSet)
    (hng : e.p ≠ goal) :
    AInv w pq start goal e.p (fun _ => True)
        { st with openQ := rest, closedSet := e.p :: st.closedSet } ∧
      (∃ gc, st.gScore e.p = some gc ∧ gc + 1 ≤ ((e.p :: st.closedSet).length : Int)) ∧
      searchMeasure w pq { st with openQ := rest, closedSet := e.p :: st.closedSet } + 1 =
        searchMeasure w pq st := by
  obtain ⟨hperm, hmin⟩ := pq.pop_some _ _ _ hpop
  have hemem : e ∈ pq.elems st.openQ := hperm.mem_iff.2 (List.mem_cons_self _ _)
  obtain ⟨gc, hgc, hopt⟩ := inv.pop_opt hemem hmin hopen
  refine ⟨?_, ⟨gc, hgc, ?_⟩, ?_⟩
  · exact
      { g_start := inv.g_start
        g_node := by
          intro v g hv hvs
          obtain ⟨u, gu, h1, h2, h3⟩ := inv.g_node v g hv hvs
          exact ⟨u, gu, h1, List.mem_cons_of_mem _ h2, h3⟩
        g_bound := by
          intro v g hv
          have := inv.g_bound v g hv
          simp only [List.length_cons]
          push_cast
          omega
        g_walk := inv.g_walk
        closed_opt := by
          intro v hv
          rcases List.mem_cons.1 hv with h | h
          · rw [h]; exact ⟨gc, hgc, hopt⟩
          · exact inv.closed_opt v h
        closed_nbr := by
          intro u hu v hadj hwv
          rcases List.mem_cons.1 hu with h | h
          · exact Or.inl ⟨h, trivial⟩
          · rcases inv.closed_nbr u h v hadj hwv with ⟨_, hf⟩ | h'
            · exact absurd hf id
            · exact Or.inr h'
        q_entry := fun x hx => inv.q_entry x (hperm.mem_iff.2 (List.mem_cons_of_mem _ hx))
        q_cover := by
          intro v g hv hvc
          have hvc' : v ∉ st.closedSet := fun h => hvc (List.mem_cons_of_mem _ h)
          have hve : v ≠ e.p := fun h => hvc (h ▸ List.mem_cons_self _ _)
          obtain ⟨x, hx, hp, hg⟩ := inv.q_cover v g hv hvc'
          rcases List.mem_cons.1 (hperm.mem_iff.1 hx) with h | h
          · subst h
            exact absurd hp.symm hve
          · exact ⟨x, h, hp, hg⟩
        closed_nodup := List.nodup_cons.2 ⟨hopen, inv.closed_nodup⟩
        closed_dom := by
          intro v hv
          rcases List.mem_cons.1 hv with h | h
          · by_cases hs : v = start
            · exact Or.inl hs
            · rw [h] at hs
              obtain ⟨_, _, _, _, _, _, _, hw⟩ := inv.g_node e.p gc hgc hs
              rw [h]
              exact Or.inr hw
          · exact inv.closed_dom v h
        start_closed := by
          intro _
          by_cases hs : e.p = start
          · rw [hs]; exact List.mem_cons_self _ _
          · obtain ⟨u, _, _, hu, _⟩ := inv.g_node e.p gc hgc hs
            exact List.mem_cons_of_mem _ (inv.start_closed (List.ne_nil_of_mem hu))
        goal_open := by
          intro h
          rcases List.mem_cons.1 h with h | h
          · exact hng h.symm
          · exact inv.goal_open h }
  · have := (inv.g_bound e.p gc hgc).2
    simp only [List.length_cons]
    push_cast
    omega
  · unfold searchMeasure
    simp only
    rw [hperm.length_eq, List.length_cons]
    omega

/-- The invariant with every neighbour of `cur` processed is the invariant between
iterations. -/
theorem AInv.finish {w : MainWindow} {pq : PQueue} {start goal cur : Int × Int}
    {todo : Int × Int → Prop} {st : AStarState pq.Q} (inv : AInv w pq start goal cur todo st)
    (hdone : ∀ v, adjacent cur v → ¬ todo v) :
    AInv w pq start goal cur (fun _ => False) st :=
  { g_start := inv.g_start
    g_node := inv.g_node
    g_bound := inv.g_bound
    g_walk := inv.g_walk
    closed_opt := inv.closed_opt
    closed_nbr := by
      intro u hu v hadj hwv
      rcases inv.closed_nbr u hu v hadj hwv with ⟨h1, h2⟩ | h
      · subst h1
        exact absurd h2 (hdone v hadj)
      · exact Or.inr h
    q_entry := inv.q_entry
    q_cover := inv.q_cover
    closed_nodup := inv.closed_nodup
    closed_dom := inv.closed_dom
    start_closed := inv.start_closed
    goal_open := inv.goal_open }

theorem expand_spec {w : MainWindow} {pq : PQueue} {start goal cur : Int × Int}
    {st : AStarState pq.Q} (inv : AInv w pq start goal cur (fun _ => True) st)
    (hcur : cur ∈ st.closedSet) {gc : Int} (hgc : st.gScore cur = some gc)
    (hgcb : gc + 1 ≤ (st.closedSet.length : Int)) (hsize : w.rows * w.cols + 2 < 2147483647) :
    AInv w pq start goal cur (fun _ => False) (expand w pq goal st cur) ∧
      searchMeasure w pq (expand w pq goal st cur) ≤ searchMeasure w pq st := by
  obtain ⟨i1, c1, g1, m1⟩ :=
    pushNeighbor_spec inv hcur hgc hgcb hsize (cur.1 + 1, cur.2) (adjacent_right cur)
  obtain ⟨i2, c2, g2, m2⟩ :=
    pushNeighbor_spec i1 (c1 ▸ hcur) g1 (c1 ▸ hgcb) hsize (cur.1 - 1, cur.2) (adjacent_left cur)
  have c12 := c2.trans c1
  obtain ⟨i3, c3, g3, m3⟩ :=
    pushNeighbor_spec i2 (c12 ▸ hcur) g2 (c12 ▸ hgcb) hsize (cur.1, cur.2 + 1) (adjacent_down cur)
  have c123 := c3.trans c12
  obtain ⟨i4, c4, g4, m4⟩ :=
    pushNeighbor_spec i3 (c123 ▸ hcur) g3 (c123 ▸ hgcb) hsize (cur.1, cur.2 - 1) (adjacent_up cur)
  refine ⟨i4.finish ?_, ?_⟩
  · intro v hadj htodo
    rcases adjacent_cases hadj with h | h | h | h
    · exact htodo.1.1.1.2 h
    · exact htodo.1.1.2 h
    · exact htodo.1.2 h
    · exact htodo.2 h
  · exact le_trans m4 (le_trans m3 (le_trans m2 m1))

theorem firstStep_spec {w : MainWindow} {pq : PQueue} {start goal cur : Int × Int}
    {todo : Int × Int → Prop} {st : AStarState pq.Q} (inv : AInv w pq start goal cur todo st) :
    ∀ (fuel : Nat) (v : Int × Int) (g : Int), st.gScore v = some g → v ≠ start →
      g ≤ (fuel : Int) →
      ∃ n, firstStep st.cameFrom start fuel v = some n ∧ st.cameFrom n = some start ∧
        adjacent start n ∧ isWalkable w n.1 n.2 = true ∧
        ∃ m : Nat, g = (m : Int) + 1 ∧ Walk w n v m := by
  intro fuel
  induction fuel with
  | zero =>
    intro v g hv hvs hle
    obtain ⟨u, gu, _, _, hgu, hg, _⟩ := inv.g_node v g hv hvs
    have := (inv.g_bound u gu hgu).1
    simp at hle
    omega
  | succ fuel ih =>
    intro v g hv hvs hle
    obtain ⟨u, gu, hcf, _, hgu, hg, hadj, hwv⟩ := inv.g_node v g hv hvs
    have hgu0 := (inv.g_bound u gu hgu).1
    by_cases hus : u = start
    · refine ⟨v, ?_, ?_, ?_, hwv, 0, ?_, Walk.nil v⟩
      · show (match st.cameFrom v with
          | some prev => if prev ≠ start then firstStep st.cameFrom start fuel prev else some v
          | none => some v) = some v
        rw [hcf]
        simp [hus]
      · rw [hcf, hus]
      · rw [← hus]; exact hadj
      · rw [hus, inv.g_start] at hgu
        injection hgu with hgu
        rw [hg, ← hgu]
        simp
    · have hle' : gu ≤ (fuel : Int) := by push_cast at hle; omega
      obtain ⟨n, h1, h2, h3, h4, m, h5, h6⟩ := ih u gu hgu hus hle'
      refine ⟨n, ?_, h2, h3, h4, m + 1, ?_, Walk.snoc h6 hadj hwv⟩
      · show (match st.cameFrom v with
          | some prev => if prev ≠ start then firstStep st.cameFrom start fuel prev else some v
          | none => some v) = some n
        rw [hcf]
        simp only [ne_eq, hus, not_false_eq_true, if_true]
        exact h1
      · rw [hg, h5]
        push_cast
        ring

theorem aStarLoop_spec {w : MainWindow} {pq : PQueue} {start goal : Int × Int}
    (hsize : w.rows * w.cols + 2 < 2147483647) (hsg : start ≠ goal) :
    ∀ (fuel : Nat) (st : AStarState pq.Q) (cur : Int × Int),
      AInv w pq start goal cur (fun _ => False) st → searchMeasure w pq st < fuel →
      ∃ r, aStarLoop w pq start goal fuel st = some r ∧ StepPost w start goal r := by
  intro fuel
  induction fuel with
  | zero =>
    intro st cur _ h
    exact absurd h (Nat.not_lt_zero _)
  | succ fuel ih =>
    intro st cur inv hm
    cases hpop : pq.pop st.openQ with
    | none =>
      refine ⟨none, ?_, ?_⟩
      · show (match pq.pop st.openQ with
          | none => some none
          | some (cur, rest) => _) = some none
        rw [hpop]
      · intro k hk
        have hempty := pq.pop_none _ hpop
        rcases inv.frontier hk with hc | ⟨y, gy, j, hy, hgy, _, _⟩
        · exact inv.goal_open hc
        · obtain ⟨e, he, _⟩ := inv.q_cover y gy hgy hy
          rw [hempty] at he
          cases he
    | some pr =>
      obtain ⟨e, rest⟩ := pr
      have hunf : aStarLoop w pq start goal (fuel + 1) st =
          if st.closedSet.contains e.p then
            aStarLoop w pq start goal fuel { st with openQ := rest }
          else
            if e.p = goal then
              match firstStep st.cameFrom start (w.rows * w.cols + 2) e.p with
              | none => none
              | some step =>
                if (st.cameFrom step).isSome || step == goal then some (some step) else some none
            else
              aStarLoop w pq start goal fuel
                (expand w pq goal { st with openQ := rest, closedSet := e.p :: st.closedSet } e.p) := by
        show (match pq.pop st.openQ with
          | none => some none
          | some (cur, rest) => _) = _
        rw [hpop]
        rfl
      rw [hunf]
      by_cases hc : e.p ∈ st.closedSet
      · have hc' : st.closedSet.contains e.p = true := by simpa using hc
        rw [if_pos hc']
        obtain ⟨inv', hm'⟩ := inv.discard hpop hc
        exact ih _ cur inv' (by omega)
      · have hc' : ¬ st.closedSet.contains e.p = true := by simpa using hc
        rw [if_neg hc']
        obtain ⟨hperm, hmin⟩ := pq.pop_some _ _ _ hpop
        have hemem : e ∈ pq.elems st.openQ := hperm.mem_iff.2 (List.mem_cons_self _ _)
        by_cases hg : e.p = goal
        · rw [if_pos hg]
          obtain ⟨gc, hgc, hopt⟩ := inv.pop_opt hemem hmin hc
          rw [hg] at hgc hopt
          have hlen := closed_length_le inv
          have hb := (inv.g_bound goal gc hgc).2
          obtain ⟨n, h1, h2, h3, h4, m, h5, h6⟩ :=
            firstStep_spec inv (w.rows * w.cols + 2) goal gc hgc (Ne.symm hsg)
              (by push_cast; omega)
          rw [hg, h1]
          refine ⟨some n, ?_, h4, h3, m, ⟨?_, ?_⟩, ⟨h6, ?_⟩⟩
          · simp [h2]
          · have := inv.g_walk goal gc hgc
            have ht : gc.toNat = m + 1 := by omega
            rw [ht] at this
            exact this
          · intro k hk
            have := hopt k hk
            omega
          · intro k hk
            have := hopt (k + 1) (Walk.cons h3 h4 hk)
            push_cast at this
            omega
        · rw [if_neg hg]
          obtain ⟨inv1, ⟨gc, hgc, hgcb⟩, hm1⟩ := inv.close hpop hc hg
          obtain ⟨inv2, hm2⟩ := expand_spec inv1 (List.mem_cons_self _ _) hgc hgcb hsize
          exact ih _ e.p inv2 (by omega)

theorem aStarInit_measure (w : MainWindow) (pq : PQueue) (start goal : Int × Int) :
    searchMeasure w pq (aStarInit pq start goal) < aStarFuel w := by
  unfold searchMeasure aStarFuel
  have hp := (pq.elems_push pq.empty ⟨start, heuristic start goal, 0⟩).length_eq
  rw [pq.elems_empty] at hp
  have hl : (pq.elems (aStarInit pq start goal).openQ).length = 1 := hp
  rw [hl]
  have := gSum_le w (aStarInit pq start goal).gScore
  unfold scoreCap at this
  have h2 : (w.rows * w.cols + 1) * (w.rows * w.cols + 2) =
      w.rows * w.cols * (w.rows * w.cols + 2) + (w.rows * w.cols + 2) := by ring
  omega

/-- The search ends within its fuel and its result meets `StepPost`. -/
theorem aStarSearch_spec (w : MainWindow) (pq : PQueue) (sx sy tx ty : Int)
    (hsize : w.rows * w.cols + 2 < 2147483647) (hne : (sx, sy) ≠ (tx, ty)) :
    ∃ r, aStarSearch w pq sx sy tx ty = some r ∧ aStarNextStep w pq sx sy tx ty = r ∧
      StepPost w (sx, sy) (tx, ty) r := by
  have hcond : ¬ (sx = tx ∧ sy = ty) := fun h => hne (Prod.ext h.1 h.2)
  obtain ⟨r, hr, hpost⟩ := aStarLoop_spec hsize hne (aStarFuel w) (aStarInit pq (sx, sy) (tx, ty))
    (sx, sy) (AInv.init w pq (sx, sy) (tx, ty) (sx, sy)) (aStarInit_measure w pq _ _)
  have hs : aStarSearch w pq sx sy tx ty = some r := by
    unfold aStarSearch
    rw [if_neg hcond]
    exact hr
  refine ⟨r, hs, ?_, hpost⟩
  unfold aStarNextStep
  rw [hs]

theorem aStarSearch_same (w : MainWindow) (pq : PQueue) (sx sy : Int) :
    aStarSearch w pq sx sy sx sy = some none ∧ aStarNextStep w pq sx sy sx sy = none := by
  have hs : aStarSearch w pq sx sy sx sy = some none := by
    unfold aStarSearch
    rw [if_pos ⟨rfl, rfl⟩]
  refine ⟨hs, ?_⟩
  unfold aStarNextStep
  rw [hs]

theorem Walk.last {w : MainWindow} {a b : Int × Int} {k : Nat} (h : Walk w a b (k + 1)) :
    ∃ c, Walk w a c k ∧ adjacent c b ∧ isWalkable w b.1 b.2 = true := by
  cases h with
  | snoc h1 h2 h3 => exact ⟨_, h1, h2, h3⟩

theorem Walk.end_walkable {w : MainWindow} {a b : Int × Int} {k : Nat} (h : Walk w a b k) :
    a = b ∨ isWalkable w b.1 b.2 = true := by
  cases h with
  | nil => exact Or.inl rfl
  | snoc _ _ h3 => exact Or.inr h3

/-- C1: whenever `aStarNextStep(s, t)` reports a step `n` (which it only does for
`s != t`), `n` is walkable, `n` is 4-adjacent to `s`, and the shortest-path distance from
`n` to `t` is exactly one less than the shortest-path distance from `s` to `t`.  Holds
for every board of fewer than 2^31 - 3 cells and every implementation of the priority
queue. -/
theorem aStarNextStep_shortest (w : MainWindow) (pq : PQueue) (sx sy tx ty : Int)
    (n : Int × Int) (hsize : w.rows * w.cols + 2 < 2147483647)
    (h : aStarNextStep w pq sx sy tx ty = some n) :
    (sx, sy) ≠ (tx, ty) ∧ isWalkable w n.1 n.2 = true ∧ heuristic (sx, sy) n = 1 ∧
      ∃ L : Nat, IsDist w (sx, sy) (tx, ty) (L + 1) ∧ IsDist w n (tx, ty) L := by
  have hne : (sx, sy) ≠ (tx, ty) := by
    intro he
    simp only [Prod.mk.injEq] at he
    obtain ⟨h1, h2⟩ := he
    subst h1
    subst h2
    rw [(aStarSearch_same w pq sx sy).2] at h
    cases h
  obtain ⟨r, _, hr, hpost⟩ := aStarSearch_spec w pq sx sy tx ty hsize hne
  rw [h] at hr
  rw [← hr] at hpost
  exact ⟨hne, hpost.1, hpost.2.1, hpost.2.2⟩

/-- C2: `aStarNextStep(s, t)` reports no step exactly when `s = t` or no 4-directional
walk leads from `s` to `t` over cells that are walkable after `s`; the search always
returns within its iteration bound; it reports no step when every neighbour of the goal
is blocked and the start is not one of those neighbours; and it reports a step whenever
`s != t` and a walk exists. -/
theorem aStarNextStep_none_iff (w : MainWindow) (pq : PQueue) (sx sy tx ty : Int)
    (hsize : w.rows * w.cols + 2 < 2147483647) :
    (aStarNextStep w pq sx sy tx ty = none ↔
      ((sx, sy) = (tx, ty) ∨ ¬ ∃ k, Walk w (sx, sy) (tx, ty) k)) ∧
    aStarSearch w pq sx sy tx ty ≠ none ∧
    ((∀ v, adjacent (tx, ty) v → isWalkable w v.1 v.2 = false) →
      heuristic (sx, sy) (tx, ty) ≠ 1 → aStarNextStep w pq sx sy tx ty = none) ∧
    ((sx, sy) ≠ (tx, ty) → (∃ k, Walk w (sx, sy) (tx, ty) k) →
      ∃ n, aStarNextStep w pq sx sy tx ty = some n) := by
  have hiff : aStarNextStep w pq sx sy tx ty = none ↔
      ((sx, sy) = (tx, ty) ∨ ¬ ∃ k, Walk w (sx, sy) (tx, ty) k) := by
    by_cases he : (sx, sy) = (tx, ty)
    · simp only [Prod.mk.injEq] at he
      obtain ⟨h1, h2⟩ := he
      subst h1
      subst h2
      exact ⟨fun _ => Or.inl rfl, fun _ => (aStarSearch_same w pq sx sy).2⟩
    · obtain ⟨r, _, hr, hpost⟩ := aStarSearch_spec w pq sx sy tx ty hsize he
      rw [hr]
      cases r with
      | none =>
        refine ⟨fun _ => Or.inr ?_, fun _ => rfl⟩
        rintro ⟨k, hk⟩
        exact hpost k hk
      | some n =>
        constructor
        · intro h; cases h
        · rintro (h | h)
          · exact absurd h he
          · exact absurd ⟨_, hpost.2.2.choose_spec.1.1⟩ h
  refine ⟨hiff, ?_, ?_, ?_⟩
  · by_cases he : (sx, sy) = (tx, ty)
    · simp only [Prod.mk.injEq] at he
      obtain ⟨h1, h2⟩ := he
      subst h1
      subst h2
      rw [(aStarSearch_same w pq sx sy).1]
      exact fun h => by cases h
    · obtain ⟨r, hs, _, _⟩ := aStarSearch_spec w pq sx sy tx ty hsize he
      rw [hs]
      exact fun h => by cases h
  · intro hblocked hfar
    rw [hiff]
    by_cases he : (sx, sy) = (tx, ty)
    · exact Or.inl he
    · right
      rintro ⟨k, hk⟩
      cases k with
      | zero => exact he hk.zero_eq
      | succ k =>
        obtain ⟨c, hc, hadj, _⟩ := hk.last
        have hcb := hblocked c (adjacent_symm hadj)
        rcases hc.end_walkable with h | h
        · rw [← h] at hadj
          exact hfar hadj
        · rw [hcb] at h
          cases h
  · intro hne hex
    cases hr : aStarNextStep w pq sx sy tx ty with
    | some n => exact ⟨n, rfl⟩
    | none =>
      rcases hiff.1 hr with h | h
      · exact absurd h hne
      · exact absurd hex h

theorem chase_spec (w : MainWindow) (pq : PQueue) (t : Int × Int)
    (hsize : w.rows * w.cols + 2 < 2147483647) :
    ∀ (L : Nat) (s : Int × Int), s ≠ t → IsDist w s t L →
      chase w pq t L s = some t ∧
        ∀ k, k < L → ∃ c, chase w pq t k s = some c ∧ c ≠ t ∧ IsDist w c t (L - k) := by
  intro L
  induction L with
  | zero =>
    intro s hne hd
    exact absurd hd.1.zero_eq hne
  | succ m ih =>
    intro s hne hd
    obtain ⟨r, _, hr, hpost⟩ := aStarSearch_spec w pq s.1 s.2 t.1 t.2 hsize hne
    cases r with
    | none => exact absurd hd.1 (hpost (m + 1))
    | some n =>
      obtain ⟨_, _, m', hd1, hd2⟩ := hpost
      have hm : m' + 1 = m + 1 := IsDist.unique hd1 hd
      have hm' : m' = m := by omega
      subst hm'
      have hstep : ∀ k, chase w pq t (k + 1) s = chase w pq t k n := by
        intro k
        show (match aStarNextStep w pq s.1 s.2 t.1 t.2 with
          | none => none
          | some n => chase w pq t k n) = _
        rw [hr]
      by_cases hnt : n = t
      · have hm0 : m' = 0 := by
          have := hd2.2 0 (hnt ▸ Walk.nil n)
          omega
        subst hm0
        refine ⟨by rw [hstep, hnt]; rfl, ?_⟩
        intro k hk
        have hk0 : k = 0 := by omega
        subst hk0
        exact ⟨s, rfl, hne, hd⟩
      · obtain ⟨h1, h2⟩ := ih n hnt hd2
        refine ⟨by rw [hstep]; exact h1, ?_⟩
        intro k hk
        cases k with
        | zero => exact ⟨s, rfl, hne, hd⟩
        | succ k =>
          obtain ⟨c, hc1, hc2, hc3⟩ := h2 k (by omega)
          refine ⟨c, by rw [hstep]; exact hc1, hc2, ?_⟩
          have : m' + 1 - (k + 1) = m' - k := by omega
          rw [this]
          exact hc3

/-- C3: if `s != t` and the shortest-path distance from `s` to `t` is `L`, then applying
`aStarNextStep` toward `t` over and over, starting from `s`, reaches `t` after exactly `L`
applications: every call on the way reports a step, the cell reached after `k < L` steps
is not `t` and lies at distance `L - k` from `t`. -/
theorem chase_reaches_in_L (w : MainWindow) (pq : PQueue) (s t : Int × Int) (L : Nat)
    (hsize : w.rows * w.cols + 2 < 2147483647) (hne : s ≠ t) (hdist : IsDist w s t L) :
    chase w pq t L s = some t ∧
      ∀ k, k < L → ∃ c, chase w pq t k s = some c ∧ c ≠ t ∧ IsDist w c t (L - k) :=
  chase_spec w pq t hsize L s hne hdist

theorem init_board_size : MainWindow.init.rows * MainWindow.init.cols + 2 < 2147483647 := by
  decide

theorem init_step_3_1 : aStarNextStep MainWindow.init listPQ 3 1 1 1 = some (2, 1) := by
  decide!

/-- C1 at the level-1 board: from `(3, 1)` toward `(1, 1)` the step is `(2, 1)`. -/
theorem aStarNextStep_shortest_witness :
    MainWindow.init.rows * MainWindow.init.cols + 2 < 2147483647 ∧
    aStarNextStep MainWindow.init listPQ 3 1 1 1 = some (2, 1) ∧
    (((3 : Int), (1 : Int)) ≠ (1, 1) ∧ isWalkable MainWindow.init 2 1 = true ∧
      heuristic (3, 1) (2, 1) = 1 ∧
      ∃ L : Nat, IsDist MainWindow.init (3, 1) (1, 1) (L + 1) ∧
        IsDist MainWindow.init (2, 1) (1, 1) L) :=
  ⟨init_board_size, init_step_3_1,
    aStarNextStep_shortest MainWindow.init listPQ 3 1 1 1 (2, 1) init_board_size init_step_3_1⟩

/-- C2 at the level-1 board, from `(3, 1)` toward `(1, 1)`. -/
theorem aStarNextStep_none_iff_witness :
    MainWindow.init.rows * MainWindow.init.cols + 2 < 2147483647 ∧
    ((aStarNextStep MainWindow.init listPQ 3 1 1 1 = none ↔
      (((3 : Int), (1 : Int)) = (1, 1) ∨ ¬ ∃ k, Walk MainWindow.init (3, 1) (1, 1) k)) ∧
    aStarSearch MainWindow.init listPQ 3 1 1 1 ≠ none ∧
    ((∀ v, adjacent (1, 1) v → isWalkable MainWindow.init v.1 v.2 = false) →
      heuristic ((3 : Int), (1 : Int)) (1, 1) ≠ 1 →
      aStarNextStep MainWindow.init listPQ 3 1 1 1 = none) ∧
    (((3 : Int), (1 : Int)) ≠ (1, 1) → (∃ k, Walk MainWindow.init (3, 1) (1, 1) k) →
      ∃ n, aStarNextStep MainWindow.init listPQ 3 1 1 1 = some n)) :=
  ⟨init_board_size, aStarNextStep_none_iff MainWindow.init listPQ 3 1 1 1 init_board_size⟩

theorem init_walkable_2_1 : isWalkable MainWindow.init 2 1 = true := by decide!

theorem init_walkable_1_1 : isWalkable MainWindow.init 1 1 = true := by decide!

theorem init_dist_3_1 : IsDist MainWindow.init (3, 1) (1, 1) 2 := by
  refine ⟨?_, ?_⟩
  · exact Walk.snoc (Walk.snoc (Walk.nil (3, 1)) (b := (3, 1)) (c := (2, 1)) (by decide)
      init_walkable_2_1) (c := (1, 1)) (by decide) init_walkable_1_1
  · intro k hk
    have h := hk.heuristic_le
    have h2 : heuristic ((3 : Int), (1 : Int)) (1, 1) = 2 := by decide
    rw [h2] at h
    exact_mod_cast h

/-- C3 at the level-1 board: from `(3, 1)`, at distance 2 from `(1, 1)`, two applications
reach `(1, 1)`. -/
theorem chase_reaches_in_L_witness :
    MainWindow.init.rows * MainWindow.init.cols + 2 < 2147483647 ∧
    ((3 : Int), (1 : Int)) ≠ (1, 1) ∧ IsDist MainWindow.init (3, 1) (1, 1) 2 ∧
    (chase MainWindow.init listPQ (1, 1) 2 (3, 1) = some (1, 1) ∧
      ∀ k, k < 2 → ∃ c, chase MainWindow.init listPQ (1, 1) k (3, 1) = some c ∧ c ≠ (1, 1) ∧
        IsDist MainWindow.init c (1, 1) (2 - k)) :=
  ⟨init_board_size, by decide, init_dist_3_1,
    chase_reaches_in_L MainWindow.init listPQ (3, 1) (1, 1) 2 init_board_size (by decide)
      init_dist_3_1⟩

theorem simpleStraight_eq (w : MainWindow) (e : Enemy) :
    simpleStraight w e =
      if isWalkable w (e.x + e.dx) (e.y + e.dy) then { e with x := e.x + e.dx, y := e.y + e.dy }
      else { e with dx := -e.dx, dy := -e.dy } := by
  unfold simpleStraight
  simp only
  by_cases hw : isWalkable w (e.x + e.dx) (e.y + e.dy) = true
  · rw [if_pos hw, if_pos hw]
  · rw [if_neg hw, if_neg hw]
    cases e with
    | mk x y dx dy color type habitat moveInterval cooldown =>
      by_cases h1 : dx = 0 <;> by_cases h2 : dy = 0 <;> simp [h1, h2]

theorem smartStraight_eq (w : MainWindow) (e : Enemy) :
    smartStraight w e =
      if isWalkable w (e.x + e.dx) (e.y + e.dy) then { e with x := e.x + e.dx, y := e.y + e.dy }
      else if e.dx ≠ 0 then { e with dx := -e.dx }
      else { e with dy := -e.dy } := by
  unfold smartStraight
  simp only
  by_cases hw : isWalkable w (e.x + e.dx) (e.y + e.dy) = true
  · rw [if_pos hw, if_pos hw]
  · rw [if_neg hw, if_neg hw]
    cases e with
    | mk x y dx dy color type habitat moveInterval cooldown =>
      by_cases h1 : dx = 0 <;> by_cases h2 : dy = 0 <;> simp [h1, h2]

theorem moveEnemy_waiting (w : MainWindow) (pq : PQueue) (e : Enemy) (h : 0 < e.cooldown) :
    moveEnemy w pq e = { e with cooldown := e.cooldown - 1 } := by
  unfold moveEnemy
  rw [if_pos (by omega)]

theorem moveEnemy_simple_ready (w : MainWindow) (pq : PQueue) (e : Enemy)
    (ht : e.type = EnemyType.Simple) (hc : e.cooldown ≤ 0) :
    moveEnemy w pq e =
      if isWalkable w (e.x + e.dx) (e.y + e.dy) then
        { e with x := e.x + e.dx, y := e.y + e.dy, cooldown := e.moveInterval }
      else { e with dx := -e.dx, dy := -e.dy, cooldown := e.moveInterval } := by
  have hn : ¬ e.type = EnemyType.Smart := by rw [ht]; decide
  unfold moveEnemy
  rw [if_neg (by omega)]
  simp only []
  rewrite [if_neg (show ¬ ({ e with cooldown := e.moveInterval } : Enemy).type = EnemyType.Smart
    from hn), simpleStraight_eq]
  rfl

theorem moveEnemy_smart_ready (w : MainWindow) (pq : PQueue) (e : Enemy)
    (ht : e.type = EnemyType.Smart) (hc : e.cooldown ≤ 0) :
    moveEnemy w pq e =
      match (if e.habitat.contains w.playerX w.playerY then
          aStarNextStep w pq e.x e.y w.playerX w.playerY else none) with
      | some (nx, ny) =>
        { e with dx := nx - e.x, dy := ny - e.y, x := nx, y := ny, cooldown := e.moveInterval }
      | none =>
        if isWalkable w (e.x + e.dx) (e.y + e.dy) then
          { e with x := e.x + e.dx, y := e.y + e.dy, cooldown := e.moveInterval }
        else if e.dx ≠ 0 then { e with dx := -e.dx, cooldown := e.moveInterval }
        else { e with dy := -e.dy, cooldown := e.moveInterval } := by
  unfold moveEnemy
  rw [if_neg (by omega)]
  simp only []
  rewrite [if_pos (show ({ e with cooldown := e.moveInterval } : Enemy).type = EnemyType.Smart
    from ht), smartStraight_eq]
  rfl

/-- C18: a Smart enemy whose cooldown is 0.  If the player's cell lies in the enemy's
habitat rectangle and `aStarNextStep` from the enemy to the player reports the step `n`,
the enemy moves to `n` and its velocity becomes `n` minus its old position.  Otherwise
(player outside the habitat, or no step reported) it moves by its velocity when the
destination is walkable, keeping the velocity; when the destination is not walkable it
stays on its cell and one velocity component is negated: `dx` if `dx` is nonzero, else `dy`.
The cooldown is reloaded with the move interval in every case. -/
theorem moveEnemy_smart_pursuit (w : MainWindow) (pq : PQueue) (e : Enemy)
    (ht : e.type = EnemyType.Smart) (hc : e.cooldown = 0) :
    (∀ n : Int × Int, e.habitat.contains w.playerX w.playerY = true →
      aStarNextStep w pq e.x e.y w.playerX w.playerY = some n →
      moveEnemy w pq e =
        { e with x := n.1, y := n.2, dx := n.1 - e.x, dy := n.2 - e.y,
                 cooldown := e.moveInterval }) ∧
    ((e.habitat.contains w.playerX w.playerY = false ∨
        aStarNextStep w pq e.x e.y w.playerX w.playerY = none) →
      (isWalkable w (e.x + e.dx) (e.y + e.dy) = true →
        moveEnemy w pq e =
          { e with x := e.x + e.dx, y := e.y + e.dy, cooldown := e.moveInterval }) ∧
      (isWalkable w (e.x + e.dx) (e.y + e.dy) = false → e.dx ≠ 0 →
        moveEnemy w pq e = { e with dx := -e.dx, cooldown := e.moveInterval }) ∧
      (isWalkable w (e.x + e.dx) (e.y + e.dy) = false → e.dx = 0 →
        moveEnemy w pq e = { e with dy := -e.dy, cooldown := e.moveInterval })) := by
  have h := moveEnemy_smart_ready w pq e ht (by omega)
  refine ⟨?_, ?_⟩
  · intro n hin hstep
    rw [h, if_pos hin, hstep]
  · intro hno
    have hq : (if e.habitat.contains w.playerX w.playerY = true then
        aStarNextStep w pq e.x e.y w.playerX w.playerY else none) = none := by
      rcases hno with hout | hnone
      · rw [hout]; rfl
      · rw [hnone]; exact ite_self _
    rw [hq] at h
    refine ⟨?_, ?_, ?_⟩
    · intro hw
      rw [h]
      exact if_pos hw
    · intro hw hdx
      rw [h, hw]
      show (if e.dx ≠ 0 then _ else _) = _
      rw [if_pos hdx]
    · intro hw hdx
      rw [h, hw]
      show (if e.dx ≠ 0 then _ else _) = _
      rw [if_neg (not_not.mpr hdx)]

/-- C18 at a level-2 session: the red Smart enemy on its start cell. -/
theorem moveEnemy_smart_pursuit_witness :
    redHunter.type = EnemyType.Smart ∧ redHunter.cooldown = 0 ∧
    ((∀ n : Int × Int,
      redHunter.habitat.contains (startGame MainWindow.init 2 "").playerX
        (startGame MainWindow.init 2 "").playerY = true →
      aStarNextStep (startGame MainWindow.init 2 "") listPQ redHunter.x redHunter.y
        (startGame MainWindow.init 2 "").playerX (startGame MainWindow.init 2 "").playerY = some n →
      moveEnemy (startGame MainWindow.init 2 "") listPQ redHunter =
        { redHunter with x := n.1, y := n.2, dx := n.1 - redHunter.x, dy := n.2 - redHunter.y,
                         cooldown := redHunter.moveInterval }) ∧
    ((redHunter.habitat.contains (startGame MainWindow.init 2 "").playerX
          (startGame MainWindow.init 2 "").playerY = false ∨
        aStarNextStep (startGame MainWindow.init 2 "") listPQ redHunter.x redHunter.y
          (startGame MainWindow.init 2 "").playerX (startGame MainWindow.init 2 "").playerY = none) →
      (isWalkable (startGame MainWindow.init 2 "") (redHunter.x + redHunter.dx)
          (redHunter.y + redHunter.dy) = true →
        moveEnemy (startGame MainWindow.init 2 "") listPQ redHunter =
          { redHunter with x := redHunter.x + redHunter.dx, y := redHunter.y + redHunter.dy,
                           cooldown := redHunter.moveInterval }) ∧
      (isWalkable (startGame MainWindow.init 2 "") (redHunter.x + redHunter.dx)
          (redHunter.y + redHunter.dy) = false → redHunter.dx ≠ 0 →
        moveEnemy (startGame MainWindow.init 2 "") listPQ redHunter =
          { redHunter with dx := -redHunter.dx, cooldown := redHunter.moveInterval }) ∧
      (isWalkable (startGame MainWindow.init 2 "") (redHunter.x + redHunter.dx)
          (redHunter.y + redHunter.dy) = false → redHunter.dx = 0 →
        moveEnemy (startGame MainWindow.init 2 "") listPQ redHunter =
          { redHunter with dy := -redHunter.dy, cooldown := redHunter.moveInterval }))) :=
  ⟨rfl, rfl, moveEnemy_smart_pursuit (startGame MainWindow.init 2 "") listPQ redHunter rfl rfl⟩

theorem initEnemies_cooldownOk (w : MainWindow) : CooldownInv (initEnemies w) := by
  unfold CooldownInv initEnemies cooldownOk
  simp only
  split_ifs <;> simp

theorem moveEnemy_timing (w : MainWindow) (pq : PQueue) (e : Enemy) :
    (moveEnemy w pq e).moveInterval = e.moveInterval ∧
      (moveEnemy w pq e).cooldown = if 0 < e.cooldown then e.cooldown - 1 else e.moveInterval := by
  by_cases hc : 0 < e.cooldown
  · rw [moveEnemy_waiting w pq e hc, if_pos hc]
    exact ⟨rfl, rfl⟩
  · rw [if_neg hc]
    cases ht : e.type with
    | Simple =>
      rw [moveEnemy_simple_ready w pq e ht (by omega)]
      split_ifs <;> exact ⟨rfl, rfl⟩
    | Smart =>
      rw [moveEnemy_smart_ready w pq e ht (by omega)]
      split
      · exact ⟨rfl, rfl⟩
      · split_ifs <;> exact ⟨rfl, rfl⟩

theorem moveEnemy_cooldownOk (w : MainWindow) (pq : PQueue) (e : Enemy) (h : cooldownOk e) :
    cooldownOk (moveEnemy w pq e) := by
  obtain ⟨h1, h2⟩ := moveEnemy_timing w pq e
  unfold cooldownOk at h ⊢
  rw [h1, h2]
  split_ifs <;> omega

theorem movePlayer_board (w : MainWindow) :
    (movePlayer w).rows = w.rows ∧ (movePlayer w).cols = w.cols ∧
    (movePlayer w).maze = w.maze ∧ (movePlayer w).currentLevel = w.currentLevel := by
  rcases movePlayer_cases w with h | h
  · rw [h]; exact ⟨rfl, rfl, rfl, rfl⟩
  · rw [h]
    obtain ⟨_, _, _, _, _, _, h7, h8, h9, h10, _, _⟩ :=
      eatFood_frame { w with playerX := w.playerX + w.playerDirX, playerY := w.playerY + w.playerDirY }
    exact ⟨h8, h9, h10, h7⟩

theorem preCollision_board (w : MainWindow) (pq : PQueue) :
    (preCollision w pq).rows = w.rows ∧ (preCollision w pq).cols = w.cols ∧
    (preCollision w pq).maze = w.maze ∧ (preCollision w pq).currentLevel = w.currentLevel ∧
    (preCollision w pq).enemies =
      w.enemies.map (moveEnemy (movePlayer { w with mouthOpen := !w.mouthOpen }) pq) ∧
    (preCollision w pq).playerX = (movePlayer { w with mouthOpen := !w.mouthOpen }).playerX ∧
    (preCollision w pq).playerY = (movePlayer { w with mouthOpen := !w.mouthOpen }).playerY := by
  obtain ⟨h1, h2, h3, h4⟩ := movePlayer_board { w with mouthOpen := !w.mouthOpen }
  obtain ⟨_, h6, _⟩ := movePlayer_frame { w with mouthOpen := !w.mouthOpen }
  refine ⟨h1, h2, h3, h4, ?_, rfl, rfl⟩
  show (movePlayer { w with mouthOpen := !w.mouthOpen }).enemies.map _ = _
  rw [h6]

theorem checkCollisions_board (w : MainWindow) :
    (checkCollisions w).rows = w.rows ∧ (checkCollisions w).cols = w.cols ∧
    (checkCollisions w).maze = w.maze ∧ (checkCollisions w).currentLevel = w.currentLevel ∧
    (checkCollisions w).enemies = (if hitsPlayer w then (initEnemies w).enemies else w.enemies) ∧
    (checkCollisions w).playerX = (if hitsPlayer w then 1 else w.playerX) ∧
    (checkCollisions w).playerY = (if hitsPlayer w then 1 else w.playerY) := by
  obtain ⟨_, e2, e3, e4, _, _, e7, e8, e9, e10, _, _⟩ := eatFood_frame w
  rw [checkCollisions_eq]
  by_cases hh : hitsPlayer w = true
  · rw [if_pos hh, if_pos hh, if_pos hh, if_pos hh]
    obtain ⟨l1, l2, l3, _⟩ := loseLife_fields (eatFood w)
    obtain ⟨_, _, _, _, _, _, _, f8, f9, f10, f11, _, _⟩ :=
      initEnemies_frame { eatFood w with playerX := 1, playerY := 1 }
    have hl : loseLife (eatFood w) =
        (if (initEnemies { eatFood w with playerX := 1, playerY := 1 }).lives - 1 ≤ 0 then
          { initEnemies { eatFood w with playerX := 1, playerY := 1 } with
              lives := (initEnemies { eatFood w with playerX := 1, playerY := 1 }).lives - 1
              timerActive := false
              pending := (initEnemies { eatFood w with playerX := 1, playerY := 1 }).pending ++
                [Callback.gameOver] }
        else
          { initEnemies { eatFood w with playerX := 1, playerY := 1 } with
              lives := (initEnemies { eatFood w with playerX := 1, playerY := 1 }).lives - 1 }) := rfl
    have hb : (loseLife (eatFood w)).rows = w.rows ∧ (loseLife (eatFood w)).cols = w.cols ∧
        (loseLife (eatFood w)).maze = w.maze ∧
        (loseLife (eatFood w)).currentLevel = w.currentLevel := by
      rw [hl]
      split_ifs
      · exact ⟨f9.trans e8, f10.trans e9, f11.trans e10, f8.trans e7⟩
      · exact ⟨f9.trans e8, f10.trans e9, f11.trans e10, f8.trans e7⟩
    refine ⟨hb.1, hb.2.1, hb.2.2.1, hb.2.2.2, ?_, l1, l2⟩
    rw [l3]
    exact initEnemies_roster_congr w (eatFood w) e8 e9 e7
  · rw [if_neg hh, if_neg hh, if_neg hh, if_neg hh]
    exact ⟨e8, e9, e10, e7, e2, e3, e4⟩

theorem updateFrame_board (w : MainWindow) (pq : PQueue) :
    (updateFrame w pq).rows = w.rows ∧ (updateFrame w pq).cols = w.cols ∧
    (updateFrame w pq).maze = w.maze ∧ (updateFrame w pq).currentLevel = w.currentLevel ∧
    (updateFrame w pq).enemies =
      (if tickCollides w pq then (initEnemies w).enemies
       else w.enemies.map (moveEnemy (movePlayer { w with mouthOpen := !w.mouthOpen }) pq)) ∧
    (updateFrame w pq).playerX =
      (if tickCollides w pq then 1 else (movePlayer { w with mouthOpen := !w.mouthOpen }).playerX) ∧
    (updateFrame w pq).playerY =
      (if tickCollides w pq then 1 else (movePlayer { w with mouthOpen := !w.mouthOpen }).playerY) := by
  obtain ⟨p1, p2, p3, p4, p5, p6, p7⟩ := preCollision_board w pq
  obtain ⟨c1, c2, c3, c4, c5, c6, c7⟩ := checkCollisions_board (preCollision w pq)
  have hr : (initEnemies (preCollision w pq)).enemies = (initEnemies w).enemies :=
    initEnemies_roster_congr w (preCollision w pq) p1 p2 p4
  rw [hr, p5] at c5
  rw [p6] at c6
  rw [p7] at c7
  have key :
      (checkCollisions (preCollision w pq)).rows = w.rows ∧
      (checkCollisions (preCollision w pq)).cols = w.cols ∧
      (checkCollisions (preCollision w pq)).maze = w.maze ∧
      (checkCollisions (preCollision w pq)).currentLevel = w.currentLevel ∧
      (checkCollisions (preCollision w pq)).enemies =
        (if tickCollides w pq then (initEnemies w).enemies
         else w.enemies.map (moveEnemy (movePlayer { w with mouthOpen := !w.mouthOpen }) pq)) ∧
      (checkCollisions (preCollision w pq)).playerX =
        (if tickCollides w pq then 1
         else (movePlayer { w with mouthOpen := !w.mouthOpen }).playerX) ∧
      (checkCollisions (preCollision w pq)).playerY =
        (if tickCollides w pq then 1
         else (movePlayer { w with mouthOpen := !w.mouthOpen }).playerY) :=
    ⟨c1.trans p1, c2.trans p2, c3.trans p3, c4.trans p4, c5, c6, c7⟩
  rw [updateFrame_eq]
  by_cases he : (checkCollisions (preCollision w pq)).food.isEmpty = true
  · rw [if_pos he]
    exact key
  · rw [if_neg he]
    exact key

theorem key_board (w : MainWindow) (k : Key) :
    ((keyPressEvent w k).rows = w.rows ∧ (keyPressEvent w k).cols = w.cols ∧
      (keyPressEvent w k).maze = w.maze ∧ (keyPressEvent w k).enemies = w.enemies ∧
      (keyPressEvent w k).playerX = w.playerX ∧ (keyPressEvent w k).playerY = w.playerY) ∧
    ((keyReleaseEvent w k).rows = w.rows ∧ (keyReleaseEvent w k).cols = w.cols ∧
      (keyReleaseEvent w k).maze = w.maze ∧ (keyReleaseEvent w k).enemies = w.enemies ∧
      (keyReleaseEvent w k).playerX = w.playerX ∧ (keyReleaseEvent w k).playerY = w.playerY) := by
  unfold keyPressEvent keyReleaseEvent
  by_cases h : w.menuVisible = true
  · rw [if_pos h, if_pos h]; exact ⟨⟨rfl, rfl, rfl, rfl, rfl, rfl⟩, rfl, rfl, rfl, rfl, rfl, rfl⟩
  · rw [if_neg h, if_neg h]
    cases k <;> exact ⟨⟨rfl, rfl, rfl, rfl, rfl, rfl⟩, rfl, rfl, rfl, rfl, rfl, rfl⟩

theorem updateFrame_cooldownInv (w : MainWindow) (pq : PQueue) (h : CooldownInv w) :
    CooldownInv (updateFrame w pq) := by
  obtain ⟨_, _, _, _, he, _⟩ := updateFrame_board w pq
  unfold CooldownInv
  rw [he]
  split_ifs
  · exact initEnemies_cooldownOk w
  · intro e hm
    obtain ⟨e0, h0, rfl⟩ := List.mem_map.1 hm
    exact moveEnemy_cooldownOk _ pq e0 (h e0 h0)

theorem step_cooldownInv (pq : PQueue) (w : MainWindow) (ev : Event) (h : CooldownInv w) :
    CooldownInv (step pq w ev) := by
  cases ev with
  | press k =>
    show CooldownInv (keyPressEvent w k)
    unfold CooldownInv
    rw [(key_board w k).1.2.2.2.1]
    exact h
  | release k =>
    show CooldownInv (keyReleaseEvent w k)
    unfold CooldownInv
    rw [(key_board w k).2.2.2.2.1]
    exact h
  | timeout =>
    rw [step_timeout]
    split_ifs
    · exact updateFrame_cooldownInv w pq h
    · exact h

theorem run_cooldownInv (pq : PQueue) (evs : List Event) (w : MainWindow) (h : CooldownInv w) :
    CooldownInv (run pq w evs) := by
  induction evs generalizing w with
  | nil => exact h
  | cons ev evs ih =>
    rw [run_cons]
    exact ih _ (step_cooldownInv pq w ev h)

theorem startGame_board (w : MainWindow) (level : Int) (nameInput : String) :
    (startGame w level nameInput).rows = w.rows ∧ (startGame w level nameInput).cols = w.cols ∧
    (startGame w level nameInput).maze = (levelBoard w level).maze ∧
    (startGame w level nameInput).playerX = 1 ∧ (startGame w level nameInput).playerY = 1 ∧
    (startGame w level nameInput).enemies = (initEnemies (initFood (levelBoard w level))).enemies ∧
    (startGame w level nameInput).food = (initFood (levelBoard w level)).food := by
  obtain ⟨_, _, _, s4, s5⟩ := loadLevels_frame w
  have hsg : startGame w level nameInput =
      { askName { initEnemies (initFood (levelBoard w level)) with lives := 3 } nameInput with
          currentPlayerName :=
            (askName { initEnemies (initFood (levelBoard w level)) with lives := 3 } nameInput).playerName
          mouthOpen := false, timerActive := true, menuVisible := false } := rfl
  obtain ⟨_, _, f3, f4, f5, _, _, _, f9, f10, f11, _, _⟩ :=
    initEnemies_frame (initFood (levelBoard w level))
  obtain ⟨_, _, a3, _, _, _, a7, a8, a9, a10, a11, a12⟩ :=
    askName_frame { initEnemies (initFood (levelBoard w level)) with lives := 3 } nameInput
  rw [hsg]
  refine ⟨?_, ?_, ?_, ?_, ?_, ?_, ?_⟩
  · show (askName _ nameInput).rows = _
    rw [a9]
    show (initEnemies _).rows = _
    rw [f9]; exact s4
  · show (askName _ nameInput).cols = _
    rw [a10]
    show (initEnemies _).cols = _
    rw [f10]; exact s5
  · show (askName _ nameInput).maze = _
    rw [a8]
    show (initEnemies _).maze = _
    rw [f11]; rfl
  · show (askName _ nameInput).playerX = _
    rw [a11]
    show (initEnemies _).playerX = _
    rw [f4]; rfl
  · show (askName _ nameInput).playerY = _
    rw [a12]
    show (initEnemies _).playerY = _
    rw [f5]; rfl
  · show (askName _ nameInput).enemies = _
    rw [a7]
  · show (askName _ nameInput).food = _
    rw [a3]
    show (initEnemies _).food = _
    rw [f3]

theorem startGame_cooldownInv (w : MainWindow) (level : Int) (nameInput : String) :
    CooldownInv (startGame w level nameInput) := by
  unfold CooldownInv
  rw [(startGame_board w level nameInput).2.2.2.2.2.1]
  exact initEnemies_cooldownOk _

/-- C19 (as amended): in every state that a session reaches from `startGame` on any level
by key events and timer ticks (the life-loss resets happen inside ticks), every enemy has
`0 <= cooldown <= moveInterval`; the roster that a life-loss reset builds satisfies the same
bounds.  When the enemies advance, an enemy whose cooldown is positive keeps its position
and velocity and its cooldown drops by exactly 1.  In a tick that resolves no collision the
roster after the tick is the old roster advanced enemy by enemy, so every enemy whose
cooldown was positive is found at its place in the roster with the cooldown one lower and
everything else unchanged; a tick that resolves a collision rebuilds the roster from the
level template instead. -/
theorem cooldown_bounds (pq : PQueue) (w : MainWindow) (level : Int) (nameInput : String)
    (evs : List Event) :
    (∀ e ∈ (run pq (startGame w level nameInput) evs).enemies,
      0 ≤ e.cooldown ∧ e.cooldown ≤ e.moveInterval) ∧
    (∀ s : MainWindow, ∀ e ∈ (loseLife s).enemies, 0 ≤ e.cooldown ∧ e.cooldown ≤ e.moveInterval) ∧
    (∀ (s : MainWindow) (e : Enemy), 0 < e.cooldown →
      moveEnemy s pq e = { e with cooldown := e.cooldown - 1 }) ∧
    (∀ s : MainWindow, (moveEnemies s pq).enemies = s.enemies.map (moveEnemy s pq)) ∧
    (∀ s : MainWindow, tickCollides s pq = false →
      (updateFrame s pq).enemies =
        s.enemies.map (moveEnemy (movePlayer { s with mouthOpen := !s.mouthOpen }) pq)) ∧
    (∀ (s : MainWindow) (i : Nat) (e : Enemy), tickCollides s pq = false →
      s.enemies[i]? = some e → 0 < e.cooldown →
      (updateFrame s pq).enemies[i]? = some { e with cooldown := e.cooldown - 1 }) ∧
    (∀ s : MainWindow, tickCollides s pq = true →
      (updateFrame s pq).enemies = (initEnemies s).enemies) := by
  refine ⟨?_, ?_, ?_, ?_, ?_, ?_, ?_⟩
  · exact run_cooldownInv pq evs _ (startGame_cooldownInv w level nameInput)
  · intro s
    rw [(loseLife_fields s).2.2.1]
    exact initEnemies_cooldownOk s
  · intro s e h
    exact moveEnemy_waiting s pq e h
  · intro s
    rfl
  · intro s h
    rw [(updateFrame_board s pq).2.2.2.2.1, h]
    rfl
  · intro s i e h hi hc
    rw [(updateFrame_board s pq).2.2.2.2.1, h]
    show (s.enemies.map (moveEnemy (movePlayer { s with mouthOpen := !s.mouthOpen }) pq))[i]? = _
    rw [List.getElem?_map, hi]
    show some (moveEnemy _ pq e) = _
    rw [moveEnemy_waiting _ pq e hc]
  · intro s h
    rw [(updateFrame_board s pq).2.2.2.2.1, h]
    rfl

theorem isWalkable_congr (a b : MainWindow) (hr : a.rows = b.rows) (hc : a.cols = b.cols)
    (hm : a.maze = b.maze) (x y : Int) : isWalkable a x y = isWalkable b x y := by
  unfold isWalkable
  rw [hr, hc, hm]

theorem start_cell_not_wall_1 : ((1 : Int), (1 : Int)) ∉ lvl1 := by decide!

theorem start_cell_not_wall_2 : ((1 : Int), (1 : Int)) ∉ lvl2 := by decide!

theorem start_cell_not_wall_3 : ((1 : Int), (1 : Int)) ∉ lvl3 := by decide!

theorem start_cell_not_wall_4 : ((1 : Int), (1 : Int)) ∉ lvl4 := by decide!

theorem levelBoard_walls (w : MainWindow) (level : Int)
    (hl : w.levels = [] ∨ w.levels = [lvl1, lvl2, lvl3, lvl4]) (h1 : 1 ≤ level) (h4 : level ≤ 4) :
    currentWalls { (if w.levels.isEmpty then setupLevels w else w) with currentLevel := level }
        level =
      [lvl1, lvl2, lvl3, lvl4].getD (level - 1).toNat [] := by
  have hlev : (if w.levels.isEmpty then setupLevels w else w).levels = [lvl1, lvl2, lvl3, lvl4] := by
    rcases hl with h | h
    · rw [if_pos (by rw [h]; rfl)]
      rfl
    · rw [if_neg (by rw [h]; decide)]
      exact h
  unfold currentWalls clampLevel
  show ((if w.levels.isEmpty then setupLevels w else w).levels).getD
      ((if level ≤ 0 ∨ level > (((if w.levels.isEmpty then setupLevels w else w).levels).length : Int)
        then 1 else level) - 1).toNat [] = _
  rw [hlev]
  rw [if_neg (by simp only [List.length_cons, List.length_nil]; push_cast; omega)]

theorem start_cell_walkable (w : MainWindow) (level : Int) (nameInput : String)
    (hr : 3 ≤ w.rows) (hc : 3 ≤ w.cols)
    (hl : w.levels = [] ∨ w.levels = [lvl1, lvl2, lvl3, lvl4]) (h1 : 1 ≤ level) (h4 : level ≤ 4) :
    isWalkable (startGame w level nameInput) 1 1 = true := by
  obtain ⟨b1, b2, b3, _⟩ := startGame_board w level nameInput
  rw [isWalkable_iff, b1, b2, b3]
  refine ⟨by decide, by decide, by omega, by omega, ?_⟩
  unfold levelBoard
  have hm := mazeAt_initMaze
    { (if w.levels.isEmpty then setupLevels w else w) with currentLevel := level } level 1 1
  have hrows : ({ (if w.levels.isEmpty then setupLevels w else w) with
      currentLevel := level } : MainWindow).rows = w.rows := (loadLevels_frame w).2.2.2.1
  have hcols : ({ (if w.levels.isEmpty then setupLevels w else w) with
      currentLevel := level } : MainWindow).cols = w.cols := (loadLevels_frame w).2.2.2.2
  rw [hrows, hcols, levelBoard_walls w level hl h1 h4] at hm
  show mazeAt _ 1 1 = some 0
  rw [hm, if_pos ⟨by omega, by omega⟩]
  have hnb : ¬ onBorder w.rows w.cols 1 1 := by
    unfold onBorder
    omega
  have hnw : ((1 : Int), (1 : Int)) ∉ [lvl1, lvl2, lvl3, lvl4].getD (level - 1).toNat [] := by
    have hcases : level = 1 ∨ level = 2 ∨ level = 3 ∨ level = 4 := by omega
    rcases hcases with h | h | h | h <;> subst h
    · exact start_cell_not_wall_1
    · exact start_cell_not_wall_2
    · exact start_cell_not_wall_3
    · exact start_cell_not_wall_4
  rw [if_neg]
  rintro (h | h)
  · exact hnb h
  · exact hnw h

theorem movePlayer_pos (w : MainWindow) :
    ((movePlayer w).playerX = w.playerX + w.playerDirX ∧
      (movePlayer w).playerY = w.playerY + w.playerDirY ∧
      isWalkable w (w.playerX + w.playerDirX) (w.playerY + w.playerDirY) = true) ∨
    ((movePlayer w).playerX = w.playerX ∧ (movePlayer w).playerY = w.playerY) := by
  unfold movePlayer
  simp only
  by_cases h1 : ¬ (w.playerDirX = 0 ∧ w.playerDirY = 0)
  · rw [if_pos h1]
    by_cases h2 : isWalkable w (w.playerX + w.playerDirX) (w.playerY + w.playerDirY) = true
    · rw [if_pos h2]
      obtain ⟨_, _, e3, e4, _⟩ := eatFood_frame
        { w with playerX := w.playerX + w.playerDirX, playerY := w.playerY + w.playerDirY }
      exact Or.inl ⟨e3, e4, h2⟩
    · rw [if_neg h2]; exact Or.inr ⟨rfl, rfl⟩
  · rw [if_neg h1]; exact Or.inr ⟨rfl, rfl⟩

theorem updateFrame_pos (w : MainWindow) (pq : PQueue) :
    ((updateFrame w pq).playerX = w.playerX + w.playerDirX ∧
      (updateFrame w pq).playerY = w.playerY + w.playerDirY ∧
      isWalkable w (w.playerX + w.playerDirX) (w.playerY + w.playerDirY) = true) ∨
    ((updateFrame w pq).playerX = w.playerX ∧ (updateFrame w pq).playerY = w.playerY) ∨
    ((updateFrame w pq).playerX = 1 ∧ (updateFrame w pq).playerY = 1) := by
  obtain ⟨_, _, _, _, _, hx, hy⟩ := updateFrame_board w pq
  by_cases ht : tickCollides w pq = true
  · rw [if_pos ht] at hx hy
    exact Or.inr (Or.inr ⟨hx, hy⟩)
  · rw [if_neg ht] at hx hy
    rcases movePlayer_pos { w with mouthOpen := !w.mouthOpen } with h | h
    · refine Or.inl ⟨hx.trans h.1, hy.trans h.2.1, ?_⟩
      rw [← h.2.2]
      exact isWalkable_congr _ _ rfl rfl rfl _ _
    · exact Or.inr (Or.inl ⟨hx.trans h.1, hy.trans h.2⟩)

theorem updateFrame_playerInv (w : MainWindow) (pq : PQueue) (h : PlayerInv w) :
    PlayerInv (updateFrame w pq) := by
  obtain ⟨b1, b2, b3, _⟩ := updateFrame_board w pq
  have hc : ∀ x y, isWalkable (updateFrame w pq) x y = isWalkable w x y :=
    isWalkable_congr _ _ b1 b2 b3
  unfold PlayerInv
  rw [hc, hc]
  refine ⟨?_, h.2⟩
  rcases updateFrame_pos w pq with hp | hp | hp
  · rw [hp.1, hp.2.1]; exact hp.2.2
  · rw [hp.1, hp.2]; exact h.1
  · rw [hp.1, hp.2]; exact h.2

theorem step_playerInv (pq : PQueue) (w : MainWindow) (ev : Event) (h : PlayerInv w) :
    PlayerInv (step pq w ev) := by
  cases ev with
  | press k =>
    obtain ⟨k1, k2, k3, _, k5, k6⟩ := (key_board w k).1
    show PlayerInv (keyPressEvent w k)
    unfold PlayerInv
    rw [isWalkable_congr _ w k1 k2 k3, isWalkable_congr _ w k1 k2 k3, k5, k6]
    exact h
  | release k =>
    obtain ⟨k1, k2, k3, _, k5, k6⟩ := (key_board w k).2
    show PlayerInv (keyReleaseEvent w k)
    unfold PlayerInv
    rw [isWalkable_congr _ w k1 k2 k3, isWalkable_congr _ w k1 k2 k3, k5, k6]
    exact h
  | timeout =>
    rw [step_timeout]
    split_ifs
    · exact updateFrame_playerInv w pq h
    · exact h

theorem run_playerInv (pq : PQueue) (evs : List Event) (w : MainWindow) (h : PlayerInv w) :
    PlayerInv (run pq w evs) := by
  induction evs generalizing w with
  | nil => exact h
  | cons ev evs ih =>
    rw [run_cons]
    exact ih _ (step_playerInv pq w ev h)

/-- C20: take a window whose board has at least 3 rows and 3 columns (the constructor makes
it 25 x 25) and whose level table is still empty or is the table of `setupLevels`.  After
`startGame` on a level 1..4 the start cell `(1, 1)` is walkable, and in every state reached
from there by key events and timer ticks the player's cell is inside the board and holds
no wall.  A tick leaves the player on `position + direction`, and then that cell is
walkable, or on the old position, or on `(1, 1)`. -/
theorem player_on_open_cell (pq : PQueue) (w : MainWindow) (level : Int) (nameInput : String)
    (evs : List Event) (hr : 3 ≤ w.rows) (hc : 3 ≤ w.cols)
    (hl : w.levels = [] ∨ w.levels = [lvl1, lvl2, lvl3, lvl4]) (h1 : 1 ≤ level) (h4 : level ≤ 4) :
    isWalkable (startGame w level nameInput) 1 1 = true ∧
    isWalkable (run pq (startGame w level nameInput) evs) 1 1 = true ∧
    isWalkable (run pq (startGame w level nameInput) evs)
      (run pq (startGame w level nameInput) evs).playerX
      (run pq (startGame w level nameInput) evs).playerY = true ∧
    (0 ≤ (run pq (startGame w level nameInput) evs).playerX ∧
      0 ≤ (run pq (startGame w level nameInput) evs).playerY ∧
      (run pq (startGame w level nameInput) evs).playerX <
        ((run pq (startGame w level nameInput) evs).cols : Int) ∧
      (run pq (startGame w level nameInput) evs).playerY <
        ((run pq (startGame w level nameInput) evs).rows : Int) ∧
      mazeAt (run pq (startGame w level nameInput) evs).maze
        (run pq (startGame w level nameInput) evs).playerY.toNat
        (run pq (startGame w level nameInput) evs).playerX.toNat = some 0) ∧
    (∀ s : MainWindow,
      ((updateFrame s pq).playerX = s.playerX + s.playerDirX ∧
        (updateFrame s pq).playerY = s.playerY + s.playerDirY ∧
        isWalkable s (s.playerX + s.playerDirX) (s.playerY + s.playerDirY) = true) ∨
      ((updateFrame s pq).playerX = s.playerX ∧ (updateFrame s pq).playerY = s.playerY) ∨
      ((updateFrame s pq).playerX = 1 ∧ (updateFrame s pq).playerY = 1)) := by
  have h0 := start_cell_walkable w level nameInput hr hc hl h1 h4
  have hinit : PlayerInv (startGame w level nameInput) := by
    obtain ⟨_, _, _, b4, b5, _⟩ := startGame_board w level nameInput
    unfold PlayerInv
    rw [b4, b5]
    exact ⟨h0, h0⟩
  have hinv := run_playerInv pq evs _ hinit
  exact ⟨h0, hinv.2, hinv.1, (isWalkable_iff _ _ _).1 hinv.1, fun s => updateFrame_pos s pq⟩

/-- C20 for the freshly constructed window, level 1, after a press of the right arrow and
two ticks. -/
theorem player_on_open_cell_witness :
    3 ≤ MainWindow.fresh.rows ∧ 3 ≤ MainWindow.fresh.cols ∧
    (MainWindow.fresh.levels = [] ∨ MainWindow.fresh.levels = [lvl1, lvl2, lvl3, lvl4]) ∧
    (1 : Int) ≤ 1 ∧ (1 : Int) ≤ 4 ∧
    (isWalkable (startGame MainWindow.fresh 1 "") 1 1 = true ∧
    isWalkable (run listPQ (startGame MainWindow.fresh 1 "") (go Key.right 2)) 1 1 = true ∧
    isWalkable (run listPQ (startGame MainWindow.fresh 1 "") (go Key.right 2))
      (run listPQ (startGame MainWindow.fresh 1 "") (go Key.right 2)).playerX
      (run listPQ (startGame MainWindow.fresh 1 "") (go Key.right 2)).playerY = true ∧
    (0 ≤ (run listPQ (startGame MainWindow.fresh 1 "") (go Key.right 2)).playerX ∧
      0 ≤ (run listPQ (startGame MainWindow.fresh 1 "") (go Key.right 2)).playerY ∧
      (run listPQ (startGame MainWindow.fresh 1 "") (go Key.right 2)).playerX <
        ((run listPQ (startGame MainWindow.fresh 1 "") (go Key.right 2)).cols : Int) ∧
      (run listPQ (startGame MainWindow.fresh 1 "") (go Key.right 2)).playerY <
        ((run listPQ (startGame MainWindow.fresh 1 "") (go Key.right 2)).rows : Int) ∧
      mazeAt (run listPQ (startGame MainWindow.fresh 1 "") (go Key.right 2)).maze
        (run listPQ (startGame MainWindow.fresh 1 "") (go Key.right 2)).playerY.toNat
        (run listPQ (startGame MainWindow.fresh 1 "") (go Key.right 2)).playerX.toNat = some 0) ∧
    (∀ s : MainWindow,
      ((updateFrame s listPQ).playerX = s.playerX + s.playerDirX ∧
        (updateFrame s listPQ).playerY = s.playerY + s.playerDirY ∧
        isWalkable s (s.playerX + s.playerDirX) (s.playerY + s.playerDirY) = true) ∨
      ((updateFrame s listPQ).playerX = s.playerX ∧ (updateFrame s listPQ).playerY = s.playerY) ∨
      ((updateFrame s listPQ).playerX = 1 ∧ (updateFrame s listPQ).playerY = 1))) :=
  ⟨by decide, by decide, Or.inl rfl, by decide, by decide,
    player_on_open_cell listPQ MainWindow.fresh 1 "" (go Key.right 2) (by decide) (by decide)
      (Or.inl rfl) (by decide) (by decide)⟩

theorem setRemove_absent (s : List (Int × Int)) (p : Int × Int) (h : p ∉ s) :
    setRemove s p = s := by
  unfold setRemove
  rw [List.filter_eq_self]
  intro q hq
  have : q ≠ p := fun e => h (e ▸ hq)
  simpa using this

theorem setRemove_idem (s : List (Int × Int)) (p : Int × Int) :
    setRemove (setRemove s p) p = setRemove s p :=
  setRemove_absent _ _ (fun h => ((mem_setRemove _ _ _).1 h).2 rfl)

theorem eatFood_exact (w : MainWindow) :
    (eatFood w).food = setRemove w.food (w.playerX, w.playerY) ∧
      (eatFood w).score =
        if (w.playerX, w.playerY) ∈ w.food then wrapInt (w.score + 10) else w.score := by
  unfold eatFood
  simp only
  by_cases hc : w.food.contains (w.playerX, w.playerY) = true
  · have hm : (w.playerX, w.playerY) ∈ w.food := by simpa using hc
    rw [if_pos hc, if_pos hm]
    exact ⟨rfl, rfl⟩
  · have hm : (w.playerX, w.playerY) ∉ w.food := by simpa using hc
    rw [if_neg hc, if_neg hm, setRemove_absent _ _ hm]
    exact ⟨rfl, rfl⟩

theorem checkCollisions_exact (w : MainWindow) :
    (checkCollisions w).food = setRemove w.food (w.playerX, w.playerY) ∧
      (checkCollisions w).score =
        if (w.playerX, w.playerY) ∈ w.food then wrapInt (w.score + 10) else w.score := by
  obtain ⟨h1, h2⟩ := eatFood_exact w
  rw [checkCollisions_eq]
  by_cases hh : hitsPlayer w = true
  · rw [if_pos hh]
    obtain ⟨_, _, _, _, h5, h6, _⟩ := loseLife_fields (eatFood w)
    rw [h5, h6]
    exact ⟨h1, h2⟩
  · rw [if_neg hh]
    exact ⟨h1, h2⟩

theorem preCollision_exact (w : MainWindow) (pq : PQueue) :
    ((preCollision w pq).food = w.food ∧ (preCollision w pq).score = w.score) ∨
    ((preCollision w pq).food =
        setRemove w.food ((preCollision w pq).playerX, (preCollision w pq).playerY) ∧
      (preCollision w pq).score =
        if ((preCollision w pq).playerX, (preCollision w pq).playerY) ∈ w.food then
          wrapInt (w.score + 10)
        else w.score) := by
  rcases movePlayer_cases { w with mouthOpen := !w.mouthOpen } with h | h
  · left
    show (movePlayer { w with mouthOpen := !w.mouthOpen }).food = w.food ∧
      (movePlayer { w with mouthOpen := !w.mouthOpen }).score = w.score
    rw [h]
    exact ⟨rfl, rfl⟩
  · right
    show (movePlayer { w with mouthOpen := !w.mouthOpen }).food =
        setRemove w.food ((movePlayer { w with mouthOpen := !w.mouthOpen }).playerX,
          (movePlayer { w with mouthOpen := !w.mouthOpen }).playerY) ∧
      (movePlayer { w with mouthOpen := !w.mouthOpen }).score =
        if ((movePlayer { w with mouthOpen := !w.mouthOpen }).playerX,
          (movePlayer { w with mouthOpen := !w.mouthOpen }).playerY) ∈ w.food then
          wrapInt (w.score + 10)
        else w.score
    rw [h]
    obtain ⟨_, _, e3, e4, _⟩ := eatFood_frame
      { w with mouthOpen := !w.mouthOpen, playerX := w.playerX + w.playerDirX,
               playerY := w.playerY + w.playerDirY }
    obtain ⟨x1, x2⟩ := eatFood_exact
      { w with mouthOpen := !w.mouthOpen, playerX := w.playerX + w.playerDirX,
               playerY := w.playerY + w.playerDirY }
    rw [e3, e4]
    exact ⟨x1, x2⟩

theorem updateFrame_exact (w : MainWindow) (pq : PQueue) :
    (updateFrame w pq).food =
        setRemove w.food ((preCollision w pq).playerX, (preCollision w pq).playerY) ∧
      (updateFrame w pq).score =
        if ((preCollision w pq).playerX, (preCollision w pq).playerY) ∈ w.food then
          wrapInt (w.score + 10)
        else w.score := by
  obtain ⟨c1, c2⟩ := checkCollisions_exact (preCollision w pq)
  have key : (checkCollisions (preCollision w pq)).food =
        setRemove w.food ((preCollision w pq).playerX, (preCollision w pq).playerY) ∧
      (checkCollisions (preCollision w pq)).score =
        if ((preCollision w pq).playerX, (preCollision w pq).playerY) ∈ w.food then
          wrapInt (w.score + 10)
        else w.score := by
    rcases preCollision_exact w pq with ⟨p1, p2⟩ | ⟨p1, p2⟩
    · rw [c1, c2, p1, p2]
      exact ⟨rfl, rfl⟩
    · have hno : ((preCollision w pq).playerX, (preCollision w pq).playerY) ∉
          (preCollision w pq).food := by
        rw [p1]
        exact fun h => ((mem_setRemove _ _ _).1 h).2 rfl
      rw [c1, c2, if_neg hno, p2]
      refine ⟨?_, rfl⟩
      rw [p1, setRemove_idem]
  rw [updateFrame_eq]
  by_cases he : (checkCollisions (preCollision w pq)).food.isEmpty = true
  · rw [if_pos he]
    exact key
  · rw [if_neg he]
    exact key

/-- C15 fails as stated: in a state whose score is 2147483640, ten below the largest
`int`, the tick takes the pellet on `(2, 1)` and leaves the pellet on `(3, 1)`: one pellet
is removed, and the 32-bit addition leaves the score at -2147483646, not at 2147483650. -/
theorem score_wraps_past_int_max :
    nearOverflow.food = [(2, 1), (3, 1)] ∧ nearOverflow.score = 2147483640 ∧
    (updateFrame nearOverflow listPQ).food = [(3, 1)] ∧
    (updateFrame nearOverflow listPQ).score = -2147483646 ∧
    ¬ ((updateFrame nearOverflow listPQ).score =
        nearOverflow.score +
          10 * ((nearOverflow.food.length : Int) -
            ((updateFrame nearOverflow listPQ).food.length : Int))) := by
  decide!

/-- C15 (as amended): for every tick (the pellet set being duplicate-free, as a set is),
every pellet left after the tick was there before it.  The only cell whose pellet a tick
can remove is the cell the player occupies once the move attempt is done: the pellet set
after the tick is the old set without that cell, which is then pellet-free.  If that cell
holds no pellet (never had one, or it was consumed earlier) the pellet set and the score
are unchanged; if it holds one, exactly that pellet goes and the score becomes the 32-bit
sum of the old score and 10.  Whenever the old score is an `int` and the old score plus 10
does not exceed 2147483647, the score rises by exactly 10 times the number of pellets
removed. -/
theorem tick_pellets (w : MainWindow) (pq : PQueue) (h : w.food.Nodup) :
    (∀ q, q ∈ (updateFrame w pq).food → q ∈ w.food) ∧
    (updateFrame w pq).food =
      setRemove w.food ((preCollision w pq).playerX, (preCollision w pq).playerY) ∧
    ((preCollision w pq).playerX, (preCollision w pq).playerY) ∉ (updateFrame w pq).food ∧
    (((preCollision w pq).playerX, (preCollision w pq).playerY) ∉ w.food →
      (updateFrame w pq).food = w.food ∧ (updateFrame w pq).score = w.score) ∧
    (((preCollision w pq).playerX, (preCollision w pq).playerY) ∈ w.food →
      (updateFrame w pq).food.length + 1 = w.food.length ∧
      (updateFrame w pq).score = wrapInt (w.score + 10)) ∧
    (-2147483648 ≤ w.score → w.score + 10 ≤ 2147483647 →
      (updateFrame w pq).score =
        w.score + 10 * ((w.food.length : Int) - ((updateFrame w pq).food.length : Int))) := by
  obtain ⟨x1, x2⟩ := updateFrame_exact w pq
  refine ⟨?_, x1, ?_, ?_, ?_, ?_⟩
  · intro q hq
    rw [x1] at hq
    exact ((mem_setRemove _ _ _).1 hq).1
  · rw [x1]
    exact fun hm => ((mem_setRemove _ _ _).1 hm).2 rfl
  · intro hno
    rw [x1, x2, if_neg hno, setRemove_absent _ _ hno]
    exact ⟨rfl, rfl⟩
  · intro hin
    rw [x1, x2, if_pos hin]
    exact ⟨length_setRemove _ _ h hin, rfl⟩
  · intro hlow hhigh
    by_cases hin : ((preCollision w pq).playerX, (preCollision w pq).playerY) ∈ w.food
    · have hl := length_setRemove w.food _ h hin
      rw [x1, x2, if_pos hin, wrapInt_fits _ (by omega) hhigh]
      omega
    · rw [x1, x2, if_neg hin, setRemove_absent _ _ hin]
      omega

/-- C15 (as amended) at a late state of a level-1 session with two pellets left. -/
theorem tick_pellets_witness :
    twoPellets.food.Nodup ∧
    ((∀ q, q ∈ (updateFrame twoPellets listPQ).food → q ∈ twoPellets.food) ∧
    (updateFrame twoPellets listPQ).food =
      setRemove twoPellets.food
        ((preCollision twoPellets listPQ).playerX, (preCollision twoPellets listPQ).playerY) ∧
    ((preCollision twoPellets listPQ).playerX, (preCollision twoPellets listPQ).playerY) ∉
      (updateFrame twoPellets listPQ).food ∧
    (((preCollision twoPellets listPQ).playerX, (preCollision twoPellets listPQ).playerY) ∉
        twoPellets.food →
      (updateFrame twoPellets listPQ).food = twoPellets.food ∧
      (updateFrame twoPellets listPQ).score = twoPellets.score) ∧
    (((preCollision twoPellets listPQ).playerX, (preCollision twoPellets listPQ).playerY) ∈
        twoPellets.food →
      (updateFrame twoPellets listPQ).food.length + 1 = twoPellets.food.length ∧
      (updateFrame twoPellets listPQ).score = wrapInt (twoPellets.score + 10)) ∧
    (-2147483648 ≤ twoPellets.score → twoPellets.score + 10 ≤ 2147483647 →
      (updateFrame twoPellets listPQ).score =
        twoPellets.score +
          10 * ((twoPellets.food.length : Int) -
            ((updateFrame twoPellets listPQ).food.length : Int)))) :=
  ⟨by decide, tick_pellets twoPellets listPQ (by decide)⟩

theorem initFood_congr (a b : MainWindow) (hm : a.maze = b.maze) (hr : a.rows = b.rows)
    (hc : a.cols = b.cols) (hx : a.playerX = b.playerX) (hy : a.playerY = b.playerY) :
    (initFood a).food = (initFood b).food := by
  unfold initFood foodRow
  simp only [hm, hr, hc, hx, hy]

theorem levelBoard_invalid (w : MainWindow) (level : Int)
    (h : level ≤ 0 ∨
      level > ((if w.levels.isEmpty then setupLevels w else w).levels.length : Int)) :
    (levelBoard w level).maze = (levelBoard w 1).maze := by
  have hw : currentWalls
      { (if w.levels.isEmpty then setupLevels w else w) with currentLevel := level } level =
      currentWalls { (if w.levels.isEmpty then setupLevels w else w) with currentLevel := 1 } 1 := by
    unfold currentWalls clampLevel
    show ((if w.levels.isEmpty then setupLevels w else w).levels).getD
        ((if level ≤ 0 ∨
            level > (((if w.levels.isEmpty then setupLevels w else w).levels).length : Int)
          then 1 else level) - 1).toNat [] =
      ((if w.levels.isEmpty then setupLevels w else w).levels).getD
        ((if (1 : Int) ≤ 0 ∨
            (1 : Int) > (((if w.levels.isEmpty then setupLevels w else w).levels).length : Int)
          then (1 : Int) else (1 : Int)) - 1).toNat []
    rw [if_pos h, ite_self]
  unfold levelBoard initMaze
  simp only [hw]

theorem startGame_invalid (w : MainWindow) (level : Int) (nameInput : String)
    (h : level ≤ 0 ∨
      level > ((if w.levels.isEmpty then setupLevels w else w).levels.length : Int)) :
    (startGame w level nameInput).maze = (startGame w 1 nameInput).maze ∧
    (startGame w level nameInput).food = (startGame w 1 nameInput).food ∧
    (startGame w level nameInput).currentLevel = level ∧
    ((level ≤ 0 ∨ 4 < level) → (startGame w level nameInput).enemies = []) := by
  obtain ⟨_, _, a3, _, _, a6, a7⟩ := startGame_board w level nameInput
  obtain ⟨_, _, b3, _, _, _, b7⟩ := startGame_board w 1 nameInput
  have hm := levelBoard_invalid w level h
  refine ⟨?_, ?_, (startGame_fields w level nameInput).2.2.2.2.2.1, ?_⟩
  · rw [a3, b3, hm]
  · rw [a7, b7]
    exact initFood_congr _ _ hm rfl rfl rfl rfl
  · intro hl
    rw [a6]
    have hcl : (initFood (levelBoard w level)).currentLevel = level := rfl
    unfold initEnemies
    simp only [hcl]
    rw [if_neg (by omega), if_neg (by omega), if_neg (by omega), if_neg (by omega)]

theorem init_levels : MainWindow.init.levels = [lvl1, lvl2, lvl3, lvl4] := rfl

theorem init_levels_loaded :
    ((if MainWindow.init.levels.isEmpty then setupLevels MainWindow.init
      else MainWindow.init).levels.length : Int) = 4 := by
  rw [init_levels]
  rfl

/-- C11: `startGame` with a level index outside 1..4, called on the window as the
constructor leaves it, returns (nothing in it can fail) and builds the grid and the pellet
set of level 1, but it leaves `currentLevel` at the index it was given and builds an empty
enemy roster, whereas `startGame(1)` sets `currentLevel` to 1 and builds the three enemies
of level 1.  Shown for every index outside 1..4 and spelled out for the indices 0 and 5. -/
theorem startGame_invalid_index :
    (∀ (level : Int) (nameInput : String), level ≤ 0 ∨ 4 < level →
      (startGame MainWindow.init level nameInput).maze =
        (startGame MainWindow.init 1 nameInput).maze ∧
      (startGame MainWindow.init level nameInput).food =
        (startGame MainWindow.init 1 nameInput).food ∧
      (startGame MainWindow.init level nameInput).currentLevel = level ∧
      (startGame MainWindow.init level nameInput).enemies = []) ∧
    ((startGame MainWindow.init 0 "").currentLevel = 0 ∧
      (startGame MainWindow.init 0 "").enemies = []) ∧
    ((startGame MainWindow.init 5 "").currentLevel = 5 ∧
      (startGame MainWindow.init 5 "").enemies = []) ∧
    ((startGame MainWindow.init 1 "").currentLevel = 1 ∧
      (startGame MainWindow.init 1 "").enemies =
        [ ⟨1, 23, 1, 0, Color.green, EnemyType.Simple, QRect.null, 1, 0⟩,
          ⟨23, 23, 0, -1, Color.blue, EnemyType.Simple, QRect.null, 1, 1⟩,
          ⟨12, 1, 1, 0, Color.red, EnemyType.Simple, QRect.null, 1, 0⟩ ]) := by
  have hgen : ∀ (level : Int) (nameInput : String), level ≤ 0 ∨ 4 < level →
      (startGame MainWindow.init level nameInput).maze =
        (startGame MainWindow.init 1 nameInput).maze ∧
      (startGame MainWindow.init level nameInput).food =
        (startGame MainWindow.init 1 nameInput).food ∧
      (startGame MainWindow.init level nameInput).currentLevel = level ∧
      (startGame MainWindow.init level nameInput).enemies = [] := by
    intro level nameInput hl
    have h : level ≤ 0 ∨ level >
        ((if MainWindow.init.levels.isEmpty then setupLevels MainWindow.init
          else MainWindow.init).levels.length : Int) := by
      rw [init_levels_loaded]
      omega
    obtain ⟨h1, h2, h3, h4⟩ := startGame_invalid MainWindow.init level nameInput h
    exact ⟨h1, h2, h3, h4 hl⟩
  refine ⟨hgen, ⟨(hgen 0 "" (by omega)).2.2.1, (hgen 0 "" (by omega)).2.2.2⟩,
    ⟨(hgen 5 "" (by omega)).2.2.1, (hgen 5 "" (by omega)).2.2.2⟩,
    (startGame_fields MainWindow.init 1 "").2.2.2.2.2.1, ?_⟩
  rw [(startGame_board MainWindow.init 1 "").2.2.2.2.2.1]
  decide

/-- C16 fails as stated: in a level-1 session the player on `(21, 1)` moves right onto
`(22, 1)`, the cell the red enemy occupies at that moment; the enemies then advance, the
red enemy steps to `(23, 1)`, and the tick ends without a life loss: three lives, the
player on `(22, 1)`, the roster advanced and not rebuilt. -/
theorem no_contact_check_after_move :
    isWalkable besideRed (besideRed.playerX + besideRed.playerDirX)
      (besideRed.playerY + besideRed.playerDirY) = true ∧
    (∃ e ∈ besideRed.enemies, e.x = besideRed.playerX + besideRed.playerDirX ∧
      e.y = besideRed.playerY + besideRed.playerDirY) ∧
    besideRed.lives = 3 ∧
    (updateFrame besideRed listPQ).lives = 3 ∧
    (updateFrame besideRed listPQ).playerX = 22 ∧ (updateFrame besideRed listPQ).playerY = 1 ∧
    (updateFrame besideRed listPQ).enemies =
      [ ⟨12, 23, 1, 0, Color.green, EnemyType.Simple, QRect.null, 1, 1⟩,
        ⟨23, 13, 0, -1, Color.blue, EnemyType.Simple, QRect.null, 1, 0⟩,
        ⟨23, 1, 1, 0, Color.red, EnemyType.Simple, QRect.null, 1, 1⟩ ] := by
  decide!

theorem tickCollides_iff (w : MainWindow) (pq : PQueue) :
    tickCollides w pq = true ↔
      ∃ e ∈ w.enemies,
        (moveEnemy (movePlayer { w with mouthOpen := !w.mouthOpen }) pq e).x =
          (movePlayer { w with mouthOpen := !w.mouthOpen }).playerX ∧
        (moveEnemy (movePlayer { w with mouthOpen := !w.mouthOpen }) pq e).y =
          (movePlayer { w with mouthOpen := !w.mouthOpen }).playerY := by
  obtain ⟨_, _, _, _, p5, p6, p7⟩ := preCollision_board w pq
  unfold tickCollides
  rw [hitsPlayer_iff, p5, p6, p7]
  constructor
  · rintro ⟨e, he, h⟩
    obtain ⟨e0, h0, rfl⟩ := List.mem_map.1 he
    exact ⟨e0, h0, h⟩
  · rintro ⟨e0, h0, h⟩
    exact ⟨_, List.mem_map.2 ⟨e0, h0, rfl⟩, h⟩

/-- C16 (as amended): a tick runs its only contact check after the player's move attempt
and after the enemies have advanced.  The tick resolves a life loss exactly when, at that
point, some advanced enemy stands on the cell the player then occupies; then the player is
reset to `(1, 1)`, the roster is rebuilt from the level template and `lives` drops by 1.
Otherwise `lives` is unchanged, the player stays where the move attempt left it and the
roster is the old one advanced, also when the player moved onto a cell that an enemy
occupied before the enemies advanced. -/
theorem tick_life_loss (w : MainWindow) (pq : PQueue) :
    (tickCollides w pq = true ↔
      ∃ e ∈ w.enemies,
        (moveEnemy (movePlayer { w with mouthOpen := !w.mouthOpen }) pq e).x =
          (movePlayer { w with mouthOpen := !w.mouthOpen }).playerX ∧
        (moveEnemy (movePlayer { w with mouthOpen := !w.mouthOpen }) pq e).y =
          (movePlayer { w with mouthOpen := !w.mouthOpen }).playerY) ∧
    (tickCollides w pq = true →
      (updateFrame w pq).playerX = 1 ∧ (updateFrame w pq).playerY = 1 ∧
      (updateFrame w pq).enemies = (initEnemies w).enemies ∧
      (updateFrame w pq).lives = w.lives - 1) ∧
    (tickCollides w pq = false →
      (updateFrame w pq).playerX = (movePlayer { w with mouthOpen := !w.mouthOpen }).playerX ∧
      (updateFrame w pq).playerY = (movePlayer { w with mouthOpen := !w.mouthOpen }).playerY ∧
      (updateFrame w pq).enemies =
        w.enemies.map (moveEnemy (movePlayer { w with mouthOpen := !w.mouthOpen }) pq) ∧
      (updateFrame w pq).lives = w.lives) := by
  obtain ⟨_, _, _, _, b5, b6, b7⟩ := updateFrame_board w pq
  obtain ⟨l1, _⟩ := updateFrame_lives w pq
  refine ⟨tickCollides_iff w pq, ?_, ?_⟩
  · intro h
    rw [h] at b5 b6 b7 l1
    exact ⟨b6, b7, b5, l1⟩
  · intro h
    rw [h] at b5 b6 b7 l1
    exact ⟨b6, b7, b5, l1⟩

theorem updateFrame_pending (w : MainWindow) (pq : PQueue) :
    (updateFrame w pq).pending =
      (w.pending ++ (if tickCollides w pq = true ∧ w.lives - 1 ≤ 0 then [Callback.gameOver] else [])) ++
        (if (updateFrame w pq).food.isEmpty then [Callback.win] else []) := by
  obtain ⟨p1, _, p3, _⟩ := preCollision_frame w pq
  obtain ⟨_, _, c3, _⟩ := checkCollisions_lives (preCollision w pq)
  have hc : (checkCollisions (preCollision w pq)).pending =
      w.pending ++ (if tickCollides w pq = true ∧ w.lives - 1 ≤ 0 then [Callback.gameOver] else []) := by
    rw [c3, p1, p3]
    unfold tickCollides
    by_cases hh : hitsPlayer (preCollision w pq) = true ∧ w.lives - 1 ≤ 0
    · rw [if_pos hh, if_pos hh]
    · rw [if_neg hh, if_neg hh, List.append_nil]
  rw [updateFrame_eq]
  by_cases he : (checkCollisions (preCollision w pq)).food.isEmpty = true
  · rw [if_pos he]
    show (checkCollisions (preCollision w pq)).pending ++ [Callback.win] =
      _ ++ (if (checkCollisions (preCollision w pq)).food.isEmpty then [Callback.win] else [])
    rw [if_pos he, hc]
  · rw [if_neg he, if_neg he, List.append_nil]
    exact hc

/-- C17: a tick can trigger both terminal outcomes.  Whenever a tick resolves a collision
that takes the last life and leaves the pellet set empty, `updateFrame` schedules
`handleGameOver` (inside `checkCollisions`) and then `handleWin` as well.  In the level-1
state with one life and the last pellet on `(23, 1)` under the waiting red enemy, the
player steps onto that cell: the pellet is eaten, the collision takes the last life, the
timer stops and both callbacks are scheduled; when they run, the score is written to the
leaderboard twice. -/
theorem win_and_game_over_same_tick :
    (∀ (w : MainWindow) (pq : PQueue), tickCollides w pq = true → w.lives ≤ 1 →
      (updateFrame w pq).food = [] →
      (updateFrame w pq).pending = w.pending ++ [Callback.gameOver, Callback.win]) ∧
    (lastPellet.timerActive = true ∧ lastPellet.lives = 1 ∧ lastPellet.food = [(23, 1)] ∧
      lastPellet.pending = []) ∧
    ((updateFrame lastPellet listPQ).food = [] ∧ (updateFrame lastPellet listPQ).lives = 0 ∧
      (updateFrame lastPellet listPQ).score = 3530 ∧
      (updateFrame lastPellet listPQ).timerActive = false ∧
      (updateFrame lastPellet listPQ).pending = [Callback.gameOver, Callback.win]) ∧
    ((firePending (updateFrame lastPellet listPQ) 1 "").pending = [Callback.win] ∧
      (firePending (firePending (updateFrame lastPellet listPQ) 1 "") 1 "").pending = [] ∧
      (firePending (firePending (updateFrame lastPellet listPQ) 1 "") 1 "").leaderboardFile =
        "Player,3530\nPlayer,3530\n") := by
  refine ⟨?_, by decide!, by decide!, by decide!⟩
  intro w pq hc hl hf
  have h := updateFrame_pending w pq
  rw [if_pos ⟨hc, by omega⟩, hf] at h
  rw [h, List.append_assoc]
  rfl

theorem readLines_line (l rest cur : List Char) (h : '\n' ∉ l) :
    readLines (l ++ '\n' :: rest) cur = (cur ++ l) :: readLines rest [] := by
  induction l generalizing cur with
  | nil =>
    show (if '\n' = '\n' then cur :: readLines rest [] else _) = _
    rw [if_pos rfl, List.append_nil]
  | cons c l ih =>
    have hc : c ≠ '\n' := fun e => h (e ▸ List.mem_cons_self _ _)
    have hl : '\n' ∉ l := fun hm => h (List.mem_cons_of_mem _ hm)
    show (if c = '\n' then _ else readLines (l ++ '\n' :: rest) (cur ++ [c])) = _
    rw [if_neg hc, ih _ hl, List.append_assoc]
    rfl

theorem readLines_fileOf (lines : List (List Char)) (h : ∀ l ∈ lines, '\n' ∉ l) :
    readLines (fileOf lines) [] = lines := by
  induction lines with
  | nil => rfl
  | cons l ls ih =>
    have h1 : '\n' ∉ l := h l (List.mem_cons_self _ _)
    have h2 : ∀ l' ∈ ls, '\n' ∉ l' := fun l' hl' => h l' (List.mem_cons_of_mem _ hl')
    have hf : fileOf (l :: ls) = l ++ '\n' :: fileOf ls := by
      unfold fileOf
      rw [List.flatMap_cons, List.append_assoc]
      rfl
    rw [hf, readLines_line l _ [] h1, ih h2]
    rfl

theorem textMode_append (a b : List Char) : textMode (a ++ b) = textMode a ++ textMode b := by
  unfold textMode
  exact List.filter_append _ _

theorem textMode_fileOf (lines : List (List Char)) :
    textMode (fileOf lines) = fileOf (lines.map textMode) := by
  induction lines with
  | nil => rfl
  | cons l ls ih =>
    unfold fileOf at ih ⊢
    rw [List.flatMap_cons, List.map_cons, List.flatMap_cons, textMode_append, textMode_append, ih]
    rfl

theorem textMode_keeps (l : List Char) (c : Char) (h : c ∉ l) : c ∉ textMode l := by
  unfold textMode
  exact fun hm => h (List.mem_filter.1 hm).1

theorem textMode_id (l : List Char) (h : '\r' ∉ l) : textMode l = l := by
  unfold textMode
  rw [List.filter_eq_self]
  intro c hc
  have : c ≠ '\r' := fun e => h (e ▸ hc)
  simpa using this

theorem split_none (sep : Char) (s cur : List Char) (h : sep ∉ s) :
    split sep s cur = [cur ++ s] := by
  induction s generalizing cur with
  | nil => rw [List.append_nil]; rfl
  | cons c s ih =>
    have hc : c ≠ sep := fun e => h (e ▸ List.mem_cons_self _ _)
    have hs : sep ∉ s := fun hm => h (List.mem_cons_of_mem _ hm)
    show (if c = sep then _ else split sep s (cur ++ [c])) = _
    rw [if_neg hc, ih _ hs, List.append_assoc]
    rfl

theorem split_length (sep : Char) (s cur : List Char) :
    (split sep s cur).length = s.count sep + 1 := by
  induction s generalizing cur with
  | nil => rfl
  | cons c s ih =>
    show (if c = sep then cur :: split sep s [] else split sep s (cur ++ [c])).length = _
    by_cases hc : c = sep
    · rw [if_pos hc, List.length_cons, ih, hc, List.count_cons_self]
    · rw [if_neg hc, ih, List.count_cons_of_ne (fun e => hc e.symm)]

theorem split_one (sep : Char) (s cur : List Char) (h : s.count sep = 1) :
    split sep s cur =
      [cur ++ s.takeWhile (fun c => c != sep), (s.dropWhile (fun c => c != sep)).drop 1] := by
  induction s generalizing cur with
  | nil => simp at h
  | cons c s ih =>
    show (if c = sep then cur :: split sep s [] else split sep s (cur ++ [c])) = _
    by_cases hc : c = sep
    · rw [if_pos hc]
      rw [hc, List.count_cons_self] at h
      have hs : sep ∉ s := List.count_eq_zero.1 (by omega)
      rw [split_none sep s [] hs]
      have hb : (c != sep) = false := by simp [hc]
      rw [List.takeWhile_cons, List.dropWhile_cons, hb]
      simp
    · rw [if_neg hc]
      rw [List.count_cons_of_ne (fun e => hc e.symm)] at h
      have hb : (c != sep) = true := by simp [hc]
      rw [ih _ h, List.takeWhile_cons, List.dropWhile_cons, hb]
      simp

theorem appendLine_eq (list : List (String × Int)) (line : List Char) :
    appendLine list line = list ++ (lineEntry line).toList := by
  unfold appendLine lineEntry
  simp only
  by_cases h : line.count ',' = 1
  · rw [if_pos (by rw [split_length, h]), if_pos h, split_one ',' line [] h]
    rfl
  · rw [if_neg (by rw [split_length]; omega), if_neg h]
    exact (List.append_nil _).symm

theorem foldl_appendLine (lines : List (List Char)) (list : List (String × Int)) :
    lines.foldl appendLine list = list ++ lines.filterMap lineEntry := by
  induction lines generalizing list with
  | nil => exact (List.append_nil _).symm
  | cons l ls ih =>
    rw [List.foldl_cons, ih, appendLine_eq, List.append_assoc]
    congr 1
    cases h : lineEntry l with
    | none => rw [List.filterMap_cons_none h]; rfl
    | some e => rw [List.filterMap_cons_some h]; rfl

theorem loadLeaderboard_lines (w : MainWindow) (sorter : Sorter) (lines : List (List Char))
    (hfile : w.leaderboardFile.data = fileOf lines) (hlines : ∀ l ∈ lines, '\n' ∉ l) :
    loadLeaderboard w sorter = sorter.sort ((lines.map textMode).filterMap lineEntry) := by
  unfold loadLeaderboard
  simp only
  rw [hfile, textMode_fileOf, readLines_fileOf, foldl_appendLine, List.nil_append]
  intro l hl
  obtain ⟨l0, h0, rfl⟩ := List.mem_map.1 hl
  exact textMode_keeps _ _ (hlines l0 h0)

theorem digitValue_digitChar : ∀ k, k < 10 → digitValue (Nat.digitChar k) = some k := by
  decide

theorem digitChar_plain : ∀ k, k < 10 →
    isSpace (Nat.digitChar k) = false ∧ Nat.digitChar k ≠ '-' ∧ Nat.digitChar k ≠ '+' ∧
      Nat.digitChar k ≠ ',' ∧ Nat.digitChar k ≠ '\n' ∧ Nat.digitChar k ≠ '\r' := by
  decide

theorem parseDigits_toDigitsCore (fuel : Nat) :
    ∀ (n : Nat) (ds : List Char), n < fuel →
      parseDigits (Nat.toDigitsCore 10 fuel n ds) 0 = parseDigits ds n := by
  induction fuel with
  | zero => intro n ds h; omega
  | succ fuel ih =>
    intro n ds h
    have hd : digitValue (Nat.digitChar (n % 10)) = some (n % 10) :=
      digitValue_digitChar _ (Nat.mod_lt _ (by decide))
    have hstep : ∀ acc, parseDigits (Nat.digitChar (n % 10) :: ds) acc =
        parseDigits ds (acc * 10 + n % 10) := by
      intro acc
      show (match digitValue (Nat.digitChar (n % 10)) with
        | some d => parseDigits ds (acc * 10 + d)
        | none => none) = _
      rw [hd]
    show parseDigits (if n / 10 = 0 then Nat.digitChar (n % 10) :: ds
      else Nat.toDigitsCore 10 fuel (n / 10) (Nat.digitChar (n % 10) :: ds)) 0 = _
    by_cases h0 : n / 10 = 0
    · rw [if_pos h0, hstep]
      congr 1
      omega
    · rw [if_neg h0, ih (n / 10) _ (by omega), hstep]
      congr 1
      omega

theorem parseDigits_toDigits (n : Nat) : parseDigits (Nat.toDigits 10 n) 0 = some n :=
  parseDigits_toDigitsCore (n + 1) n [] (by omega)

theorem toDigitsCore_chars (fuel : Nat) :
    ∀ (n : Nat) (ds : List Char), ∀ c ∈ Nat.toDigitsCore 10 fuel n ds, c ∈ ds ∨ isDigitChar c := by
  induction fuel with
  | zero => intro n ds c hc; exact Or.inl hc
  | succ fuel ih =>
    intro n ds c hc
    have hc' : c ∈ (if n / 10 = 0 then Nat.digitChar (n % 10) :: ds
      else Nat.toDigitsCore 10 fuel (n / 10) (Nat.digitChar (n % 10) :: ds)) := hc
    have hhead : ∀ c, c ∈ Nat.digitChar (n % 10) :: ds → c ∈ ds ∨ isDigitChar c := by
      intro c hm
      rcases List.mem_cons.1 hm with h | h
      · exact Or.inr ⟨n % 10, Nat.mod_lt _ (by decide), h⟩
      · exact Or.inl h
    by_cases h0 : n / 10 = 0
    · rw [if_pos h0] at hc'
      exact hhead c hc'
    · rw [if_neg h0] at hc'
      rcases ih _ _ c hc' with h | h
      · exact hhead c h
      · exact Or.inr h

theorem toDigits_chars (n : Nat) : ∀ c ∈ Nat.toDigits 10 n, isDigitChar c := by
  intro c hc
  rcases toDigitsCore_chars (n + 1) n [] c hc with h | h
  · cases h
  · exact h

theorem toDigits_ne_nil (n : Nat) : Nat.toDigits 10 n ≠ [] := by
  have h := parseDigits_toDigits n
  intro he
  have hlen : (Nat.toDigitsCore 10 (n + 1) n []).length = 0 := by
    show (Nat.toDigits 10 n).length = 0
    rw [he]; rfl
  have hpos : 0 < (Nat.toDigitsCore 10 (n + 1) n []).length := by
    show 0 < (if n / 10 = 0 then Nat.digitChar (n % 10) :: []
      else Nat.toDigitsCore 10 n (n / 10) (Nat.digitChar (n % 10) :: [])).length
    by_cases h0 : n / 10 = 0
    · rw [if_pos h0]; exact Nat.succ_pos _
    · rw [if_neg h0, Nat.toDigitsCore_lens_eq]; exact Nat.succ_pos _
  omega

theorem dropWhile_none {p : Char → Bool} (l : List Char) (h : ∀ c ∈ l, p c = false) :
    l.dropWhile p = l := by
  cases l with
  | nil => rfl
  | cons c l => rw [List.dropWhile_cons, h c (List.mem_cons_self _ _)]; rfl

theorem trimmed_plain (l : List Char) (h : ∀ c ∈ l, isSpace c = false) : trimmed l = l := by
  unfold trimmed
  rw [dropWhile_none l h, dropWhile_none l.reverse (fun c hc => h c (List.mem_reverse.1 hc)),
    List.reverse_reverse]

theorem parseInt_toDigits (n : Nat) :
    parseInt (Nat.toDigits 10 n) = some (n : Int) ∧
      parseInt ('-' :: Nat.toDigits 10 n) = some (-(n : Int)) := by
  have hp := parseDigits_toDigits n
  have hne := toDigits_ne_nil n
  have hch := toDigits_chars n
  constructor
  · cases hl : Nat.toDigits 10 n with
    | nil => exact absurd hl hne
    | cons c cs =>
      obtain ⟨k, hk, hck⟩ := hch c (by rw [hl]; exact List.mem_cons_self _ _)
      obtain ⟨_, h1, h2, _⟩ := digitChar_plain k hk
      rw [← hck] at h1 h2
      unfold parseInt
      simp only []
      rw [if_neg h1, if_neg h2, ← hl, hp]
      rfl
  · have he : (Nat.toDigits 10 n).isEmpty = false := by
      cases hl : Nat.toDigits 10 n with
      | nil => exact absurd hl hne
      | cons c cs => rfl
    unfold parseInt
    simp only []
    rw [if_pos trivial, he, hp]
    rfl

theorem toString_chars (n : Int) :
    ∀ c ∈ (toString n).data, isSpace c = false ∧ c ≠ ',' ∧ c ≠ '\n' ∧ c ≠ '\r' := by
  have hd : ∀ m : Nat, ∀ c ∈ Nat.toDigits 10 m,
      isSpace c = false ∧ c ≠ ',' ∧ c ≠ '\n' ∧ c ≠ '\r' := by
    intro m c hc
    obtain ⟨k, hk, rfl⟩ := toDigits_chars m c hc
    obtain ⟨h1, _, _, h4, h5, h6⟩ := digitChar_plain k hk
    exact ⟨h1, h4, h5, h6⟩
  cases n with
  | ofNat m => exact hd m
  | negSucc m =>
    intro c hc
    have hc' : c ∈ '-' :: Nat.toDigits 10 (m + 1) := hc
    rcases List.mem_cons.1 hc' with h | h
    · rw [h]; decide
    · exact hd _ c h

theorem toInt_toString (n : Int) (hlo : -2147483648 ≤ n) (hhi : n ≤ 2147483647) :
    toInt (toString n).data = n := by
  have htrim : trimmed (toString n).data = (toString n).data :=
    trimmed_plain _ (fun c hc => (toString_chars n c hc).1)
  have hparse : parseInt (toString n).data = some n := by
    cases n with
    | ofNat m => exact (parseInt_toDigits m).1
    | negSucc m =>
      show parseInt ('-' :: Nat.toDigits 10 (m + 1)) = _
      rw [(parseInt_toDigits (m + 1)).2]
      rfl
  unfold toInt
  rw [htrim, hparse]
  show (if -2147483648 ≤ n ∧ n ≤ 2147483647 then n else 0) = n
  rw [if_pos ⟨hlo, hhi⟩]

theorem takeWhile_stop (a rest : List Char) (sep : Char) (h : sep ∉ a) :
    (a ++ sep :: rest).takeWhile (fun c => c != sep) = a ∧
      (a ++ sep :: rest).dropWhile (fun c => c != sep) = sep :: rest := by
  induction a with
  | nil =>
    have hb : (sep != sep) = false := by simp
    constructor
    · show (sep :: rest).takeWhile _ = _
      rw [List.takeWhile_cons, hb]; rfl
    · show (sep :: rest).dropWhile _ = _
      rw [List.dropWhile_cons, hb]; rfl
  | cons c a ih =>
    have hc : c ≠ sep := fun e => h (e ▸ List.mem_cons_self _ _)
    have ha : sep ∉ a := fun hm => h (List.mem_cons_of_mem _ hm)
    have hb : (c != sep) = true := by simp [hc]
    obtain ⟨i1, i2⟩ := ih ha
    constructor
    · show (c :: (a ++ sep :: rest)).takeWhile _ = _
      rw [List.takeWhile_cons, hb, if_pos rfl, i1]
    · show (c :: (a ++ sep :: rest)).dropWhile _ = _
      rw [List.dropWhile_cons, hb, if_pos rfl, i2]

theorem lineEntry_one (name field : List Char) (hn : ',' ∉ name) (hf : ',' ∉ field) :
    lineEntry (name ++ ',' :: field) = some (String.mk name, toInt field) := by
  have hcount : (name ++ ',' :: field).count ',' = 1 := by
    rw [List.count_append, List.count_cons_self, List.count_eq_zero.2 hn,
      List.count_eq_zero.2 hf]
  obtain ⟨t1, t2⟩ := takeWhile_stop name field ',' hn
  unfold lineEntry
  rw [if_pos hcount, t1, t2]
  rfl

theorem lineEntry_entryLine (e : String × Int) (hn : ',' ∉ e.1.data)
    (hlo : -2147483648 ≤ e.2) (hhi : e.2 ≤ 2147483647) :
    lineEntry (entryLine e) = some e := by
  unfold entryLine
  rw [lineEntry_one _ _ hn (fun h => (toString_chars e.2 _ h).2.1 rfl),
    toInt_toString e.2 hlo hhi]

theorem saveAll_file (entries : List (String × Int)) (w : MainWindow) :
    (saveAll w entries).leaderboardFile.data =
      w.leaderboardFile.data ++ fileOf (entries.map entryLine) := by
  induction entries generalizing w with
  | nil => exact (List.append_nil _).symm
  | cons e es ih =>
    show (saveAll (saveScore w e.1 e.2) es).leaderboardFile.data = _
    rw [ih]
    show (w.leaderboardFile ++ e.1 ++ "," ++ toString e.2 ++ "\n").data ++ _ = _
    rw [String.data_append, String.data_append, String.data_append, String.data_append]
    unfold fileOf entryLine
    rw [List.map_cons, List.flatMap_cons]
    simp only [List.append_assoc]
    rfl

theorem loadLeaderboard_saveAll (sorter : Sorter) (w : MainWindow)
    (entries : List (String × Int)) (hempty : w.leaderboardFile = "")
    (hnames : ∀ e ∈ entries, ∀ c ∈ e.1.data, c ≠ ',' ∧ c ≠ '\n' ∧ c ≠ '\r')
    (hscores : ∀ e ∈ entries, -2147483648 ≤ e.2 ∧ e.2 ≤ 2147483647) :
    loadLeaderboard (saveAll w entries) sorter = sorter.sort entries := by
  have hfile : (saveAll w entries).leaderboardFile.data = fileOf (entries.map entryLine) := by
    rw [saveAll_file, hempty]
    rfl
  have hchar : ∀ e ∈ entries, ∀ c ∈ entryLine e, c ≠ '\n' ∧ c ≠ '\r' := by
    intro e he c hc
    unfold entryLine at hc
    rcases List.mem_append.1 hc with h | h
    · exact (hnames e he c h).2
    · rcases List.mem_cons.1 h with h | h
      · rw [h]; decide
      · exact (toString_chars e.2 c h).2.2
  have hlines : ∀ l ∈ entries.map entryLine, '\n' ∉ l := by
    intro l hl hm
    obtain ⟨e, he, rfl⟩ := List.mem_map.1 hl
    exact (hchar e he _ hm).1 rfl
  rw [loadLeaderboard_lines _ sorter _ hfile hlines]
  congr 1
  rw [List.map_map, List.filterMap_map]
  have hall : ∀ e ∈ entries, (lineEntry ∘ textMode ∘ entryLine) e = some e := by
    intro e he
    show lineEntry (textMode (entryLine e)) = some e
    rw [textMode_id _ (fun hm => (hchar e he _ hm).2 rfl)]
    exact lineEntry_entryLine e (fun hm => (hnames e he _ hm).1 rfl) (hscores e he).1
      (hscores e he).2
  clear hfile hchar hlines hnames hscores hempty
  induction entries with
  | nil => rfl
  | cons e es ih =>
    rw [List.filterMap_cons_some (hall e (List.mem_cons_self _ _)),
      ih (fun e' he' => hall e' (List.mem_cons_of_mem _ he'))]

theorem sorted_unique (l1 l2 : List (String × Int)) (hp : l1.Perm l2)
    (h1 : l1.Pairwise (fun a b => ¬ b.2 > a.2)) (h2 : l2.Pairwise (fun a b => ¬ b.2 > a.2))
    (hnd : (l1.map Prod.snd).Nodup) : l1 = l2 := by
  have hnd2 : (l2.map Prod.snd).Nodup := (hp.map Prod.snd).nodup_iff.1 hnd
  have strict : ∀ l : List (String × Int), l.Pairwise (fun a b => ¬ b.2 > a.2) →
      (l.map Prod.snd).Nodup → l.Pairwise (fun a b => a.2 > b.2) := by
    intro l hs hn
    have hn' : l.Pairwise (fun a b => a.2 ≠ b.2) := List.pairwise_map.1 hn
    exact (hs.and hn').imp (fun h => lt_of_le_of_ne (not_lt.1 h.1) (Ne.symm h.2))
  haveI : IsAntisymm (String × Int) (fun a b => a.2 > b.2) :=
    ⟨fun a b hab hba => absurd hab (not_lt.2 (le_of_lt hba))⟩
  exact List.eq_of_perm_of_sorted hp (strict l1 h1 hnd) (strict l2 h2 hnd2)

/-- C13 fails as stated: the name `Ann,Lee` holds a comma, so the line that
`save("Ann,Lee", 120)` writes splits into three parts and `load()` drops it; the saved
entry is not returned, whatever the sort does. -/
theorem comma_name_lost :
    (saveScore MainWindow.fresh "Ann,Lee" 120).leaderboardFile = "Ann,Lee,120\n" ∧
    loadLeaderboard (saveScore MainWindow.fresh "Ann,Lee" 120) listSorter = [] ∧
    (∀ sorter : Sorter, loadLeaderboard (saveScore MainWindow.fresh "Ann,Lee" 120) sorter = []) := by
  refine ⟨by decide!, by decide!, ?_⟩
  intro sorter
  have h : (readLines (textMode (saveScore MainWindow.fresh "Ann,Lee" 120).leaderboardFile.data)
      []).foldl appendLine [] = [] := by decide!
  unfold loadLeaderboard
  simp only
  rw [h]
  exact (sorter.perm []).eq_nil

/-- C13 (as amended): for every sequence of `save(name, score)` calls on an empty
leaderboard file, with names free of commas, line feeds and carriage returns and scores in
the range of `int`, `load()` returns a rearrangement of exactly the saved entries in which
the scores never increase; when the scores are pairwise different the result is fully
determined (it is the insertion-sorted list).  In particular saving `(Alice, 120)`,
`(Bob, 90)`, `(Carl, 300)` and loading yields `[(Carl, 300), (Alice, 120), (Bob, 90)]`. -/
theorem leaderboard_round_trip (sorter : Sorter) (w : MainWindow)
    (entries : List (String × Int)) (hempty : w.leaderboardFile = "")
    (hnames : ∀ e ∈ entries, ∀ c ∈ e.1.data, c ≠ ',' ∧ c ≠ '\n' ∧ c ≠ '\r')
    (hscores : ∀ e ∈ entries, -2147483648 ≤ e.2 ∧ e.2 ≤ 2147483647) :
    (loadLeaderboard (saveAll w entries) sorter).Perm entries ∧
    (loadLeaderboard (saveAll w entries) sorter).Pairwise (fun a b => a.2 ≥ b.2) ∧
    ((entries.map Prod.snd).Nodup →
      loadLeaderboard (saveAll w entries) sorter =
        entries.insertionSort (fun a b => a.2 ≥ b.2)) ∧
    loadLeaderboard (saveAll w [("Alice", 120), ("Bob", 90), ("Carl", 300)]) sorter =
      [("Carl", 300), ("Alice", 120), ("Bob", 90)] := by
  have key : ∀ es : List (String × Int),
      (∀ e ∈ es, ∀ c ∈ e.1.data, c ≠ ',' ∧ c ≠ '\n' ∧ c ≠ '\r') →
      (∀ e ∈ es, -2147483648 ≤ e.2 ∧ e.2 ≤ 2147483647) →
      (es.map Prod.snd).Nodup →
      loadLeaderboard (saveAll w es) sorter = es.insertionSort (fun a b => a.2 ≥ b.2) := by
    intro es hn hs hnd
    rw [loadLeaderboard_saveAll sorter w es hempty hn hs]
    have hp : (sorter.sort es).Perm (listSorter.sort es) :=
      (sorter.perm es).trans (listSorter.perm es).symm
    have hnd1 : ((sorter.sort es).map Prod.snd).Nodup :=
      ((sorter.perm es).map Prod.snd).nodup_iff.2 hnd
    exact sorted_unique _ _ hp (sorter.sorted es) (listSorter.sorted es) hnd1
  have hload := loadLeaderboard_saveAll sorter w entries hempty hnames hscores
  refine ⟨?_, ?_, key entries hnames hscores, ?_⟩
  · rw [hload]
    exact sorter.perm entries
  · rw [hload]
    exact (sorter.sorted entries).imp (fun h => not_lt.1 h)
  · rw [key [("Alice", 120), ("Bob", 90), ("Carl", 300)] (by decide) (by decide) (by decide)]
    decide

/-- C13 (as amended) for the three saves of the example, on the fresh window, with the
insertion sort. -/
theorem leaderboard_round_trip_witness :
    MainWindow.fresh.leaderboardFile = "" ∧
    (∀ e ∈ [("Alice", (120 : Int)), ("Bob", 90), ("Carl", 300)], ∀ c ∈ e.1.data,
      c ≠ ',' ∧ c ≠ '\n' ∧ c ≠ '\r') ∧
    (∀ e ∈ [("Alice", (120 : Int)), ("Bob", 90), ("Carl", 300)],
      -2147483648 ≤ e.2 ∧ e.2 ≤ 2147483647) ∧
    ((loadLeaderboard (saveAll MainWindow.fresh [("Alice", 120), ("Bob", 90), ("Carl", 300)])
        listSorter).Perm [("Alice", 120), ("Bob", 90), ("Carl", 300)] ∧
    (loadLeaderboard (saveAll MainWindow.fresh [("Alice", 120), ("Bob", 90), ("Carl", 300)])
        listSorter).Pairwise (fun a b => a.2 ≥ b.2) ∧
    ((([("Alice", 120), ("Bob", 90), ("Carl", 300)] : List (String × Int)).map Prod.snd).Nodup →
      loadLeaderboard (saveAll MainWindow.fresh [("Alice", 120), ("Bob", 90), ("Carl", 300)])
          listSorter =
        ([("Alice", 120), ("Bob", 90), ("Carl", 300)] : List (String × Int)).insertionSort
          (fun a b => a.2 ≥ b.2)) ∧
    loadLeaderboard (saveAll MainWindow.fresh [("Alice", 120), ("Bob", 90), ("Carl", 300)])
        listSorter =
      [("Carl", 300), ("Alice", 120), ("Bob", 90)]) :=
  ⟨rfl, by decide, by decide,
    leaderboard_round_trip listSorter MainWindow.fresh [("Alice", 120), ("Bob", 90), ("Carl", 300)]
      rfl (by decide) (by decide)⟩

/-- C14 fails as stated: in the file `Alice,120 / Bob,abc / nocomma` the line `Bob,abc`,
whose field after the comma is no integer, is not skipped: `load()` returns the entry
`(Bob, 0)` for it, whatever the sort does. -/
theorem non_integer_score_loaded :
    loadLeaderboard mixedBoard listSorter = [("Alice", 120), ("Bob", 0)] ∧
    parseInt (trimmed "abc".data) = none ∧
    (∀ sorter : Sorter, loadLeaderboard mixedBoard sorter = [("Alice", 120), ("Bob", 0)]) := by
  refine ⟨by decide!, by decide!, ?_⟩
  intro sorter
  have h : (readLines (textMode mixedBoard.leaderboardFile.data) []).foldl appendLine [] =
      [("Alice", 120), ("Bob", 0)] := by decide!
  have hsame : loadLeaderboard mixedBoard sorter = sorter.sort [("Alice", 120), ("Bob", 0)] := by
    unfold loadLeaderboard
    simp only
    rw [h]
  rw [hsame]
  have hp : (sorter.sort [("Alice", 120), ("Bob", 0)]).Perm
      (listSorter.sort [("Alice", 120), ("Bob", 0)]) :=
    (sorter.perm _).trans (listSorter.perm _).symm
  have hu := sorted_unique _ _ hp (sorter.sorted _) (listSorter.sorted _)
    (((sorter.perm _).map Prod.snd).nodup_iff.2 (by decide))
  rw [hu]
  decide

/-- C14 (as amended): for every list of leaderboard lines, `load()` returns a rearrangement
of the entries that the lines yield one by one (carriage returns are dropped on reading),
so no line keeps the others from being loaded.  A line that does not hold exactly one
comma (none, or more than one) yields no entry.  A line with exactly one comma yields
one entry: the text before the comma with `toInt` of the text after it; that is the score
itself for a line `name,score` with a decimal score in the range of `int`, and 0 when the
text after the comma is no integer. -/
theorem load_line_by_line (sorter : Sorter) (w : MainWindow) (lines : List (List Char))
    (hfile : w.leaderboardFile.data = fileOf lines) (hlines : ∀ l ∈ lines, '\n' ∉ l) :
    (loadLeaderboard w sorter).Perm ((lines.map textMode).filterMap lineEntry) ∧
    (∀ line : List Char, line.count ',' ≠ 1 → lineEntry line = none ∧ appendLine [] line = []) ∧
    (∀ line : List Char, line.count ',' = 1 →
      appendLine [] line =
        [(String.mk (line.takeWhile (fun c => c != ',')),
          toInt ((line.dropWhile (fun c => c != ',')).drop 1))]) ∧
    (∀ (name : String) (n : Int), ',' ∉ name.data → -2147483648 ≤ n → n ≤ 2147483647 →
      appendLine [] (name.data ++ ',' :: (toString n).data) = [(name, n)]) ∧
    (∀ name field : List Char, ',' ∉ name → ',' ∉ field → parseInt (trimmed field) = none →
      appendLine [] (name ++ ',' :: field) = [(String.mk name, 0)]) := by
  refine ⟨?_, ?_, ?_, ?_, ?_⟩
  · rw [loadLeaderboard_lines w sorter lines hfile hlines]
    exact sorter.perm _
  · intro line h
    have hl : lineEntry line = none := by
      unfold lineEntry
      rw [if_neg h]
    rw [appendLine_eq, hl]
    exact ⟨rfl, rfl⟩
  · intro line h
    have hl : lineEntry line = some (String.mk (line.takeWhile (fun c => c != ',')),
        toInt ((line.dropWhile (fun c => c != ',')).drop 1)) := by
      unfold lineEntry
      rw [if_pos h]
    rw [appendLine_eq, hl]
    rfl
  · intro name n hn hlo hhi
    rw [appendLine_eq]
    have h := lineEntry_entryLine (name, n) hn hlo hhi
    unfold entryLine at h
    rw [h]
    rfl
  · intro name field hn hf hp
    rw [appendLine_eq, lineEntry_one name field hn hf]
    unfold toInt
    rw [hp]
    rfl

/-- C14 (as amended) for the file `Alice,120 / Bob,abc / nocomma`, with the insertion sort. -/
theorem load_line_by_line_witness :
    mixedBoard.leaderboardFile.data = fileOf ["Alice,120".data, "Bob,abc".data, "nocomma".data] ∧
    (∀ l ∈ ["Alice,120".data, "Bob,abc".data, "nocomma".data], '\n' ∉ l) ∧
    ((loadLeaderboard mixedBoard listSorter).Perm
      ((["Alice,120".data, "Bob,abc".data, "nocomma".data].map textMode).filterMap lineEntry) ∧
    (∀ line : List Char, line.count ',' ≠ 1 → lineEntry line = none ∧ appendLine [] line = []) ∧
    (∀ line : List Char, line.count ',' = 1 →
      appendLine [] line =
        [(String.mk (line.takeWhile (fun c => c != ',')),
          toInt ((line.dropWhile (fun c => c != ',')).drop 1))]) ∧
    (∀ (name : String) (n : Int), ',' ∉ name.data → -2147483648 ≤ n → n ≤ 2147483647 →
      appendLine [] (name.data ++ ',' :: (toString n).data) = [(name, n)]) ∧
    (∀ name field : List Char, ',' ∉ name → ',' ∉ field → parseInt (trimmed field) = none →
      appendLine [] (name ++ ',' :: field) = [(String.mk name, 0)])) :=
  ⟨by decide, by decide,
    load_line_by_line listSorter mixedBoard ["Alice,120".data, "Bob,abc".data, "nocomma".data]
      (by decide) (by decide)⟩

theorem aStarNextStep_step (w : MainWindow) (pq : PQueue) (sx sy tx ty : Int) (n : Int × Int)
    (hsize : w.rows * w.cols + 2 < 2147483647)
    (h : aStarNextStep w pq sx sy tx ty = some n) :
    isWalkable w n.1 n.2 = true ∧ adjacent (sx, sy) n := by
  have hne : (sx, sy) ≠ (tx, ty) := by
    intro he
    simp only [Prod.mk.injEq] at he
    obtain ⟨h1, h2⟩ := he
    subst h1
    subst h2
    rw [(aStarSearch_same w pq sx sy).2] at h
    cases h
  obtain ⟨r, _, hr, hpost⟩ := aStarSearch_spec w pq sx sy tx ty hsize hne
  rw [h] at hr
  rw [← hr] at hpost
  exact ⟨hpost.1, hpost.2.1⟩

theorem unitAxis_adjacent (x y dx dy : Int) (h : unitAxis dx dy) :
    adjacent (x, y) (x + dx, y + dy) := by
  unfold adjacent heuristic
  unfold unitAxis at h
  simp only
  omega

theorem adjacent_unitAxis (a n : Int × Int) (h : adjacent a n) :
    unitAxis (n.1 - a.1) (n.2 - a.2) := by
  unfold adjacent heuristic at h
  unfold unitAxis
  omega

theorem unitAxis_neg_left (dx dy : Int) (h : unitAxis dx dy) (hdx : dx ≠ 0) :
    unitAxis (-dx) dy := by
  unfold unitAxis at h ⊢
  omega

theorem unitAxis_neg_right (dx dy : Int) (h : unitAxis dx dy) (hdx : dx = 0) :
    unitAxis dx (-dy) := by
  unfold unitAxis at h ⊢
  omega

theorem unitAxis_neg (dx dy : Int) (h : unitAxis dx dy) : unitAxis (-dx) (-dy) := by
  unfold unitAxis at h ⊢
  omega

theorem moveEnemy_unitStep (w : MainWindow) (pq : PQueue) (e : Enemy)
    (hsize : w.rows * w.cols + 2 < 2147483647) (hu : unitAxis e.dx e.dy) :
    unitStep w e (moveEnemy w pq e) := by
  unfold unitStep
  by_cases hc : 0 < e.cooldown
  · rw [moveEnemy_waiting w pq e hc]
    exact ⟨Or.inl ⟨rfl, rfl⟩, hu⟩
  · have hstraight : ∀ e' : Enemy,
        e' = { e with x := e.x + e.dx, y := e.y + e.dy, cooldown := e.moveInterval } →
        isWalkable w (e.x + e.dx) (e.y + e.dy) = true →
        ((e'.x = e.x ∧ e'.y = e.y) ∨
          (adjacent (e.x, e.y) (e'.x, e'.y) ∧ isWalkable w e'.x e'.y = true)) ∧
        unitAxis e'.dx e'.dy := by
      intro e' he' hw
      rw [he']
      exact ⟨Or.inr ⟨unitAxis_adjacent e.x e.y e.dx e.dy hu, hw⟩, hu⟩
    cases ht : e.type with
    | Simple =>
      rw [moveEnemy_simple_ready w pq e ht (by omega)]
      by_cases hw : isWalkable w (e.x + e.dx) (e.y + e.dy) = true
      · rw [if_pos hw]
        exact hstraight _ rfl hw
      · rw [if_neg hw]
        exact ⟨Or.inl ⟨rfl, rfl⟩, unitAxis_neg e.dx e.dy hu⟩
    | Smart =>
      rw [moveEnemy_smart_ready w pq e ht (by omega)]
      split
      · rename_i nx ny hstep
        have hsome : aStarNextStep w pq e.x e.y w.playerX w.playerY = some (nx, ny) := by
          by_cases hin : e.habitat.contains w.playerX w.playerY = true
          · rw [if_pos hin] at hstep
            exact hstep
          · rw [if_neg hin] at hstep
            cases hstep
        obtain ⟨hw, hadj⟩ := aStarNextStep_step w pq e.x e.y w.playerX w.playerY (nx, ny) hsize hsome
        exact ⟨Or.inr ⟨hadj, hw⟩, adjacent_unitAxis (e.x, e.y) (nx, ny) hadj⟩
      · by_cases hw : isWalkable w (e.x + e.dx) (e.y + e.dy) = true
        · rw [if_pos hw]
          exact hstraight _ rfl hw
        · rw [if_neg hw]
          by_cases hdx : e.dx ≠ 0
          · rw [if_pos hdx]
            exact ⟨Or.inl ⟨rfl, rfl⟩, unitAxis_neg_left e.dx e.dy hu hdx⟩
          · rw [if_neg hdx]
            exact ⟨Or.inl ⟨rfl, rfl⟩, unitAxis_neg_right e.dx e.dy hu (not_not.1 hdx)⟩

/-- C22: on every board of fewer than 2^31 - 3 cells, for every player position and every
roster in which each enemy's velocity is one of the four unit axis vectors, `moveEnemies`
replaces each enemy by its advanced self, which stands on the old cell or on a walkable
cell 4-adjacent to it, and whose velocity is again one of the four unit axis vectors; the
grid is left as it was.  Holds for every implementation of the priority queue. -/
theorem moveEnemies_unit_steps (w : MainWindow) (pq : PQueue)
    (hsize : w.rows * w.cols + 2 < 2147483647)
    (hunit : ∀ e ∈ w.enemies, unitAxis e.dx e.dy) :
    (moveEnemies w pq).enemies = w.enemies.map (moveEnemy w pq) ∧
    (moveEnemies w pq).maze = w.maze ∧ (moveEnemies w pq).rows = w.rows ∧
    (moveEnemies w pq).cols = w.cols ∧
    (∀ e ∈ w.enemies,
      (((moveEnemy w pq e).x = e.x ∧ (moveEnemy w pq e).y = e.y) ∨
        (adjacent (e.x, e.y) ((moveEnemy w pq e).x, (moveEnemy w pq e).y) ∧
          isWalkable w (moveEnemy w pq e).x (moveEnemy w pq e).y = true)) ∧
      unitAxis (moveEnemy w pq e).dx (moveEnemy w pq e).dy) ∧
    (∀ e' ∈ (moveEnemies w pq).enemies, unitAxis e'.dx e'.dy) := by
  refine ⟨rfl, rfl, rfl, rfl, ?_, ?_⟩
  · intro e he
    exact moveEnemy_unitStep w pq e hsize (hunit e he)
  · intro e' he'
    obtain ⟨e, he, rfl⟩ := List.mem_map.1 he'
    exact (moveEnemy_unitStep w pq e hsize (hunit e he)).2

/-- C22 at the window as the constructor leaves it (level 1, three enemies). -/
theorem moveEnemies_unit_steps_witness :
    MainWindow.init.rows * MainWindow.init.cols + 2 < 2147483647 ∧
    (∀ e ∈ MainWindow.init.enemies, unitAxis e.dx e.dy) ∧
    ((moveEnemies MainWindow.init listPQ).enemies =
      MainWindow.init.enemies.map (moveEnemy MainWindow.init listPQ) ∧
    (moveEnemies MainWindow.init listPQ).maze = MainWindow.init.maze ∧
    (moveEnemies MainWindow.init listPQ).rows = MainWindow.init.rows ∧
    (moveEnemies MainWindow.init listPQ).cols = MainWindow.init.cols ∧
    (∀ e ∈ MainWindow.init.enemies,
      (((moveEnemy MainWindow.init listPQ e).x = e.x ∧
          (moveEnemy MainWindow.init listPQ e).y = e.y) ∨
        (adjacent (e.x, e.y)
            ((moveEnemy MainWindow.init listPQ e).x, (moveEnemy MainWindow.init listPQ e).y) ∧
          isWalkable MainWindow.init (moveEnemy MainWindow.init listPQ e).x
            (moveEnemy MainWindow.init listPQ e).y = true)) ∧
      unitAxis (moveEnemy MainWindow.init listPQ e).dx (moveEnemy MainWindow.init listPQ e).dy) ∧
    (∀ e' ∈ (moveEnemies MainWindow.init listPQ).enemies, unitAxis e'.dx e'.dy)) :=
  ⟨by decide, by decide,
    moveEnemies_unit_steps MainWindow.init listPQ (by decide) (by decide)⟩

/-- C21: in levels 2 and 3 the first enemy of the roster that `initEnemies` builds, the red
Smart enemy, starts on `(10, 2)`, and `(10, 2)` is in the wall list of both levels, so the
grid that `initMaze` builds holds a wall there and `isWalkable(10, 2)` is false.  Every
other enemy of these two rosters, and every enemy of levels 1 and 4, starts on a walkable
cell.  In level 2, with the player on the start cell, the first advance of the red enemy
takes it out of the wall onto `(10, 1)`. -/
theorem enemy_starts_in_wall :
    (((10 : Int), (2 : Int)) ∈ lvl2 ∧
      mazeAt (startGame MainWindow.init 2 "").maze 2 10 = some 1 ∧
      startCells (startGame MainWindow.init 2 "") =
        [((10, 2), false), ((23, 23), true), ((1, 23), true)]) ∧
    (((10 : Int), (2 : Int)) ∈ lvl3 ∧
      mazeAt (startGame MainWindow.init 3 "").maze 2 10 = some 1 ∧
      startCells (startGame MainWindow.init 3 "") =
        [((10, 2), false), ((23, 1), true), ((1, 23), true), ((23, 23), true)]) ∧
    startCells (startGame MainWindow.init 1 "") =
      [((1, 23), true), ((23, 23), true), ((12, 1), true)] ∧
    startCells (startGame MainWindow.init 4 "") =
      [((10, 2), true), ((22, 22), true), ((2, 22), true)] ∧
    ((startGame MainWindow.init 2 "").enemies.head? = some redHunter ∧
      (moveEnemy (startGame MainWindow.init 2 "") listPQ redHunter).x = 10 ∧
      (moveEnemy (startGame MainWindow.init 2 "") listPQ redHunter).y = 1) := by
  refine ⟨⟨by decide!, by decide!, by decide!⟩, ⟨by decide!, by decide!, by decide!⟩,
    by decide!, by decide!, by decide!⟩

theorem stepNat_cases (d : Char) (p : Nat × Nat) :
    stepNat d p = p ∨
      adjacent ((p.1 : Int), (p.2 : Int)) (((stepNat d p).1 : Int), ((stepNat d p).2 : Int)) := by
  unfold stepNat adjacent heuristic
  split_ifs
  · right; simp only; omega
  · by_cases h0 : p.1 = 0
    · left
      apply Prod.ext
      · simp only; omega
      · rfl
    · right; simp only; omega
  · right; simp only; omega
  · by_cases h0 : p.2 = 0
    · left
      apply Prod.ext
      · rfl
      · simp only; omega
    · right; simp only; omega
  · left; rfl

theorem route_reach (w : MainWindow) (a : Int × Int) (dirs : List Char) :
    ∀ (cur : Nat × Nat) (k0 : Nat), Walk w a ((cur.1 : Int), (cur.2 : Int)) k0 →
      (∀ c ∈ routeCells cur dirs, isWalkable w (c.1 : Int) (c.2 : Int) = true) →
      ∀ c ∈ routeCells cur dirs, ∃ k, Walk w a ((c.1 : Int), (c.2 : Int)) k := by
  induction dirs with
  | nil =>
    intro cur k0 _ _ c hc
    cases hc
  | cons d ds ih =>
    intro cur k0 hwalk hopen c hc
    have hcells : routeCells cur (d :: ds) = stepNat d cur :: routeCells (stepNat d cur) ds := rfl
    rw [hcells] at hopen hc
    have hw := hopen (stepNat d cur) (List.mem_cons_self _ _)
    have hnext : ∃ k, Walk w a (((stepNat d cur).1 : Int), ((stepNat d cur).2 : Int)) k := by
      rcases stepNat_cases d cur with h0 | hadj
      · rw [h0]
        exact ⟨k0, hwalk⟩
      · exact ⟨k0 + 1, Walk.snoc hwalk hadj hw⟩
    rcases List.mem_cons.1 hc with h | h
    · rw [h]
      exact hnext
    · obtain ⟨k1, hk1⟩ := hnext
      exact ih _ k1 hk1 (fun c' hc' => hopen c' (List.mem_cons_of_mem _ hc')) c h

theorem mazeAt_marks (w : MainWindow) (cells : List (Nat × Nat)) (y x : Nat) :
    mazeAt (marks w cells) y x =
      if y < w.rows ∧ x < w.cols then (if (x, y) ∈ cells then some 1 else some 0) else none := by
  have hmem : (y, x) ∈ cells.map (fun c => (c.2, c.1)) ↔ (x, y) ∈ cells := by
    constructor
    · intro h
      obtain ⟨c, hc, he⟩ := List.mem_map.1 h
      simp only [Prod.mk.injEq] at he
      have : c = (x, y) := Prod.ext he.2 he.1
      rw [← this]
      exact hc
    · intro h
      exact List.mem_map.2 ⟨(x, y), h, rfl⟩
  unfold marks
  have h0 := mazeAt_replicate w.rows w.cols y x
  by_cases hb : y < w.rows ∧ x < w.cols
  · rw [if_pos hb] at h0 ⊢
    rw [mazeAt_stampCells_some _ _ _ _ _ h0]
    by_cases hm : (x, y) ∈ cells
    · rw [if_pos (hmem.2 hm), if_pos hm]
    · rw [if_neg (fun h => hm (hmem.1 h)), if_neg hm]
  · rw [if_neg hb] at h0 ⊢
    exact mazeAt_stampCells_none _ _ _ _ h0

theorem mazeAt_openGrid (maze : List (List Int)) (y x : Nat) :
    mazeAt (openGrid maze) y x =
      (mazeAt maze y x).map (fun v => if v = 0 then (1 : Int) else 0) := by
  unfold mazeAt openGrid
  rw [List.getElem?_map]
  cases hrow : maze[y]? with
  | none => rfl
  | some row =>
    show (row.map _)[x]? = _
    rw [List.getElem?_map]

theorem routeFills_spec (w : MainWindow) (dirs : List Char) (h : routeFills w dirs = true) :
    (∀ c ∈ (1, 1) :: routeCells (1, 1) dirs, isWalkable w (c.1 : Int) (c.2 : Int) = true) ∧
    (∀ x y : Int, isWalkable w x y = true →
      ∃ c ∈ (1, 1) :: routeCells (1, 1) dirs, (c.1 : Int) = x ∧ (c.2 : Int) = y) := by
  unfold routeFills at h
  rw [Bool.and_eq_true] at h
  obtain ⟨hin, heq⟩ := h
  have hgrid : marks w ((1, 1) :: routeCells (1, 1) dirs) = openGrid w.maze :=
    of_decide_eq_true heq
  have hval : ∀ y x : Nat,
      (if y < w.rows ∧ x < w.cols then
        (if (x, y) ∈ (1, 1) :: routeCells (1, 1) dirs then some (1 : Int) else some 0)
       else none) = (mazeAt w.maze y x).map (fun v => if v = 0 then (1 : Int) else 0) := by
    intro y x
    rw [← mazeAt_marks, ← mazeAt_openGrid, hgrid]
  constructor
  · intro c hc
    have hb := List.all_eq_true.1 hin c hc
    simp only [Bool.and_eq_true, decide_eq_true_eq] at hb
    have hv := hval c.2 c.1
    rw [if_pos ⟨hb.2, hb.1⟩, if_pos hc] at hv
    rw [isWalkable_iff]
    refine ⟨by omega, by omega, by omega, by omega, ?_⟩
    rw [Int.toNat_ofNat, Int.toNat_ofNat]
    cases hm : mazeAt w.maze c.2 c.1 with
    | none => rw [hm] at hv; cases hv
    | some v =>
      rw [hm] at hv
      by_cases hz : v = 0
      · rw [hz]
      · exfalso
        simp [hz] at hv
  · intro x y hw
    obtain ⟨p1, p2, p3, p4, hm⟩ := (isWalkable_iff w x y).1 hw
    have hv := hval y.toNat x.toNat
    rw [hm, if_pos ⟨by omega, by omega⟩] at hv
    by_cases hc : (x.toNat, y.toNat) ∈ (1, 1) :: routeCells (1, 1) dirs
    · exact ⟨(x.toNat, y.toNat), hc, Int.toNat_of_nonneg p1, Int.toNat_of_nonneg p2⟩
    · exfalso
      rw [if_neg hc] at hv
      simp at hv

theorem reach_all (w : MainWindow) (dirs : List Char) (h : routeFills w dirs = true)
    (c : Int × Int) (hc : isWalkable w c.1 c.2 = true) : ∃ k, Walk w (1, 1) c k := by
  obtain ⟨hopen, hcov⟩ := routeFills_spec w dirs h
  obtain ⟨c', hc', hx, hy⟩ := hcov c.1 c.2 hc
  have hc_eq : c = ((c'.1 : Int), (c'.2 : Int)) := Prod.ext hx.symm hy.symm
  rw [hc_eq]
  rcases List.mem_cons.1 hc' with h1 | h1
  · rw [h1]
    exact ⟨0, Walk.nil _⟩
  · exact route_reach w (1, 1) dirs (1, 1) 0 (Walk.nil _)
      (fun c2 hc2 => hopen c2 (List.mem_cons_of_mem _ hc2)) c' h1

theorem Walk.congr {w w' : MainWindow} (h : ∀ x y, isWalkable w x y = isWalkable w' x y)
    {a b : Int × Int} {k : Nat} (hw : Walk w a b k) : Walk w' a b k := by
  induction hw with
  | nil => exact Walk.nil _
  | snoc _ hadj hopen ih => exact Walk.snoc ih hadj (by rw [← h]; exact hopen)

theorem currentWalls_congr (a b : MainWindow) (h : a.levels = b.levels) (l : Int) :
    currentWalls a l = currentWalls b l := by
  unfold currentWalls clampLevel
  rw [h]

theorem initMaze_maze_congr (a b : MainWindow) (l : Int) (hr : a.rows = b.rows)
    (hc : a.cols = b.cols) (hw : currentWalls a l = currentWalls b l) :
    (initMaze a l).maze = (initMaze b l).maze := by
  unfold initMaze
  simp only [hr, hc, hw]

theorem loaded_levels (w : MainWindow)
    (hl : w.levels = [] ∨ w.levels = [lvl1, lvl2, lvl3, lvl4]) :
    (if w.levels.isEmpty then setupLevels w else w).levels = [lvl1, lvl2, lvl3, lvl4] := by
  rcases hl with h | h
  · rw [if_pos (by rw [h]; rfl)]
    rfl
  · rw [if_neg (by rw [h]; decide)]
    exact h

theorem startGame_grid (w : MainWindow) (level : Int) (nameInput : String)
    (hr : w.rows = 25) (hc : w.cols = 25)
    (hl : w.levels = [] ∨ w.levels = [lvl1, lvl2, lvl3, lvl4]) :
    (∀ x y, isWalkable (startGame w level nameInput) x y = isWalkable (levelGrid level) x y) ∧
    (∀ p, p ∈ (startGame w level nameInput).food →
      isWalkable (levelGrid level) p.1 p.2 = true ∧ p ≠ (1, 1)) := by
  obtain ⟨b1, b2, b3, _, _, _, b7⟩ := startGame_board w level nameInput
  obtain ⟨_, _, _, s4, s5⟩ := loadLevels_frame w
  have hm : (levelBoard w level).maze = (levelGrid level).maze := by
    unfold levelBoard levelGrid
    apply initMaze_maze_congr
    · exact s4.trans hr
    · exact s5.trans hc
    · exact currentWalls_congr _ _ (loaded_levels w hl) level
  have hwalk : ∀ x y,
      isWalkable (levelBoard w level) x y = isWalkable (levelGrid level) x y :=
    isWalkable_congr _ _ (s4.trans hr) (s5.trans hc) hm
  refine ⟨isWalkable_congr _ _ (b1.trans hr) (b2.trans hc) (b3.trans hm), ?_⟩
  intro p hp
  rw [b7] at hp
  have hx := (mem_initFood_initMaze
    { (if w.levels.isEmpty then setupLevels w else w) with currentLevel := level } level
    p.1 p.2).1 hp
  exact ⟨(hwalk p.1 p.2).symm.trans hx.1, hx.2⟩

theorem route_fills_1 : routeFills (levelGrid 1) (routeOf 1) = true := by
  decide!

theorem route_fills_2 : routeFills (levelGrid 2) (routeOf 2) = true := by
  decide!

theorem route_fills_3 : routeFills (levelGrid 3) (routeOf 3) = true := by
  decide!

theorem route_fills_4 : routeFills (levelGrid 4) (routeOf 4) = true := by
  decide!

theorem levelGrid_reach (level : Int) (h1 : 1 ≤ level) (h4 : level ≤ 4) (c : Int × Int)
    (hc : isWalkable (levelGrid level) c.1 c.2 = true) :
    ∃ k, Walk (levelGrid level) (1, 1) c k := by
  have hcases : level = 1 ∨ level = 2 ∨ level = 3 ∨ level = 4 := by omega
  rcases hcases with h | h | h | h <;> subst h
  · exact reach_all _ _ route_fills_1 c hc
  · exact reach_all _ _ route_fills_2 c hc
  · exact reach_all _ _ route_fills_3 c hc
  · exact reach_all _ _ route_fills_4 c hc

/-- C23: take a window with the 25 x 25 board of the constructor whose level table is
still empty or is the table of `setupLevels`.  After `startGame` on a level 1..4, every
walkable cell of the grid, and so every pellet that `initFood` has placed, is the end of a
4-directional walk that starts on the player's start cell `(1, 1)` and whose cells are all
walkable. -/
theorem pellets_reachable (w : MainWindow) (level : Int) (nameInput : String)
    (hr : w.rows = 25) (hc : w.cols = 25)
    (hl : w.levels = [] ∨ w.levels = [lvl1, lvl2, lvl3, lvl4]) (h1 : 1 ≤ level) (h4 : level ≤ 4) :
    (∀ c : Int × Int, isWalkable (startGame w level nameInput) c.1 c.2 = true →
      ∃ k, Walk (startGame w level nameInput) (1, 1) c k) ∧
    (∀ p ∈ (startGame w level nameInput).food,
      isWalkable (startGame w level nameInput) p.1 p.2 = true ∧
      ∃ k, Walk (startGame w level nameInput) (1, 1) p k) := by
  obtain ⟨g1, g2⟩ := startGame_grid w level nameInput hr hc hl
  have hreach : ∀ c : Int × Int, isWalkable (levelGrid level) c.1 c.2 = true →
      ∃ k, Walk (startGame w level nameInput) (1, 1) c k := by
    intro c hcw
    obtain ⟨k, hk⟩ := levelGrid_reach level h1 h4 c hcw
    exact ⟨k, Walk.congr (fun x y => (g1 x y).symm) hk⟩
  refine ⟨?_, ?_⟩
  · intro c hcw
    exact hreach c ((g1 c.1 c.2).symm.trans hcw)
  · intro p hp
    exact ⟨(g1 p.1 p.2).trans (g2 p hp).1, hreach p (g2 p hp).1⟩

/-- C23 for the freshly constructed window and level 1. -/
theorem pellets_reachable_witness :
    MainWindow.fresh.rows = 25 ∧ MainWindow.fresh.cols = 25 ∧
    (MainWindow.fresh.levels = [] ∨ MainWindow.fresh.levels = [lvl1, lvl2, lvl3, lvl4]) ∧
    (1 : Int) ≤ 1 ∧ (1 : Int) ≤ 4 ∧
    ((∀ c : Int × Int, isWalkable (startGame MainWindow.fresh 1 "") c.1 c.2 = true →
      ∃ k, Walk (startGame MainWindow.fresh 1 "") (1, 1) c k) ∧
    (∀ p ∈ (startGame MainWindow.fresh 1 "").food,
      isWalkable (startGame MainWindow.fresh 1 "") p.1 p.2 = true ∧
      ∃ k, Walk (startGame MainWindow.fresh 1 "") (1, 1) p k)) :=
  ⟨rfl, rfl, Or.inl rfl, by decide, by decide,
    pellets_reachable MainWindow.fresh 1 "" rfl rfl (Or.inl rfl) (by decide) (by decide)⟩

theorem eatFood_keys (w : MainWindow) :
    (eatFood w).playerDirX = w.playerDirX ∧ (eatFood w).playerDirY = w.playerDirY ∧
    (eatFood w).menuVisible = w.menuVisible ∧ (eatFood w).levels = w.levels := by
  unfold eatFood
  simp only
  split_ifs <;> exact ⟨rfl, rfl, rfl, rfl⟩

theorem initEnemies_keys (w : MainWindow) :
    (initEnemies w).playerDirX = w.playerDirX ∧ (initEnemies w).playerDirY = w.playerDirY ∧
    (initEnemies w).menuVisible = w.menuVisible ∧ (initEnemies w).levels = w.levels := by
  unfold initEnemies
  simp only
  split_ifs <;> exact ⟨rfl, rfl, rfl, rfl⟩

theorem initEnemies_simple (w : MainWindow) (h : w.currentLevel = 1) :
    ∀ e ∈ (initEnemies w).enemies, e.type = EnemyType.Simple := by
  unfold initEnemies
  simp only
  rw [if_pos h]
  intro e he
  simp only [List.mem_cons, List.mem_singleton, List.not_mem_nil, or_false] at he
  rcases he with rfl | rfl | rfl <;> rfl

theorem loseLife_keys (w : MainWindow) :
    (loseLife w).playerDirX = w.playerDirX ∧ (loseLife w).playerDirY = w.playerDirY ∧
    (loseLife w).menuVisible = w.menuVisible ∧ (loseLife w).levels = w.levels := by
  obtain ⟨k1, k2, k3, k4⟩ := initEnemies_keys { w with playerX := 1, playerY := 1 }
  unfold loseLife
  simp only
  split_ifs <;> exact ⟨k1, k2, k3, k4⟩

theorem checkCollisions_keys (w : MainWindow) :
    (checkCollisions w).playerDirX = w.playerDirX ∧
    (checkCollisions w).playerDirY = w.playerDirY ∧
    (checkCollisions w).menuVisible = w.menuVisible ∧ (checkCollisions w).levels = w.levels := by
  obtain ⟨e1, e2, e3, e4⟩ := eatFood_keys w
  obtain ⟨l1, l2, l3, l4⟩ := loseLife_keys (eatFood w)
  rw [checkCollisions_eq]
  split_ifs
  · exact ⟨l1.trans e1, l2.trans e2, l3.trans e3, l4.trans e4⟩
  · exact ⟨e1, e2, e3, e4⟩

theorem movePlayer_keys (w : MainWindow) :
    (movePlayer w).playerDirX = w.playerDirX ∧ (movePlayer w).playerDirY = w.playerDirY ∧
    (movePlayer w).menuVisible = w.menuVisible ∧ (movePlayer w).levels = w.levels := by
  rcases movePlayer_cases w with h | h
  · rw [h]; exact ⟨rfl, rfl, rfl, rfl⟩
  · rw [h]
    exact eatFood_keys
      { w with playerX := w.playerX + w.playerDirX, playerY := w.playerY + w.playerDirY }

theorem updateFrame_keys (w : MainWindow) (pq : PQueue) :
    (updateFrame w pq).playerDirX = w.playerDirX ∧ (updateFrame w pq).playerDirY = w.playerDirY ∧
    (updateFrame w pq).menuVisible = w.menuVisible ∧ (updateFrame w pq).levels = w.levels := by
  obtain ⟨m1, m2, m3, m4⟩ := movePlayer_keys { w with mouthOpen := !w.mouthOpen }
  obtain ⟨c1, c2, c3, c4⟩ := checkCollisions_keys (preCollision w pq)
  have key : (checkCollisions (preCollision w pq)).playerDirX = w.playerDirX ∧
      (checkCollisions (preCollision w pq)).playerDirY = w.playerDirY ∧
      (checkCollisions (preCollision w pq)).menuVisible = w.menuVisible ∧
      (checkCollisions (preCollision w pq)).levels = w.levels :=
    ⟨c1.trans m1, c2.trans m2, c3.trans m3, c4.trans m4⟩
  rw [updateFrame_eq]
  split_ifs
  · exact key
  · exact key

theorem movePlayer_at (w : MainWindow) :
    (movePlayer w).playerX =
      (if ¬ (w.playerDirX = 0 ∧ w.playerDirY = 0) ∧
          isWalkable w (w.playerX + w.playerDirX) (w.playerY + w.playerDirY) = true then
        w.playerX + w.playerDirX
      else w.playerX) ∧
    (movePlayer w).playerY =
      (if ¬ (w.playerDirX = 0 ∧ w.playerDirY = 0) ∧
          isWalkable w (w.playerX + w.playerDirX) (w.playerY + w.playerDirY) = true then
        w.playerY + w.playerDirY
      else w.playerY) := by
  unfold movePlayer
  by_cases hd : w.playerDirX = 0 ∧ w.playerDirY = 0
  · rw [if_neg (not_not.2 hd), if_neg (fun h => h.1 hd), if_neg (fun h => h.1 hd)]
    exact ⟨rfl, rfl⟩
  · rw [if_pos hd]
    simp only
    by_cases hw : isWalkable w (w.playerX + w.playerDirX) (w.playerY + w.playerDirY) = true
    · rw [if_pos hw, if_pos ⟨hd, hw⟩, if_pos ⟨hd, hw⟩]
      obtain ⟨_, _, e3, e4, _⟩ := eatFood_frame
        { w with playerX := w.playerX + w.playerDirX, playerY := w.playerY + w.playerDirY }
      exact ⟨e3, e4⟩
    · rw [if_neg hw, if_neg (fun h => hw h.2), if_neg (fun h => hw h.2)]
      exact ⟨rfl, rfl⟩

theorem moveEnemy_simple_congr (a b : MainWindow) (pq : PQueue) (hr : a.rows = b.rows)
    (hc : a.cols = b.cols) (hm : a.maze = b.maze) (e : Enemy)
    (ht : e.type = EnemyType.Simple) : moveEnemy a pq e = moveEnemy b pq e := by
  by_cases h : 0 < e.cooldown
  · rw [moveEnemy_waiting a pq e h, moveEnemy_waiting b pq e h]
  · rw [moveEnemy_simple_ready a pq e ht (by omega), moveEnemy_simple_ready b pq e ht (by omega),
      isWalkable_congr a b hr hc hm]

theorem moveEnemy_simple_type (w : MainWindow) (pq : PQueue) (e : Enemy)
    (ht : e.type = EnemyType.Simple) : (moveEnemy w pq e).type = EnemyType.Simple := by
  by_cases h : 0 < e.cooldown
  · rw [moveEnemy_waiting w pq e h]
    exact ht
  · rw [moveEnemy_simple_ready w pq e ht (by omega)]
    split_ifs <;> exact ht

theorem preCollision_shadow (pq : PQueue) (a b : MainWindow) (h : Shadow a b) :
    (preCollision a pq).playerX = (preCollision b pq).playerX ∧
    (preCollision a pq).playerY = (preCollision b pq).playerY ∧
    (preCollision a pq).enemies = (preCollision b pq).enemies ∧
    tickCollides a pq = tickCollides b pq := by
  obtain ⟨h1, h2, h3, h4, h5, h6, h7, h8, h9, h10, h11, h12, h13, h14, h15, h16⟩ := h
  obtain ⟨_, _, _, _, a5, a6, a7⟩ := preCollision_board a pq
  obtain ⟨_, _, _, _, b5, b6, b7⟩ := preCollision_board b pq
  obtain ⟨ax, ay⟩ := movePlayer_at { a with mouthOpen := !a.mouthOpen }
  obtain ⟨bx, bz⟩ := movePlayer_at { b with mouthOpen := !b.mouthOpen }
  obtain ⟨ma1, ma2, ma3, _⟩ := movePlayer_board { a with mouthOpen := !a.mouthOpen }
  obtain ⟨mb1, mb2, mb3, _⟩ := movePlayer_board { b with mouthOpen := !b.mouthOpen }
  have hwalk : ∀ x y, isWalkable { a with mouthOpen := !a.mouthOpen } x y =
      isWalkable { b with mouthOpen := !b.mouthOpen } x y :=
    fun x y => isWalkable_congr _ _ h1 h2 h3 x y
  dsimp only at ax ay bx bz
  have hx : (movePlayer { a with mouthOpen := !a.mouthOpen }).playerX =
      (movePlayer { b with mouthOpen := !b.mouthOpen }).playerX := by
    rw [ax, bx, hwalk, h6, h7, h8, h9]
  have hy : (movePlayer { a with mouthOpen := !a.mouthOpen }).playerY =
      (movePlayer { b with mouthOpen := !b.mouthOpen }).playerY := by
    rw [ay, bz, hwalk, h6, h7, h8, h9]
  have he : (preCollision a pq).enemies = (preCollision b pq).enemies := by
    rw [a5, b5]
    exact (List.map_congr_left (fun e hmem =>
      moveEnemy_simple_congr _ _ pq (ma1.trans (h1.trans mb1.symm))
        (ma2.trans (h2.trans mb2.symm)) (ma3.trans (h3.trans mb3.symm)) e (h14 e hmem))).trans
      (congrArg _ h5)
  have hpx : (preCollision a pq).playerX = (preCollision b pq).playerX := by rw [a6, b6, hx]
  have hpy : (preCollision a pq).playerY = (preCollision b pq).playerY := by rw [a7, b7, hy]
  refine ⟨hpx, hpy, he, ?_⟩
  unfold tickCollides hitsPlayer
  rw [he, hpx, hpy]

theorem updateFrame_food_empty (w : MainWindow) (pq : PQueue) :
    (updateFrame w pq).food = (checkCollisions (preCollision w pq)).food := by
  rw [updateFrame_eq]
  split_ifs <;> rfl

theorem updateFrame_timer_on (w : MainWindow) (pq : PQueue) (ht : w.timerActive = true)
    (hc : ¬ (tickCollides w pq = true ∧ w.lives - 1 ≤ 0))
    (hf : (updateFrame w pq).food ≠ []) : (updateFrame w pq).timerActive = true := by
  obtain ⟨p1, p2, _⟩ := preCollision_frame w pq
  obtain ⟨_, c2, _⟩ := checkCollisions_lives (preCollision w pq)
  have hfood := updateFrame_food_empty w pq
  rw [updateFrame_eq]
  by_cases he : (checkCollisions (preCollision w pq)).food.isEmpty = true
  · exfalso
    apply hf
    rw [hfood]
    exact List.isEmpty_iff.1 he
  · rw [if_neg he, c2, p1, p2, ht]
    by_cases hh : hitsPlayer (preCollision w pq) = true
    · rw [if_pos hh]
      have : ¬ w.lives - 1 ≤ 0 := fun hl => hc ⟨hh, hl⟩
      simp only [Bool.and_true, decide_eq_true_eq]
      omega
    · rw [if_neg hh]

theorem updateFrame_timer_off (w : MainWindow) (pq : PQueue)
    (h : (updateFrame w pq).timerActive = true) : (updateFrame w pq).food ≠ [] := by
  intro hf
  have := (updateFrame_win w pq hf).1
  rw [this] at h
  cases h

theorem updateFrame_shadow (pq : PQueue) (a b : MainWindow) (h : Shadow a b)
    (hb : (updateFrame b pq).timerActive = true) :
    Shadow (updateFrame a pq) (updateFrame b pq) := by
  obtain ⟨c1, c2, c3, c4⟩ := preCollision_shadow pq a b h
  obtain ⟨h1, h2, h3, h4, h5, h6, h7, h8, h9, h10, h11, h12, h13, h14, h15, h16⟩ := h
  obtain ⟨a1, a2, a3, a4, a5, a6, a7⟩ := updateFrame_board a pq
  obtain ⟨b1, b2, b3, b4, b5, b6, b7⟩ := updateFrame_board b pq
  obtain ⟨_, _, _, _, pa5, pa6, pa7⟩ := preCollision_board a pq
  obtain ⟨_, _, _, _, pb5, pb6, pb7⟩ := preCollision_board b pq
  obtain ⟨ka1, ka2, ka3, ka4⟩ := updateFrame_keys a pq
  obtain ⟨kb1, kb2, kb3, kb4⟩ := updateFrame_keys b pq
  obtain ⟨la, _⟩ := updateFrame_lives a pq
  obtain ⟨lb, tb, _⟩ := updateFrame_lives b pq
  obtain ⟨fa, _⟩ := updateFrame_exact a pq
  obtain ⟨fb, _⟩ := updateFrame_exact b pq
  have hsub : ∀ p ∈ (updateFrame b pq).food, p ∈ (updateFrame a pq).food := by
    intro p hp
    rw [fb] at hp
    rw [fa, c1, c2]
    obtain ⟨hp1, hp2⟩ := (mem_setRemove _ _ _).1 hp
    exact (mem_setRemove _ _ _).2 ⟨h15 p hp1, hp2⟩
  have hne : (updateFrame a pq).food ≠ [] := by
    intro hnil
    have hbne := updateFrame_timer_off b pq hb
    cases hfb : (updateFrame b pq).food with
    | nil => exact hbne hfb
    | cons p ps =>
      have := hsub p (by rw [hfb]; exact List.mem_cons_self _ _)
      rw [hnil] at this
      cases this
  obtain ⟨tb1, tb2⟩ := tb hb
  have hta : (updateFrame a pq).timerActive = true :=
    updateFrame_timer_on a pq (h12.trans tb1) (by rw [c4, h10]; exact tb2) hne
  have hen : (updateFrame a pq).enemies = (updateFrame b pq).enemies := by
    rw [a5, b5, c4, ← pa5, ← pb5, c3, initEnemies_roster_congr b a h1 h2 h4]
  refine ⟨a1.trans (h1.trans b1.symm), a2.trans (h2.trans b2.symm),
    a3.trans (h3.trans b3.symm), a4.trans (h4.trans b4.symm), hen, ?_, ?_,
    ka1.trans (h8.trans kb1.symm), ka2.trans (h9.trans kb2.symm), ?_,
    ka3.trans (h11.trans kb3.symm), hta.trans hb.symm, a4.trans h13, ?_, hsub,
    ka4.trans (h16.trans kb4.symm)⟩
  · rw [a6, b6, c4, ← pa6, ← pb6, c1]
  · rw [a7, b7, c4, ← pa7, ← pb7, c2]
  · rw [la, lb, c4, h10]
  · intro e he
    rw [a5] at he
    by_cases hcol : tickCollides a pq = true
    · rw [if_pos hcol] at he
      exact initEnemies_simple a h13 e he
    · rw [if_neg hcol] at he
      obtain ⟨e0, he0, rfl⟩ := List.mem_map.1 he
      exact moveEnemy_simple_type _ pq e0 (h14 e0 he0)

theorem keyPress_shadow (a b : MainWindow) (k : Key) (h : Shadow a b) :
    Shadow (keyPressEvent a k) (keyPressEvent b k) := by
  obtain ⟨h1, h2, h3, h4, h5, h6, h7, h8, h9, h10, h11, h12, h13, h14, h15, h16⟩ := h
  unfold keyPressEvent
  by_cases hm : b.menuVisible = true
  · rw [if_pos hm, if_pos (h11.trans hm)]
    exact ⟨h1, h2, h3, h4, h5, h6, h7, h8, h9, h10, h11, h12, h13, h14, h15, h16⟩
  · rw [if_neg hm, if_neg (by rw [h11]; exact hm)]
    cases k
    · exact ⟨h1, h2, h3, h4, h5, h6, h7, rfl, rfl, h10, h11, h12, h13, h14, h15, h16⟩
    · exact ⟨h1, h2, h3, h4, h5, h6, h7, rfl, rfl, h10, h11, h12, h13, h14, h15, h16⟩
    · exact ⟨h1, h2, h3, h4, h5, h6, h7, rfl, rfl, h10, h11, h12, h13, h14, h15, h16⟩
    · exact ⟨h1, h2, h3, h4, h5, h6, h7, rfl, rfl, h10, h11, h12, h13, h14, h15, h16⟩
    · exact ⟨h1, h2, h3, h4, h5, h6, h7, h8, h9, h10, h11, h12, h13, h14, h15, h16⟩

theorem keyRelease_shadow (a b : MainWindow) (k : Key) (h : Shadow a b) :
    Shadow (keyReleaseEvent a k) (keyReleaseEvent b k) := by
  obtain ⟨h1, h2, h3, h4, h5, h6, h7, h8, h9, h10, h11, h12, h13, h14, h15, h16⟩ := h
  unfold keyReleaseEvent
  by_cases hm : b.menuVisible = true
  · rw [if_pos hm, if_pos (h11.trans hm)]
    exact ⟨h1, h2, h3, h4, h5, h6, h7, h8, h9, h10, h11, h12, h13, h14, h15, h16⟩
  · rw [if_neg hm, if_neg (by rw [h11]; exact hm)]
    cases k
    · exact ⟨h1, h2, h3, h4, h5, h6, h7, rfl, rfl, h10, h11, h12, h13, h14, h15, h16⟩
    · exact ⟨h1, h2, h3, h4, h5, h6, h7, rfl, rfl, h10, h11, h12, h13, h14, h15, h16⟩
    · exact ⟨h1, h2, h3, h4, h5, h6, h7, rfl, rfl, h10, h11, h12, h13, h14, h15, h16⟩
    · exact ⟨h1, h2, h3, h4, h5, h6, h7, rfl, rfl, h10, h11, h12, h13, h14, h15, h16⟩
    · exact ⟨h1, h2, h3, h4, h5, h6, h7, h8, h9, h10, h11, h12, h13, h14, h15, h16⟩

theorem showLevelSelect_shadow (a b : MainWindow) (h : Shadow a b) :
    Shadow (showLevelSelect a) (showLevelSelect b) := by
  obtain ⟨h1, h2, h3, h4, h5, h6, h7, h8, h9, h10, h11, h12, h13, h14, h15, h16⟩ := h
  exact ⟨h1, h2, h3, h4, h5, h6, h7, h8, h9, h10, rfl, rfl, h13, h14, h15, h16⟩

theorem step_timer_on (pq : PQueue) (w : MainWindow) (ev : Event)
    (h : (step pq w ev).timerActive = true) : w.timerActive = true := by
  cases ev with
  | press k =>
    obtain ⟨_, _, _, k4, _⟩ := keyPressEvent_frame w k
    exact k4.symm.trans h
  | release k =>
    obtain ⟨_, _, _, k4, _⟩ := keyReleaseEvent_frame w k
    exact k4.symm.trans h
  | timeout =>
    rw [step_timeout] at h
    by_cases ht : w.timerActive = true
    · exact ht
    · rw [if_neg ht] at h
      exact h

theorem run_timer_on (pq : PQueue) (evs : List Event) (w : MainWindow)
    (h : (run pq w evs).timerActive = true) : w.timerActive = true := by
  induction evs generalizing w with
  | nil => exact h
  | cons ev evs ih =>
    rw [run_cons] at h
    exact step_timer_on pq w ev (ih _ h)

theorem step_shadow (pq : PQueue) (a b : MainWindow) (ev : Event) (h : Shadow a b)
    (hb : (step pq b ev).timerActive = true) :
    Shadow (step pq a ev) (step pq b ev) ∧
    (step pq a ev).food =
      (if ev = Event.timeout ∧ b.timerActive = true then
        [((preCollision b pq).playerX, (preCollision b pq).playerY)]
      else []).foldl setRemove a.food := by
  cases ev with
  | press k =>
    refine ⟨keyPress_shadow a b k h, ?_⟩
    rw [if_neg (fun h' => by cases h'.1)]
    exact (keyPressEvent_frame a k).1
  | release k =>
    refine ⟨keyRelease_shadow a b k h, ?_⟩
    rw [if_neg (fun h' => by cases h'.1)]
    exact (keyReleaseEvent_frame a k).1
  | timeout =>
    have hbt : b.timerActive = true := step_timer_on pq b Event.timeout hb
    have hat : a.timerActive = true := h.2.2.2.2.2.2.2.2.2.2.2.1.trans hbt
    obtain ⟨c1, c2, _, _⟩ := preCollision_shadow pq a b h
    rw [step_timeout, step_timeout, if_pos hbt, if_pos hat] at *
    refine ⟨updateFrame_shadow pq a b h hb, ?_⟩
    rw [if_pos ⟨rfl, hbt⟩, (updateFrame_exact a pq).1, c1, c2]
    rfl

theorem run_shadow (pq : PQueue) (evs : List Event) (a b : MainWindow) (h : Shadow a b)
    (hb : (run pq b evs).timerActive = true) :
    Shadow (run pq a evs) (run pq b evs) ∧
    (run pq a evs).food = (track pq b evs).foldl setRemove a.food := by
  induction evs generalizing a b with
  | nil => exact ⟨h, rfl⟩
  | cons ev evs ih =>
    rw [run_cons] at hb
    have hstep := step_shadow pq a b ev h (run_timer_on pq evs _ hb)
    obtain ⟨i1, i2⟩ := ih _ _ hstep.1 hb
    rw [run_cons, run_cons]
    refine ⟨i1, ?_⟩
    rw [i2, hstep.2]
    show _ = List.foldl setRemove a.food (_ ++ track pq (step pq b ev) evs)
    rw [List.foldl_append]

theorem mem_foldl_setRemove (l : List (Int × Int)) (s : List (Int × Int)) (q : Int × Int) :
    q ∈ l.foldl setRemove s ↔ q ∈ s ∧ q ∉ l := by
  induction l generalizing s with
  | nil => simp
  | cons c l ih =>
    rw [List.foldl_cons, ih, mem_setRemove]
    simp only [List.mem_cons, not_or]
    tauto

theorem chaseShadow_visit :
    (run listPQ chaseShadow (go Key.right 5)).timerActive = true ∧
    track listPQ chaseShadow (go Key.right 5) = [(2, 1), (3, 1), (4, 1), (5, 1), (6, 1)] ∧
    (showLevelSelect (run listPQ chaseShadow (go Key.right 5))).rows = 25 ∧
    (showLevelSelect (run listPQ chaseShadow (go Key.right 5))).cols = 25 ∧
    (showLevelSelect (run listPQ chaseShadow (go Key.right 5))).levels =
      [lvl1, lvl2, lvl3, lvl4] := by
  decide!

theorem winShadow_run :
    (run listPQ winShadow winEvents).timerActive = true ∧
    track listPQ winShadow (winEvents ++ [Event.timeout]) =
      (routeCells (1, 1) (winRoute ++ ['L'])).map (fun c => ((c.1 : Int), (c.2 : Int))) := by
  decide!

theorem route_fills_win : routeFills (levelGrid 1) (winRoute ++ ['L']) = true := by
  decide!

theorem startGame_pellet (w : MainWindow) (level : Int) (nameInput : String)
    (hr : w.rows = 25) (hc : w.cols = 25)
    (hl : w.levels = [] ∨ w.levels = [lvl1, lvl2, lvl3, lvl4]) (p : Int × Int)
    (hp : isWalkable (levelGrid level) p.1 p.2 = true) (hne : p ≠ (1, 1)) :
    p ∈ (startGame w level nameInput).food := by
  obtain ⟨g1, _⟩ := startGame_grid w level nameInput hr hc hl
  obtain ⟨b1, b2, b3, _, _, _, b7⟩ := startGame_board w level nameInput
  obtain ⟨_, _, _, s4, s5⟩ := loadLevels_frame w
  have hw : isWalkable (levelBoard w level) p.1 p.2 = true := by
    rw [isWalkable_congr (levelBoard w level) (startGame w level nameInput)
      ((show (levelBoard w level).rows = w.rows from s4).trans b1.symm)
      ((show (levelBoard w level).cols = w.cols from s5).trans b2.symm) b3.symm, g1]
    exact hp
  rw [b7]
  exact (mem_initFood_initMaze
    { (if w.levels.isEmpty then setupLevels w else w) with currentLevel := level } level
    p.1 p.2).2 ⟨hw, hne⟩

theorem startGame_simple (w : MainWindow) (nameInput : String) :
    ∀ e ∈ (startGame w 1 nameInput).enemies, e.type = EnemyType.Simple := by
  obtain ⟨_, _, _, _, _, b6, _⟩ := startGame_board w 1 nameInput
  rw [b6]
  exact initEnemies_simple _ rfl

theorem askName_keys (w : MainWindow) (nameInput : String) :
    (askName w nameInput).playerDirX = w.playerDirX ∧
    (askName w nameInput).playerDirY = w.playerDirY ∧
    (askName w nameInput).levels = w.levels := by
  unfold askName
  split_ifs <;> exact ⟨rfl, rfl, rfl⟩

theorem startGame_keys (w : MainWindow) (level : Int) (nameInput : String) :
    (startGame w level nameInput).playerDirX = w.playerDirX ∧
    (startGame w level nameInput).playerDirY = w.playerDirY ∧
    (startGame w level nameInput).menuVisible = false ∧
    (startGame w level nameInput).levels =
      (if w.levels.isEmpty then setupLevels w else w).levels := by
  have hl : (if w.levels.isEmpty then setupLevels w else w).playerDirX = w.playerDirX ∧
      (if w.levels.isEmpty then setupLevels w else w).playerDirY = w.playerDirY := by
    split_ifs <;> exact ⟨rfl, rfl⟩
  generalize hw1 : (if w.levels.isEmpty then setupLevels w else w) = w1 at hl ⊢
  have hsg : startGame w level nameInput =
      { askName { initEnemies (initFood (initMaze { w1 with currentLevel := level } level)) with
            lives := 3 } nameInput with
          currentPlayerName := (askName { initEnemies (initFood (initMaze
            { w1 with currentLevel := level } level)) with lives := 3 } nameInput).playerName
          mouthOpen := false, timerActive := true, menuVisible := false } := by
    unfold startGame
    simp only
    rw [hw1]
  obtain ⟨e1, e2, _, e4⟩ :=
    initEnemies_keys (initFood (initMaze { w1 with currentLevel := level } level))
  obtain ⟨a1, a2, a3⟩ :=
    askName_keys { initEnemies (initFood (initMaze { w1 with currentLevel := level } level)) with
      lives := 3 } nameInput
  rw [hsg]
  exact ⟨a1.trans (e1.trans hl.1), a2.trans (e2.trans hl.2), rfl, a3.trans e4⟩

theorem startGame_shadow (w w' : MainWindow) (nameInput nameInput' : String)
    (hr : w.rows = w'.rows) (hc : w.cols = w'.cols) (hl : w.levels = w'.levels)
    (hx : w.playerDirX = w'.playerDirX) (hy : w.playerDirY = w'.playerDirY) (p : Int × Int)
    (hp : p ∈ (startGame w 1 nameInput).food) :
    Shadow (startGame w 1 nameInput) { startGame w' 1 nameInput' with food := [p] } := by
  obtain ⟨a1, a2, a3, a4, a5, a6, _⟩ := startGame_board w 1 nameInput
  obtain ⟨b1, b2, b3, b4, b5, b6, _⟩ := startGame_board w' 1 nameInput'
  obtain ⟨f1, _, _, f4, _, f6, _⟩ := startGame_fields w 1 nameInput
  obtain ⟨g1, _, _, g4, _, g6, _⟩ := startGame_fields w' 1 nameInput'
  obtain ⟨k1, k2, k3, k4⟩ := startGame_keys w 1 nameInput
  obtain ⟨m1, m2, m3, m4⟩ := startGame_keys w' 1 nameInput'
  obtain ⟨_, _, _, s4, s5⟩ := loadLevels_frame w
  obtain ⟨_, _, _, t4, t5⟩ := loadLevels_frame w'
  have hlv : (if w.levels.isEmpty then setupLevels w else w).levels =
      (if w'.levels.isEmpty then setupLevels w' else w').levels := by
    rw [hl]
    split_ifs
    · rfl
    · exact hl
  have hmaze : (levelBoard w 1).maze = (levelBoard w' 1).maze := by
    unfold levelBoard
    apply initMaze_maze_congr
    · exact s4.trans (hr.trans t4.symm)
    · exact s5.trans (hc.trans t5.symm)
    · exact currentWalls_congr _ _ hlv 1
  have hen : (initEnemies (initFood (levelBoard w 1))).enemies =
      (initEnemies (initFood (levelBoard w' 1))).enemies :=
    initEnemies_roster_congr _ _
      ((show (initFood (levelBoard w 1)).rows = w.rows from s4).trans
        (hr.trans (show (initFood (levelBoard w' 1)).rows = w'.rows from t4).symm))
      ((show (initFood (levelBoard w 1)).cols = w.cols from s5).trans
        (hc.trans (show (initFood (levelBoard w' 1)).cols = w'.cols from t5).symm))
      rfl
  refine ⟨a1.trans (hr.trans b1.symm), a2.trans (hc.trans b2.symm),
    a3.trans (hmaze.trans b3.symm), f6.trans g6.symm, a6.trans (hen.trans b6.symm),
    a4.trans b4.symm, a5.trans b5.symm, k1.trans (hx.trans m1.symm),
    k2.trans (hy.trans m2.symm), f1.trans g1.symm, k3.trans m3.symm, f4.trans g4.symm, f6,
    startGame_simple w nameInput, ?_, k4.trans (hlv.trans m4.symm)⟩
  intro q hq
  rw [List.mem_singleton.1 hq]
  exact hp

theorem track_append (pq : PQueue) (evs evs' : List Event) (w : MainWindow) :
    track pq w (evs ++ evs') = track pq w evs ++ track pq (run pq w evs) evs' := by
  induction evs generalizing w with
  | nil => rfl
  | cons ev evs ih =>
    show _ ++ track pq (step pq w ev) (evs ++ evs') = (_ ++ track pq (step pq w ev) evs) ++ _
    rw [ih, run_cons, List.append_assoc]

theorem run_shadow_last (pq : PQueue) (evs : List Event) (a b : MainWindow) (h : Shadow a b)
    (hb : (run pq b evs).timerActive = true) :
    (run pq a evs).timerActive = true ∧
    (run pq a (evs ++ [Event.timeout])).food =
      (track pq b (evs ++ [Event.timeout])).foldl setRemove a.food := by
  obtain ⟨hs, hf⟩ := run_shadow pq evs a b h hb
  have hta : (run pq a evs).timerActive = true := hs.2.2.2.2.2.2.2.2.2.2.2.1.trans hb
  obtain ⟨c1, c2, _, _⟩ := preCollision_shadow pq _ _ hs
  refine ⟨hta, ?_⟩
  rw [run_last_tick pq a evs hta, (updateFrame_exact _ pq).1, hf, c1, c2, track_append,
    List.foldl_append]
  show _ = List.foldl setRemove _ ((if _ then _ else []) ++ [])
  rw [if_pos ⟨rfl, hb⟩]
  rfl

theorem length_foldl_setRemove (l s : List (Int × Int)) (hs : s.Nodup) (hl : l.Nodup)
    (hsub : ∀ c ∈ l, c ∈ s) : (l.foldl setRemove s).length + l.length = s.length := by
  induction l generalizing s with
  | nil => rfl
  | cons c l ih =>
    obtain ⟨hc, hl'⟩ := List.nodup_cons.1 hl
    have h1 := length_setRemove s c hs (hsub c (List.mem_cons_self _ _))
    have h2 := ih (setRemove s c) (nodup_setRemove _ _ hs) hl' (fun c' hc' =>
      (mem_setRemove _ _ _).2 ⟨hsub c' (List.mem_cons_of_mem _ hc'), fun e => hc (e ▸ hc')⟩)
    rw [List.foldl_cons, List.length_cons]
    omega

theorem win_cells_cover (p : Int × Int) (hp : isWalkable (levelGrid 1) p.1 p.2 = true)
    (hne : p ≠ (1, 1)) :
    p ∈ (routeCells (1, 1) (winRoute ++ ['L'])).map (fun c => ((c.1 : Int), (c.2 : Int))) := by
  obtain ⟨c, hc, h1, h2⟩ := (routeFills_spec _ _ route_fills_win).2 p.1 p.2 hp
  rcases List.mem_cons.1 hc with h | h
  · exfalso
    apply hne
    rw [h] at h1 h2
    exact Prod.ext h1.symm h2.symm
  · exact List.mem_map.2 ⟨c, h, Prod.ext h1 h2⟩

theorem pellet_count_le (w : MainWindow) (level : Int) (nameInput : String)
    (hr : w.rows = 25) (hc : w.cols = 25)
    (hl : w.levels = [] ∨ w.levels = [lvl1, lvl2, lvl3, lvl4]) :
    (startGame w level nameInput).food.length ≤ 625 := by
  obtain ⟨_, _, hnd, _⟩ := startGame_fields w level nameInput
  obtain ⟨_, g2⟩ := startGame_grid w level nameInput hr hc hl
  have hsub : (startGame w level nameInput).food ⊆
      (List.range 25).flatMap
        (fun (x : Nat) => (List.range 25).map (fun (y : Nat) => ((x : Int), (y : Int)))) := by
    intro p hp
    have hw := (isWalkable_iff _ _ _).1 (g2 p hp).1
    have hrows : (levelGrid level).rows = 25 := rfl
    have hcols : (levelGrid level).cols = 25 := rfl
    rw [hrows, hcols] at hw
    rw [List.mem_flatMap]
    refine ⟨p.1.toNat, List.mem_range.2 (by omega), ?_⟩
    rw [List.mem_map]
    refine ⟨p.2.toNat, List.mem_range.2 (by omega), ?_⟩
    apply Prod.ext
    · show ((p.1.toNat : Nat) : Int) = p.1
      omega
    · show ((p.2.toNat : Nat) : Int) = p.2
      omega
  have hlen := (List.subperm_of_subset hnd hsub).length_le
  have h625 : ((List.range 25).flatMap
      (fun (x : Nat) => (List.range 25).map (fun (y : Nat) => ((x : Int), (y : Int))))).length = 625 := by
    decide!
  omega

theorem showLevelSelect_score (w : MainWindow) : (showLevelSelect w).score = w.score := rfl

theorem init_shape :
    MainWindow.init.rows = 25 ∧ MainWindow.init.cols = 25 ∧
    (MainWindow.init.levels = [] ∨ MainWindow.init.levels = [lvl1, lvl2, lvl3, lvl4]) ∧
    MainWindow.init.score = 0 :=
  ⟨rfl, rfl, Or.inr rfl, rfl⟩

theorem chaseShadow_shadow : Shadow (startGame MainWindow.init 1 "") chaseShadow :=
  startGame_shadow MainWindow.init MainWindow.init "" "" rfl rfl rfl rfl rfl (13, 17)
    (startGame_pellet MainWindow.init 1 "" init_shape.1 init_shape.2.1 init_shape.2.2.1 (13, 17)
      (by decide!) (by decide))

theorem firstVisit_shadow :
    Shadow firstVisit (showLevelSelect (run listPQ chaseShadow (go Key.right 5))) :=
  showLevelSelect_shadow _ _
    (run_shadow listPQ (go Key.right 5) _ _ chaseShadow_shadow chaseShadow_visit.1).1

theorem first_cells_open :
    ∀ c ∈ [((2 : Int), (1 : Int)), (3, 1), (4, 1), (5, 1), (6, 1)],
      isWalkable (levelGrid 1) c.1 c.2 = true ∧ c ≠ (1, 1) := by
  decide!

theorem firstVisit_shape :
    firstVisit.rows = 25 ∧ firstVisit.cols = 25 ∧
    (firstVisit.levels = [] ∨ firstVisit.levels = [lvl1, lvl2, lvl3, lvl4]) ∧
    firstVisit.score = 50 := by
  obtain ⟨v1, v2, v3, v4, v5⟩ := chaseShadow_visit
  have hs := firstVisit_shadow
  obtain ⟨hr, hc, hl, hz⟩ := init_shape
  refine ⟨hs.1.trans v3, hs.2.1.trans v4, Or.inr (hs.2.2.2.2.2.2.2.2.2.2.2.2.2.2.2.trans v5), ?_⟩
  obtain ⟨_, s2, s3, _⟩ := startGame_fields MainWindow.init 1 ""
  have hk := pellet_count_le MainWindow.init 1 "" hr hc hl
  have hfit : ScoreFits (startGame MainWindow.init 1 "") := by
    unfold ScoreFits
    rw [s2, hz]
    omega
  have hacc := (run_account listPQ (go Key.right 5) _ s3 hfit).2
  have hfood := (run_shadow listPQ (go Key.right 5) _ _ chaseShadow_shadow v1).2
  have hlen := length_foldl_setRemove
    [((2 : Int), (1 : Int)), (3, 1), (4, 1), (5, 1), (6, 1)]
    (startGame MainWindow.init 1 "").food s3 (by decide)
    (fun c hc' => startGame_pellet MainWindow.init 1 "" hr hc hl c
      (first_cells_open c hc').1 (first_cells_open c hc').2)
  rw [v2] at hfood
  rw [hfood, s2, hz] at hacc
  unfold firstVisit
  rw [showLevelSelect_score]
  simp only [List.length_cons, List.length_nil] at hlen
  omega

theorem winning_session :
    (run listPQ (startGame firstVisit 1 "") winEvents).timerActive = true ∧
    (run listPQ (startGame firstVisit 1 "") (winEvents ++ [Event.timeout])).food = [] := by
  obtain ⟨hr, hc, hl, _⟩ := firstVisit_shape
  have hf := firstVisit_shadow
  have hsh : Shadow (startGame firstVisit 1 "") winShadow :=
    startGame_shadow firstVisit _ "" "" hf.1 hf.2.1 hf.2.2.2.2.2.2.2.2.2.2.2.2.2.2.2
      hf.2.2.2.2.2.2.2.1 hf.2.2.2.2.2.2.2.2.1 (13, 17)
      (startGame_pellet firstVisit 1 "" hr hc hl (13, 17) (by decide!) (by decide))
  obtain ⟨e1, e2⟩ := winShadow_run
  obtain ⟨l1, l2⟩ := run_shadow_last listPQ winEvents _ _ hsh e1
  refine ⟨l1, ?_⟩
  rw [l2, e2]
  apply List.eq_nil_iff_forall_not_mem.2
  intro q hq
  obtain ⟨hq1, hq2⟩ := (mem_foldl_setRemove _ _ _).1 hq
  obtain ⟨_, g2⟩ := startGame_grid firstVisit 1 "" hr hc hl
  exact hq2 (win_cells_cover q (g2 q hq1).1 (g2 q hq1).2)

theorem winning_fits :
    -2147483648 ≤ firstVisit.score ∧
    firstVisit.score + 10 * ((startGame firstVisit 1 "").food.length : Int) ≤ 2147483647 := by
  obtain ⟨hr, hc, hl, hs⟩ := firstVisit_shape
  have hk := pellet_count_le firstVisit 1 "" hr hc hl
  rw [hs]
  omega

/-- C8 fails as stated: in the freshly constructed program level 1 is visited once, five
pellets are eaten and the player returns to the level menu with 50 points; level 1 is then
started again, with all its pellets, and the winning route is played.  The timer runs
until the last tick; that tick leaves the pellet set empty and stops the timer, and the
score is then 50 more than 10 times the number of pellets the level started with. -/
theorem win_score_carries_over :
    firstVisit.score = 50 ∧
    (run listPQ (startGame firstVisit 1 "") winEvents).timerActive = true ∧
    (run listPQ (startGame firstVisit 1 "") (winEvents ++ [Event.timeout])).food = [] ∧
    (run listPQ (startGame firstVisit 1 "") (winEvents ++ [Event.timeout])).timerActive = false ∧
    (run listPQ (startGame firstVisit 1 "") (winEvents ++ [Event.timeout])).score =
      50 + 10 * ((startGame firstVisit 1 "").food.length : Int) ∧
    (run listPQ (startGame firstVisit 1 "") (winEvents ++ [Event.timeout])).score ≠
      10 * ((startGame firstVisit 1 "").food.length : Int) := by
  obtain ⟨h1, h2⟩ := winning_session
  obtain ⟨f1, f2⟩ := winning_fits
  obtain ⟨_, s2, s3, _⟩ := startGame_fields firstVisit 1 ""
  have hfit : ScoreFits (startGame firstVisit 1 "") := by
    unfold ScoreFits
    rw [s2]
    exact ⟨f1, f2⟩
  have hacc := (run_account listPQ (winEvents ++ [Event.timeout]) _ s3 hfit).2
  have hw := updateFrame_win (run listPQ (startGame firstVisit 1 "") winEvents) listPQ
    (by rw [← run_last_tick listPQ _ winEvents h1]; exact h2)
  rw [← run_last_tick listPQ _ winEvents h1] at hw
  have hscore : (run listPQ (startGame firstVisit 1 "") (winEvents ++ [Event.timeout])).score =
      50 + 10 * ((startGame firstVisit 1 "").food.length : Int) := by
    rw [h2, s2, firstVisit_shape.2.2.2] at hacc
    simpa using hacc
  refine ⟨firstVisit_shape.2.2.2, h1, h2, hw.1, hscore, ?_⟩
  rw [hscore]
  omega

/-- C8 (as amended) at the winning session of level 1 that is entered with the 50 points
of a first visit. -/
theorem win_tick_score_witness :
    -2147483648 ≤ firstVisit.score ∧
    firstVisit.score + 10 * ((startGame firstVisit 1 "").food.length : Int) ≤ 2147483647 ∧
    (run listPQ (startGame firstVisit 1 "") winEvents).timerActive = true ∧
    (run listPQ (startGame firstVisit 1 "") (winEvents ++ [Event.timeout])).food = [] ∧
    ((run listPQ (startGame firstVisit 1 "") (winEvents ++ [Event.timeout])).timerActive = false ∧
    (∃ rest, (run listPQ (startGame firstVisit 1 "") (winEvents ++ [Event.timeout])).pending =
        rest ++ [Callback.win]) ∧
    (run listPQ (startGame firstVisit 1 "") (winEvents ++ [Event.timeout])).score =
      firstVisit.score + 10 * ((startGame firstVisit 1 "").food.length : Int) ∧
    (run listPQ (startGame firstVisit 1 "") winEvents).score =
      firstVisit.score + 10 * (((startGame firstVisit 1 "").food.length : Int) -
        ((run listPQ (startGame firstVisit 1 "") winEvents).food.length : Int))) :=
  ⟨winning_fits.1, winning_fits.2, winning_session.1, winning_session.2,
    win_tick_score listPQ firstVisit 1 "" winEvents winning_fits.1 winning_fits.2
      winning_session.1 winning_session.2⟩

theorem chaseShadow_run :
    (run listPQ chaseShadow (go Key.right 21 ++ [Event.timeout])).timerActive = true ∧
    (run listPQ chaseShadow (go Key.right 21)).enemies =
      [⟨12, 23, 1, 0, Color.green, EnemyType.Simple, QRect.null, 1, 1⟩,
       ⟨23, 13, 0, -1, Color.blue, EnemyType.Simple, QRect.null, 1, 0⟩,
       ⟨23, 1, 1, 0, Color.red, EnemyType.Simple, QRect.null, 1, 1⟩] ∧
    (run listPQ chaseShadow (go Key.right 21 ++ [Event.timeout])).enemies =
      [⟨1, 23, 1, 0, Color.green, EnemyType.Simple, QRect.null, 1, 0⟩,
       ⟨23, 23, 0, -1, Color.blue, EnemyType.Simple, QRect.null, 1, 1⟩,
       ⟨12, 1, 1, 0, Color.red, EnemyType.Simple, QRect.null, 1, 0⟩] ∧
    (run listPQ chaseShadow (go Key.right 21)).lives = 3 ∧
    (run listPQ chaseShadow (go Key.right 21 ++ [Event.timeout])).lives = 2 := by
  decide!

/-- C19 fails as stated: level 1 is started in the freshly constructed window and the right
arrow is held for 21 ticks.  The timer is running, and the green and the red enemy have
cooldown 1.  The next tick moves the player onto the red enemy's cell `(23, 1)`; the
collision is resolved, a life is lost, and the roster is rebuilt: the red enemy, whose
cooldown was positive, stands on `(12, 1)` after the tick and the green one on `(1, 23)`,
so their positions did not stay unchanged. -/
theorem collision_tick_moves_waiting_enemies :
    (run listPQ (startGame MainWindow.init 1 "") (go Key.right 21)).timerActive = true ∧
    (run listPQ (startGame MainWindow.init 1 "") (go Key.right 21)).enemies =
      [⟨12, 23, 1, 0, Color.green, EnemyType.Simple, QRect.null, 1, 1⟩,
       ⟨23, 13, 0, -1, Color.blue, EnemyType.Simple, QRect.null, 1, 0⟩,
       ⟨23, 1, 1, 0, Color.red, EnemyType.Simple, QRect.null, 1, 1⟩] ∧
    (run listPQ (startGame MainWindow.init 1 "") (go Key.right 21 ++ [Event.timeout])).enemies =
      [⟨1, 23, 1, 0, Color.green, EnemyType.Simple, QRect.null, 1, 0⟩,
       ⟨23, 23, 0, -1, Color.blue, EnemyType.Simple, QRect.null, 1, 1⟩,
       ⟨12, 1, 1, 0, Color.red, EnemyType.Simple, QRect.null, 1, 0⟩] ∧
    (run listPQ (startGame MainWindow.init 1 "") (go Key.right 21)).lives = 3 ∧
    (run listPQ (startGame MainWindow.init 1 "") (go Key.right 21 ++ [Event.timeout])).lives = 2 ∧
    ¬ (∀ (i : Nat) (e e' : Enemy),
        (run listPQ (startGame MainWindow.init 1 "") (go Key.right 21)).enemies[i]? = some e →
        (run listPQ (startGame MainWindow.init 1 "")
          (go Key.right 21 ++ [Event.timeout])).enemies[i]? = some e' →
        0 < e.cooldown →
        e'.cooldown = e.cooldown - 1 ∧ e'.x = e.x ∧ e'.y = e.y ∧ e'.dx = e.dx ∧ e'.dy = e.dy) := by
  have hsh : Shadow (startGame MainWindow.init 1 "") chaseShadow := chaseShadow_shadow
  obtain ⟨e1, e2, e3, e4, e5⟩ := chaseShadow_run
  have s2 := (run_shadow listPQ (go Key.right 21 ++ [Event.timeout]) _ _ hsh e1).1
  have hb1 : (run listPQ chaseShadow (go Key.right 21)).timerActive = true := by
    rw [run_append] at e1
    exact run_timer_on listPQ [Event.timeout] _ e1
  have s1 := (run_shadow listPQ (go Key.right 21) _ _ hsh hb1).1
  have t1 : (run listPQ (startGame MainWindow.init 1 "") (go Key.right 21)).timerActive = true :=
    s1.2.2.2.2.2.2.2.2.2.2.2.1.trans hb1
  have n1 := s1.2.2.2.2.1.trans e2
  have n2 := s2.2.2.2.2.1.trans e3
  have l1 := s1.2.2.2.2.2.2.2.2.2.1.trans e4
  have l2 := s2.2.2.2.2.2.2.2.2.2.1.trans e5
  refine ⟨t1, n1, n2, l1, l2, ?_⟩
  intro hall
  have h := hall 2 ⟨23, 1, 1, 0, Color.red, EnemyType.Simple, QRect.null, 1, 1⟩
    ⟨12, 1, 1, 0, Color.red, EnemyType.Simple, QRect.null, 1, 0⟩
    (by rw [n1]; rfl) (by rw [n2]; rfl) (by decide)
  exact absurd h.2.1 (by decide)

end Pacman
